import Mathlib

/-!
Shallow embedding of the collection permissions graph reconciliation logic of
`internal/provider/collection_graph_resource.go` from the
`terraform-provider-metabase` repository, together with proofs about it.

Modelling conventions:
* Terraform nullable values (`types.Int64`, `types.String`, `types.Bool`) are
  `Option`s; `ValueBool`/`ValueInt64` with a null receiver never occur on the
  modelled paths.
* Go maps are association lists updated in place (`aset`), which keeps a
  deterministic iteration order; the source iterates Go maps whose order is
  unspecified, so the embedding fixes one order (first-occurrence order for
  the group id set, insertion order for the collection map).
* `strconv.Atoi` / `strconv.Itoa` / `strconv.FormatInt` are `atoi?` /
  `formatInt` over decimal digit strings.
* Network traffic is explicit: a `Server` value answers every request and a
  list of `ApiCall`s records the requests an operation issued, in order.
* `unicode.IsLetter`/`unicode.IsDigit` and `strings.ToLower` are modelled at
  ASCII granularity (`Char.isAlpha`, `Char.isDigit`, `Char.toLower`).
-/

/-! ### Decimal printing and parsing (`strconv.Itoa`, `strconv.FormatInt`, `strconv.Atoi`) -/

def digitChar (d : Nat) : Char := Char.ofNat (48 + d)

def digitVal? (c : Char) : Option Nat :=
  if c.isDigit then some (c.toNat - 48) else none

def parseNatAux : Nat → List Char → Option Nat
  | acc, [] => some acc
  | acc, c :: rest =>
    match digitVal? c with
    | some d => parseNatAux (acc * 10 + d) rest
    | none => none

def parseNat? (cs : List Char) : Option Nat :=
  match cs with
  | [] => none
  | _ => parseNatAux 0 cs

def atoiList? (cs : List Char) : Option Int :=
  match cs with
  | [] => none
  | c :: rest =>
    if c = '-' then (parseNat? rest).map (fun n => -(Int.ofNat n))
    else if c = '+' then (parseNat? rest).map (fun n => Int.ofNat n)
    else (parseNat? (c :: rest)).map (fun n => Int.ofNat n)

def atoi? (s : String) : Option Int := atoiList? s.data

def formatNatAux : Nat → Nat → List Char
  | 0, _ => []
  | fuel + 1, n =>
    if n < 10 then [digitChar n]
    else formatNatAux fuel (n / 10) ++ [digitChar (n % 10)]

def formatNat (n : Nat) : String := ⟨formatNatAux (n + 1) n⟩

def formatInt (i : Int) : String :=
  if i < 0 then ⟨'-' :: (formatNat i.natAbs).data⟩ else formatNat i.natAbs

/-! ### Location-path string utilities (`strings.Trim`, `strings.Split`, `strings.HasPrefix`) -/

def dropLeadingSlashes (cs : List Char) : List Char := cs.dropWhile (fun c => c = '/')

def rightTrimSlashes : List Char → List Char
  | [] => []
  | c :: rest =>
    match rightTrimSlashes rest with
    | [] => if c = '/' then [] else [c]
    | r => c :: r

def trimSlashes (cs : List Char) : List Char := rightTrimSlashes (dropLeadingSlashes cs)

def splitSlashes : List Char → List (List Char)
  | [] => [[]]
  | c :: rest =>
    let r := splitSlashes rest
    if c = '/' then [] :: r
    else
      match r with
      | s :: tl => (c :: s) :: tl
      | [] => [[c]]

def hasPrefixStr (pre s : String) : Bool := pre.data.isPrefixOf s.data

/-! ### Name normalization (`normalizeName`) -/

def isAsciiAlphanum (c : Char) : Bool := c.isAlpha || c.isDigit

/-- Embedding of `normalizeName`: lowercase, remove spaces/underscores/hyphens,
then keep only alphanumeric characters. -/
def normalizeName (name : String) : String :=
  let normalized := name.data.map Char.toLower
  let normalized := normalized.filter (fun c => !(c = ' ' || c = '_' || c = '-'))
  ⟨normalized.filter isAsciiAlphanum⟩

/-! ### Data model -/

/-- A raw Metabase collection id, which arrives from JSON as either an integer
or a string (the `root` sentinel among others). -/
inductive CollectionId
  | int (i : Int)
  | str (s : String)
deriving DecidableEq, Repr

/-- A raw collection as returned by `listCollections`. -/
structure Collection where
  id : CollectionId
  personalOwnerId : Option Int
  location : Option String
  name : String
deriving DecidableEq, Repr

/-- Embedding of the Go `CollectionInfo` struct. -/
structure CollectionInfo where
  ID : Int
  ParentID : Int
  Name : String
  Location : String
deriving DecidableEq, Repr

/-- Embedding of the Go `CollectionPermission` Terraform model (one edge). -/
structure CollectionPermission where
  group : Option Int
  collection : Option String
  permission : String
deriving DecidableEq, Repr

/-- Embedding of the Go `CollectionGraphResourceModel` Terraform model. -/
structure CollectionGraphResourceModel where
  revision : Int
  ignoredGroups : Option (List Int)
  permissions : List CollectionPermission
  applyChildCollectionsPermissions : Option Bool
deriving DecidableEq, Repr

def CollectionPermissionLevelRead : String := "read"
def CollectionPermissionLevelWrite : String := "write"
def CollectionPermissionLevelNone : String := "none"

/-! ### Association-list maps (Go maps with a fixed iteration order) -/

def alookup [DecidableEq κ] (k : κ) : List (κ × α) → Option α
  | [] => none
  | (k', v) :: rest => if k' = k then some v else alookup k rest

def aset [DecidableEq κ] (k : κ) (v : α) : List (κ × α) → List (κ × α)
  | [] => [(k, v)]
  | (k', v') :: rest => if k' = k then (k, v) :: rest else (k', v') :: aset k v rest

/-- Distinctness of the keys of an association list. -/
def NodupKeys (l : List (κ × α)) : Prop := (l.map Prod.fst).Nodup
abbrev PermMap := List (String × String)
abbrev GroupsMap := List (String × PermMap)

def lookup2 (groups : GroupsMap) (gStr c : String) : Option String :=
  (alookup gStr groups).bind (fun m => alookup c m)

def setPerm (groups : GroupsMap) (gStr c lvl : String) : GroupsMap :=
  aset gStr (aset c lvl ((alookup gStr groups).getD [])) groups

def ensureGroup (groups : GroupsMap) (gStr : String) : GroupsMap :=
  match alookup gStr groups with
  | some _ => groups
  | none => aset gStr [] groups

/-- A well-formed `GroupsMap`: no duplicate group keys and no duplicate
collection keys inside any group. Every map the embedding builds is
well-formed. -/
def GoodGraph (G : GroupsMap) : Prop := NodupKeys G ∧ ∀ e ∈ G, NodupKeys e.2

/-- Embedding of the Go `CollectionPermissionsGraph` API payload. -/
structure CollectionPermissionsGraph where
  revision : Int
  groups : GroupsMap
deriving DecidableEq, Repr

/-! ### The server and the network trace -/

/-- One request issued to the Metabase REST API. -/
inductive ApiCall
  | listCollections
  | getGroup (id : Int)
  | readGraph
  | writeGraph (g : CollectionPermissionsGraph)
deriving DecidableEq, Repr

/-- A pure model of the remote Metabase server: every request succeeds and is
answered from this record. -/
structure Server where
  collections : List Collection
  groupName : Int → Option String
  currentRevision : Int
  nextRevision : Int

/-! ### Resource tree builder (`fetchChildCollections`) -/

/-- Parent id derivation: last segment of the trimmed location path, or `-1`
when that segment does not parse as an integer. -/
def deriveParentId (location : String) : Int :=
  let locationParts := splitSlashes (trimSlashes location.data)
  match locationParts.getLast? with
  | some lastPart =>
    match atoiList? lastPart with
    | some parsedParent => parsedParent
    | none => -1
  | none => -1

/-- Body of the `fetchChildCollections` loop, for one raw collection:
personal collections, empty/bare-root locations, unparseable parents, and the
`root` id sentinel are skipped, everything else is added to the map. -/
def fetchCollStep (childCollections : List (Int × CollectionInfo)) (collection : Collection) :
    List (Int × CollectionInfo) :=
  if collection.personalOwnerId.isSome then childCollections else
  let location := collection.location.getD ""
  if location = "" ∨ location = "/" then childCollections else
  let parentId := deriveParentId location
  if parentId < 0 then childCollections else
  match collection.id with
  | .int i =>
    aset i { ID := i, ParentID := parentId, Name := collection.name, Location := location } childCollections
  | .str s =>
    if s ≠ "root" then
      match atoi? s with
      | some parsedId =>
        aset parsedId { ID := parsedId, ParentID := parentId, Name := collection.name, Location := location } childCollections
      | none => childCollections
    else childCollections

/-- Embedding of `fetchChildCollections`: builds the id → info map over the
whole listing. -/
def fetchChildCollections (collections : List Collection) : List (Int × CollectionInfo) :=
  collections.foldl fetchCollStep []

/-! ### Group ids, group names, ownership -/

/-- The deduplicated list of group ids mentioned by the declared permissions
(first-occurrence order; the source stores them in a set plus a list). -/
def groupIdsList (ps : List CollectionPermission) : List Int :=
  ps.foldl (fun acc p =>
    match p.group with
    | some g => if g ∈ acc then acc else acc ++ [g]
    | none => acc) []

/-- Embedding of `fetchGroupNames`: one `getGroup` request per id; failed
lookups are skipped (left out of the map). -/
def fetchGroupNames (srv : Server) (gids : List Int) : List (Int × String) × List ApiCall :=
  (gids.foldl (fun m g =>
    match srv.groupName g with
    | some name => aset g name m
    | none => m) [],
   gids.map ApiCall.getGroup)

/-- Embedding of the reverse ownership index `collectionIdToGroupId`: for each
direct child of an anchor root (parent 5 or 4), the first group whose
normalized name equals the collection's normalized name. -/
def collectionIdToGroupId (colls : List (Int × CollectionInfo)) (gids : List Int)
    (groupNames : List (Int × String)) : List (Int × Int) :=
  colls.foldl (fun m e =>
    if e.2.ParentID = (5 : Int) ∨ e.2.ParentID = (4 : Int) then
      match gids.find? (fun g =>
        match alookup g groupNames with
        | some groupName => normalizeName groupName == normalizeName e.2.Name
        | none => false) with
      | some g => aset e.1 g m
      | none => m
    else m) []

/-! ### The permission expander (`makeCollectionPermissionsGraphFromModel`) -/

/-- Does the declared permission list contain an explicit edge for this
(group, collection-string) pair? -/
def isExplicitPermissionFor (ps : List CollectionPermission) (g : Int) (cStr : String) : Bool :=
  ps.any fun p => p.group == some g && p.collection == some cStr

/-- Does the declared permission list mention this collection for any group? -/
def isCollectionInPlan (ps : List CollectionPermission) (cStr : String) : Bool :=
  ps.any fun p => p.group.isSome && p.collection == some cStr

/-- The level the anchor-child step assigns: `write` when the group's
normalized name equals the collection's normalized name, `read` otherwise. -/
def anchorPermission (groupNames : List (Int × String)) (g : Int) (collectionName : String) : String :=
  match alookup g groupNames with
  | some groupName =>
    if normalizeName groupName = normalizeName collectionName then CollectionPermissionLevelWrite
    else CollectionPermissionLevelRead
  | none => CollectionPermissionLevelRead

/-- One step of the seeding loop: fail on a null group, a null collection, or
an already-present (group, collection) key, otherwise record the edge. -/
def seedGroupsAux (groups : GroupsMap) : List CollectionPermission → Except String GroupsMap
  | [] => .ok groups
  | p :: rest =>
    match p.group with
    | none => .error "Unexpected null group in permission."
    | some g =>
      match p.collection with
      | none => .error "Unexpected null collection in permission."
      | some collectionId =>
        let groupId := formatInt g
        let colPermMap := (alookup groupId groups).getD []
        if (alookup collectionId colPermMap).isSome then
          .error "Found duplicate permission definition."
        else
          seedGroupsAux (setPerm groups groupId collectionId p.permission) rest

/-- Seeding phase: the permission map built verbatim from the declared edges,
failing on a null group, a null collection, or a duplicate (group, collection)
pair. -/
def seedGroups (permissions : List CollectionPermission) : Except String GroupsMap :=
  seedGroupsAux [] permissions

/-- A declared permission list with two entries for the same non-null
(group, collection) pair and different levels. -/
def HasDupPair (ps : List CollectionPermission) : Prop :=
  ∃ ps1 p ps2 q ps3 g c, ps = ps1 ++ p :: ps2 ++ q :: ps3 ∧
    p.group = some g ∧ p.collection = some c ∧ q.group = some g ∧ q.collection = some c ∧
    p.permission ≠ q.permission

/-- Body of the inner loop of the anchor-child step, for one group and one
direct child of an anchor root: a group without an explicit edge gets the
computed level; an existing non-explicit `read` may be upgraded to `write`,
anything else is kept. -/
def anchorGroupStep (groupNames : List (Int × String)) (ps : List CollectionPermission)
    (cStr collectionName : String) (groups : GroupsMap) (g : Int) : GroupsMap :=
  let gStr := formatInt g
  let groups := ensureGroup groups gStr
  if isExplicitPermissionFor ps g cStr then groups
  else
    let permission := anchorPermission groupNames g collectionName
    match lookup2 groups gStr cStr with
    | none => setPerm groups gStr cStr permission
    | some existingPerm =>
      if existingPerm = CollectionPermissionLevelRead ∧ permission = CollectionPermissionLevelWrite then
        setPerm groups gStr cStr permission
      else groups

/-- The effect of the anchor-child write on the previous entry: absent entries
are set, a non-explicit `read` is upgraded to `write`, everything else kept. -/
def step3At (old : Option String) (permission : String) : Option String :=
  match old with
  | none => some permission
  | some existingPerm =>
    if existingPerm = CollectionPermissionLevelRead ∧ permission = CollectionPermissionLevelWrite
    then some permission else some existingPerm

/-- Inner loop of the anchor-child step, for one direct child of an anchor
root: apply `anchorGroupStep` to every group under consideration. -/
def anchorStep (gids : List Int) (groupNames : List (Int × String))
    (ps : List CollectionPermission) (cid : Int) (info : CollectionInfo)
    (groups : GroupsMap) : GroupsMap :=
  gids.foldl (anchorGroupStep groupNames ps (formatInt cid) info.Name) groups

/-- Body of the outer loop of the anchor-child step: only direct children of
Public (5) or Draft (4) are processed. -/
def anchorCollStep (gids : List Int) (groupNames : List (Int × String))
    (ps : List CollectionPermission) (groups : GroupsMap) (e : Int × CollectionInfo) : GroupsMap :=
  if e.2.ParentID = (5 : Int) ∨ e.2.ParentID = (4 : Int) then anchorStep gids groupNames ps e.1 e.2 groups
  else groups

/-- Anchor-child step: apply `anchorStep` to every direct child of Public (5)
or Draft (4). -/
def applyAnchorChildren (colls : List (Int × CollectionInfo)) (gids : List Int)
    (groupNames : List (Int × String)) (ps : List CollectionPermission)
    (groups : GroupsMap) : GroupsMap :=
  colls.foldl (anchorCollStep gids groupNames ps) groups

/-- The group-collection id extracted from a location: the first segment after
the `/5/` or `/4/` prefix, or `-1` when there is none or it does not parse. -/
def extractGroupCollectionId (location : String) : Int :=
  if hasPrefixStr "/5/" location ∨ hasPrefixStr "/4/" location then
    match splitSlashes (location.data.drop 3) with
    | p :: _ => if p ≠ [] then (atoiList? p).getD (-1) else -1
    | [] => -1
  else -1

/-- Body of the inner loop of the recursive step, for one group and one
collection inside an owned subtree: a group without an explicit edge gets
`write` when it is the owner and `read` otherwise. -/
def recursiveGroupStep (ps : List CollectionPermission) (owningGroupId : Int)
    (cStr : String) (groups : GroupsMap) (g : Int) : GroupsMap :=
  let gStr := formatInt g
  let groups := ensureGroup groups gStr
  if isExplicitPermissionFor ps g cStr then groups
  else
    setPerm groups gStr cStr
      (if g = owningGroupId then CollectionPermissionLevelWrite else CollectionPermissionLevelRead)

/-- Inner loop of the recursive step: apply `recursiveGroupStep` to every
group under consideration. -/
def recursiveStep (gids : List Int) (ps : List CollectionPermission)
    (owningGroupId : Int) (cid : Int) (groups : GroupsMap) : GroupsMap :=
  gids.foldl (recursiveGroupStep ps owningGroupId (formatInt cid)) groups

/-- Body of the outer loop of the recursive step: a collection is processed
when its location names an owned group collection and the collection itself is
not mentioned anywhere in the plan. -/
def recursiveCollStep (gids : List Int) (c2g : List (Int × Int))
    (ps : List CollectionPermission) (groups : GroupsMap) (e : Int × CollectionInfo) : GroupsMap :=
  if e.2.Location = "" then groups else
  let gcid := extractGroupCollectionId e.2.Location
  if gcid < 0 then groups else
  match alookup gcid c2g with
  | none => groups
  | some owningGroupId =>
    if isCollectionInPlan ps (formatInt e.1) then groups
    else recursiveStep gids ps owningGroupId e.1 groups

/-- Recursive step: for every collection whose location identifies an owned
group collection, unless the collection is mentioned anywhere in the plan,
apply `recursiveStep`. -/
def applyRecursive (colls : List (Int × CollectionInfo)) (gids : List Int)
    (c2g : List (Int × Int)) (ps : List CollectionPermission)
    (groups : GroupsMap) : GroupsMap :=
  colls.foldl (recursiveCollStep gids c2g ps) groups

/-- Embedding of `makeCollectionPermissionsGraphFromModel`. The write-only
`parentPermissions` map of the source (built and never read) is omitted.
Returns the graph (or the first diagnostic error) and the list of API calls
issued, in order. -/
def makeCollectionPermissionsGraphFromModel (data : CollectionGraphResourceModel)
    (state : Option CollectionGraphResourceModel) (client : Option Server) :
    Except String CollectionPermissionsGraph × List ApiCall :=
  match seedGroups data.permissions with
  | .error e => (.error e, [])
  | .ok groups₀ =>
    let applyChildPermissions := data.applyChildCollectionsPermissions.getD true
    let gc : GroupsMap × List ApiCall :=
      match client with
      | none => (groups₀, [])
      | some srv =>
        if applyChildPermissions then
          let childCollectionsMap := fetchChildCollections srv.collections
          let gids := groupIdsList data.permissions
          let groupNames := (fetchGroupNames srv gids).1
          let nameCalls := (fetchGroupNames srv gids).2
          let c2g := collectionIdToGroupId childCollectionsMap gids groupNames
          let groups₁ := applyAnchorChildren childCollectionsMap gids groupNames data.permissions groups₀
          let groups₂ := applyRecursive childCollectionsMap gids c2g data.permissions groups₁
          (groups₂, ApiCall.listCollections :: nameCalls)
        else (groups₀, [])
    let revision := match state with
      | some s => s.revision
      | none => data.revision
    (.ok { revision := revision, groups := gc.1 }, gc.2)

/-- The permission map the expander produces from a successful seed when the
toggle is on: the anchor-child step followed by the recursive step, over the
fetched tree, the declared group ids, and the fetched group names. -/
def expandedGroups (ps : List CollectionPermission) (srv : Server) (gs : GroupsMap) : GroupsMap :=
  applyRecursive (fetchChildCollections srv.collections) (groupIdsList ps)
    (collectionIdToGroupId (fetchChildCollections srv.collections) (groupIdsList ps)
      (fetchGroupNames srv (groupIdsList ps)).1) ps
    (applyAnchorChildren (fetchChildCollections srv.collections) (groupIdsList ps)
      (fetchGroupNames srv (groupIdsList ps)).1 ps gs)

/-! ### The state filter (`filterRecursivePermissions`) -/

/-- One step of the nested-collection scan: record a collection with a nonzero
parent whose location lies under `/5/` or `/4/` with at least two trimmed
segments. -/
def childStep (s : List (String × Bool)) (e : Int × CollectionInfo) : List (String × Bool) :=
  if e.2.ParentID = (0 : Int) then s else
  if hasPrefixStr "/5/" e.2.Location ∨ hasPrefixStr "/4/" e.2.Location then
    if (splitSlashes (trimSlashes e.2.Location.data)).length > 1 then
      aset (formatInt e.1) true s
    else s
  else s

/-- The set of "nested" collection ids: collections with a nonzero parent
whose location lies under `/5/` or `/4/` with at least two trimmed segments. -/
def childCollectionIds (colls : List (Int × CollectionInfo)) : List (String × Bool) :=
  colls.foldl childStep []

def isChildCollectionId (cids : List (String × Bool)) (collectionId : String) : Bool :=
  (alookup collectionId cids).getD false

/-- Embedding of `filterRecursivePermissions`: keep an edge unless its
collection id is a nested collection; null collections are kept. -/
def filterRecursivePermissions (permissions : List CollectionPermission) (client : Server) :
    List CollectionPermission × List ApiCall :=
  let childCollectionsMap := fetchChildCollections client.collections
  let cids := childCollectionIds childCollectionsMap
  (permissions.filter (fun p =>
    match p.collection with
    | some collectionId => !(isChildCollectionId cids collectionId)
    | none => true),
   [ApiCall.listCollections])

/-! ### Conversions between the graph and the edge-list representation -/

/-- The (groupKey, collectionId, level) triples of a permission map. -/
def graphEdges (groups : GroupsMap) : List (String × String × String) :=
  groups.flatMap (fun e => e.2.map (fun cl => (e.1, cl.1, cl.2)))

/-- The (groupKey, collectionId, level) triples of a declared edge list
(entries with a null group or collection contribute nothing). -/
def permTriples (ps : List CollectionPermission) : List (String × String × String) :=
  ps.filterMap (fun p =>
    match p.group, p.collection with
    | some g, some c => some (formatInt g, c, p.permission)
    | _, _ => none)

/-- A permission map read back as a list of edges, parsing group keys back to
integers (the inverse of the key formatting used when the map was built). -/
def graphToPermissions (groups : GroupsMap) : List CollectionPermission :=
  groups.flatMap (fun e => e.2.filterMap (fun cl =>
    (atoi? e.1).map (fun g =>
      ({ group := some g, collection := some cl.1, permission := cl.2 } : CollectionPermission))))

/-! ### The graph reconciler operations (`Create`, `Update`) -/

/-- Terraform set equality on edge lists (length plus membership of every
element, mirroring the framework's order-independent set comparison). -/
def permissionsSetEqual (a b : List CollectionPermission) : Bool :=
  a.length == b.length && a.all (fun p => b.contains p)

/-- Embedding of `Create`: default the toggle, read the live revision, build
the graph (with the live revision as base), write it, and keep the explicit
edges with the returned revision. -/
def withDefaultFlag (data : CollectionGraphResourceModel) : CollectionGraphResourceModel :=
  { data with
    applyChildCollectionsPermissions := some (data.applyChildCollectionsPermissions.getD true) }

def createTempState (srv : Server) : CollectionGraphResourceModel :=
  { revision := srv.currentRevision, ignoredGroups := none, permissions := [],
    applyChildCollectionsPermissions := none }

def createBaseData (data₀ : CollectionGraphResourceModel) (srv : Server) :
    CollectionGraphResourceModel :=
  { withDefaultFlag data₀ with revision := srv.currentRevision }

def createOp (data₀ : CollectionGraphResourceModel) (srv : Server) :
    Except String CollectionGraphResourceModel × List ApiCall :=
  let data := createBaseData data₀ srv
  match makeCollectionPermissionsGraphFromModel data (some (createTempState srv)) (some srv) with
  | (.error e, calls) => (.error e, ApiCall.readGraph :: calls)
  | (.ok body, calls) =>
    (.ok { data with revision := srv.nextRevision },
     ApiCall.readGraph :: (calls ++ [ApiCall.writeGraph body]))

/-- Embedding of `Update`: default the toggle, compare explicit edges and the
toggle against the recorded state; when nothing changed skip the write and
keep the recorded revision, otherwise build the graph (with the recorded
revision as base) and write it. -/
def updateOp (data₀ state : CollectionGraphResourceModel) (srv : Server) :
    Except String CollectionGraphResourceModel × List ApiCall :=
  let data := withDefaultFlag data₀
  let permissionsChanged := !(permissionsSetEqual data.permissions state.permissions)
  let flagChanged := data.applyChildCollectionsPermissions.isSome &&
    state.applyChildCollectionsPermissions.isSome &&
    data.applyChildCollectionsPermissions != state.applyChildCollectionsPermissions
  if permissionsChanged || flagChanged then
    match makeCollectionPermissionsGraphFromModel data (some state) (some srv) with
    | (.error e, calls) => (.error e, calls)
    | (.ok body, calls) =>
      (.ok { data with revision := srv.nextRevision }, calls ++ [ApiCall.writeGraph body])
  else
    (.ok { data with revision := state.revision }, [])

/-! ### Concrete fixtures used by witnesses and counterexamples -/

def wColl16 : Collection :=
  { id := .int 16, personalOwnerId := none, location := some "/5/", name := "Analytics" }

def wColl60 : Collection :=
  { id := .int 60, personalOwnerId := none, location := some "/5/16/", name := "Sub" }

def wCollBad : Collection :=
  { id := .int 99, personalOwnerId := none, location := some "/abc/", name := "Bad" }

def wCollG16 : Collection :=
  { id := .int 16, personalOwnerId := none, location := some "/5/", name := "G16" }

def wGroupName : Int → Option String := fun i =>
  if i = 7 then some "Analytics" else if i = 8 then some "TeamB" else none

def wSrv : Server :=
  { collections := [wColl16, wColl60], groupName := wGroupName,
    currentRevision := 10, nextRevision := 11 }

def wSrvC1 : Server :=
  { collections := [wCollG16], groupName := wGroupName,
    currentRevision := 1, nextRevision := 2 }

def wPerm7root : CollectionPermission :=
  { group := some 7, collection := some "root", permission := "write" }

def wPerm7rootR : CollectionPermission :=
  { group := some 7, collection := some "root", permission := "read" }

def wPerm8root : CollectionPermission :=
  { group := some 8, collection := some "root", permission := "read" }

def wPerm8c60 : CollectionPermission :=
  { group := some 8, collection := some "60", permission := "read" }

def wPermNull : CollectionPermission :=
  { group := some 9, collection := none, permission := "read" }

def wDataC1 : CollectionGraphResourceModel :=
  { revision := 0, ignoredGroups := none, permissions := [wPerm7root],
    applyChildCollectionsPermissions := some true }

def wDataC2 : CollectionGraphResourceModel :=
  { revision := 0, ignoredGroups := none, permissions := [wPerm7root, wPerm8c60],
    applyChildCollectionsPermissions := some true }

def wDataDup : CollectionGraphResourceModel :=
  { revision := 0, ignoredGroups := none, permissions := [wPerm7rootR, wPerm7root],
    applyChildCollectionsPermissions := some true }

def wDataC6 : CollectionGraphResourceModel :=
  { revision := 0, ignoredGroups := none, permissions := [wPerm7root],
    applyChildCollectionsPermissions := some false }

def wState0 : CollectionGraphResourceModel :=
  { revision := 42, ignoredGroups := none, permissions := [wPerm8root],
    applyChildCollectionsPermissions := some true }

def wPerm7c16 : CollectionPermission :=
  { group := some 7, collection := some "16", permission := "read" }

def wStateEq : CollectionGraphResourceModel :=
  { revision := 42, ignoredGroups := none, permissions := [wPerm7root],
    applyChildCollectionsPermissions := some true }

/-! ### Round-trip facts about decimal printing and parsing -/

theorem digitVal?_digitChar {d : Nat} (h : d < 10) : digitVal? (digitChar d) = some d := by
  interval_cases d <;> rfl

theorem digitChar_ne_dash {d : Nat} (h : d < 10) : digitChar d ≠ '-' ∧ digitChar d ≠ '+' := by
  interval_cases d <;> exact ⟨by decide, by decide⟩

theorem parseNatAux_append (acc : Nat) (xs ys : List Char) :
    parseNatAux acc (xs ++ ys) = (parseNatAux acc xs).bind (fun a => parseNatAux a ys) := by
  induction xs generalizing acc with
  | nil => rfl
  | cons c rest ih =>
    simp only [List.cons_append, parseNatAux]
    cases hd : digitVal? c with
    | none => rfl
    | some d => exact ih _

theorem formatNatAux_ne_nil {fuel n : Nat} (h : n < fuel) : formatNatAux fuel n ≠ [] := by
  cases fuel with
  | zero => omega
  | succ f =>
    simp only [formatNatAux]
    by_cases h10 : n < 10
    · rw [if_pos h10]
      simp
    · rw [if_neg h10]
      simp

theorem parseNat?_eq_aux {cs : List Char} (h : cs ≠ []) : parseNat? cs = parseNatAux 0 cs := by
  cases cs with
  | nil => exact absurd rfl h
  | cons c rest => rfl

theorem parse_formatNatAux : ∀ fuel n acc, n < fuel →
    parseNatAux acc (formatNatAux fuel n) =
      some (acc * 10 ^ (formatNatAux fuel n).length + n) := by
  intro fuel
  induction fuel with
  | zero => intro n acc h; omega
  | succ f ih =>
    intro n acc h
    simp only [formatNatAux]
    by_cases h10 : n < 10
    · rw [if_pos h10]
      simp only [parseNatAux, digitVal?_digitChar h10, List.length_singleton, pow_one]
    · rw [if_neg h10]
      have hdiv : n / 10 < f := by
        have h1 : n / 10 < n := Nat.div_lt_self (by omega) (by omega)
        omega
      have hmod : n % 10 < 10 := Nat.mod_lt _ (by omega)
      rw [parseNatAux_append, ih (n / 10) acc hdiv]
      simp only [Option.some_bind, parseNatAux, digitVal?_digitChar hmod]
      congr 1
      rw [List.length_append, List.length_singleton, pow_succ]
      ring_nf
      omega

theorem parseNat?_formatNat (n : Nat) : parseNat? (formatNat n).data = some n := by
  have hne := formatNatAux_ne_nil (Nat.lt_succ_self n)
  show parseNat? (formatNatAux (n + 1) n) = some n
  rw [parseNat?_eq_aux hne, parse_formatNatAux (n + 1) n 0 (Nat.lt_succ_self n)]
  simp

theorem formatNatAux_head {fuel n : Nat} (h : n < fuel) :
    ∃ d rest, d < 10 ∧ formatNatAux fuel n = digitChar d :: rest := by
  induction fuel generalizing n with
  | zero => omega
  | succ f ih =>
    simp only [formatNatAux]
    by_cases h10 : n < 10
    · rw [if_pos h10]
      exact ⟨n, [], h10, rfl⟩
    · rw [if_neg h10]
      have hdiv : n / 10 < f := by
        have h1 : n / 10 < n := Nat.div_lt_self (by omega) (by omega)
        omega
      obtain ⟨d, rest, hd, heq⟩ := ih hdiv
      exact ⟨d, rest ++ [digitChar (n % 10)], hd, by rw [heq]; rfl⟩

theorem formatNat_head (n : Nat) : ∃ d rest, d < 10 ∧ (formatNat n).data = digitChar d :: rest :=
  formatNatAux_head (Nat.lt_succ_self n)

theorem atoi?_formatInt (i : Int) : atoi? (formatInt i) = some i := by
  by_cases hneg : i < 0
  · have hdata : (formatInt i).data = '-' :: (formatNat i.natAbs).data := by
      unfold formatInt
      rw [if_pos hneg]
    show atoiList? ((formatInt i).data) = some i
    rw [hdata]
    simp only [atoiList?, if_pos rfl, parseNat?_formatNat, Option.map_some', Option.some.injEq,
      Int.ofNat_eq_coe]
    rw [if_pos trivial]
    simp only [Option.some.injEq]
    omega
  · have hdata : (formatInt i).data = (formatNat i.natAbs).data := by
      unfold formatInt
      rw [if_neg hneg]
    obtain ⟨d, rest, hd, hshape⟩ := formatNat_head i.natAbs
    show atoiList? ((formatInt i).data) = some i
    rw [hdata, hshape]
    simp only [atoiList?, if_neg (digitChar_ne_dash hd).1, if_neg (digitChar_ne_dash hd).2]
    rw [← hshape, parseNat?_formatNat]
    simp only [Option.map_some', Option.some.injEq, Int.ofNat_eq_coe]
    omega

theorem atoi?_formatInt_list (i : Int) : atoiList? (formatInt i).data = some i :=
  atoi?_formatInt i

theorem formatInt_injective : Function.Injective formatInt := by
  intro a b h
  have ha := atoi?_formatInt a
  rw [h, atoi?_formatInt] at ha
  exact (Option.some.inj ha).symm

/-! ### Association-list lemmas -/

theorem alookup_aset_self [DecidableEq κ] (k : κ) (v : α) (l : List (κ × α)) :
    alookup k (aset k v l) = some v := by
  induction l with
  | nil => simp [aset, alookup]
  | cons e rest ih =>
    obtain ⟨k', v'⟩ := e
    by_cases h : k' = k
    · subst h
      simp [aset, alookup]
    · simp [aset, alookup, h, ih]

theorem alookup_aset_of_ne [DecidableEq κ] {k k' : κ} (h : k' ≠ k) (v : α) (l : List (κ × α)) :
    alookup k' (aset k v l) = alookup k' l := by
  have hk : ¬(k = k') := fun hh => h hh.symm
  induction l with
  | nil => simp [aset, alookup, hk]
  | cons e rest ih =>
    obtain ⟨k'', v''⟩ := e
    by_cases h2 : k'' = k
    · subst h2
      simp [aset, alookup, hk]
    · simp [aset, alookup, h2, ih]

theorem alookup_mem [DecidableEq κ] {k : κ} {v : α} {l : List (κ × α)}
    (h : alookup k l = some v) : (k, v) ∈ l := by
  induction l with
  | nil => simp [alookup] at h
  | cons e rest ih =>
    obtain ⟨k', v'⟩ := e
    by_cases h2 : k' = k
    · subst h2
      have hv : v' = v := by simpa [alookup] using h
      subst hv
      exact List.mem_cons_self _ _
    · have h3 : alookup k rest = some v := by simpa [alookup, h2] using h
      exact List.mem_cons_of_mem _ (ih h3)

theorem alookup_of_mem_nodup [DecidableEq κ] {k : κ} {v : α} {l : List (κ × α)}
    (hn : NodupKeys l) (h : (k, v) ∈ l) : alookup k l = some v := by
  induction l with
  | nil => simp at h
  | cons e rest ih =>
    obtain ⟨k', v'⟩ := e
    simp only [NodupKeys, List.map_cons, List.nodup_cons] at hn
    obtain ⟨hn1, hn2⟩ := hn
    rcases List.mem_cons.mp h with h1 | h1
    · obtain ⟨hh1, hh2⟩ := Prod.mk.injEq .. ▸ h1.symm
      subst hh1
      subst hh2
      simp [alookup]
    · have hk : k' ≠ k := by
        intro hh
        apply hn1
        rw [hh]
        exact List.mem_map_of_mem Prod.fst h1
      simp only [alookup, if_neg hk]
      exact ih hn2 h1

theorem mem_keys_aset [DecidableEq κ] (k k' : κ) (v : α) (l : List (κ × α)) :
    k' ∈ (aset k v l).map Prod.fst ↔ k' ∈ l.map Prod.fst ∨ k' = k := by
  induction l with
  | nil => simp [aset]
  | cons e rest ih =>
    obtain ⟨k'', v''⟩ := e
    by_cases h2 : k'' = k
    · subst h2
      simp [aset]
      tauto
    · simp [aset, h2, ih]
      tauto

theorem nodupKeys_aset [DecidableEq κ] {l : List (κ × α)} (h : NodupKeys l) (k : κ) (v : α) :
    NodupKeys (aset k v l) := by
  induction l with
  | nil => simp [aset, NodupKeys]
  | cons e rest ih =>
    obtain ⟨k'', v''⟩ := e
    simp only [NodupKeys, List.map_cons, List.nodup_cons] at h
    obtain ⟨h1, h2⟩ := h
    by_cases hk : k'' = k
    · subst hk
      have hset : aset k'' v ((k'', v'') :: rest) = (k'', v) :: rest := by simp [aset]
      rw [hset]
      simp only [NodupKeys, List.map_cons, List.nodup_cons]
      exact ⟨h1, h2⟩
    · simp only [aset, if_neg hk, NodupKeys, List.map_cons, List.nodup_cons]
      refine ⟨?_, ih h2⟩
      intro hmem
      rcases (mem_keys_aset k k'' v rest).mp hmem with hh | hh
      · exact h1 hh
      · exact hk hh

theorem mem_aset_elim [DecidableEq κ] {e : κ × α} {k : κ} {v : α} {l : List (κ × α)}
    (h : e ∈ aset k v l) : e ∈ l ∨ e = (k, v) := by
  induction l with
  | nil =>
    simp [aset] at h
    exact Or.inr h
  | cons e' rest ih =>
    obtain ⟨k', v'⟩ := e'
    by_cases hk : k' = k
    · subst hk
      simp only [aset, if_pos rfl] at h
      rcases List.mem_cons.mp h with h1 | h1
      · exact Or.inr h1
      · exact Or.inl (List.mem_cons_of_mem _ h1)
    · simp only [aset, if_neg hk] at h
      rcases List.mem_cons.mp h with h1 | h1
      · exact Or.inl (h1 ▸ List.mem_cons_self _ _)
      · rcases ih h1 with h2 | h2
        · exact Or.inl (List.mem_cons_of_mem _ h2)
        · exact Or.inr h2

/-! ### Lemmas about `lookup2`, `setPerm`, `ensureGroup` -/

theorem alookup_getD_eq_lookup2 (G : GroupsMap) (g c : String) :
    alookup c ((alookup g G).getD []) = lookup2 G g c := by
  cases h : alookup g G with
  | none => simp [lookup2, h, alookup]
  | some m => simp [lookup2, h]

theorem lookup2_setPerm_self (G : GroupsMap) (g c v : String) :
    lookup2 (setPerm G g c v) g c = some v := by
  unfold lookup2 setPerm
  rw [alookup_aset_self]
  simp [alookup_aset_self]

theorem lookup2_setPerm_of_ne (G : GroupsMap) {g c g' c' : String}
    (h : ¬(g' = g ∧ c' = c)) (v : String) :
    lookup2 (setPerm G g c v) g' c' = lookup2 G g' c' := by
  by_cases hg : g' = g
  · subst hg
    have hc : c' ≠ c := fun hh => h ⟨rfl, hh⟩
    calc lookup2 (setPerm G g' c v) g' c'
        = alookup c' (aset c v ((alookup g' G).getD [])) := by
          simp [lookup2, setPerm, alookup_aset_self]
      _ = alookup c' ((alookup g' G).getD []) := alookup_aset_of_ne hc v _
      _ = lookup2 G g' c' := alookup_getD_eq_lookup2 G g' c'
  · unfold lookup2 setPerm
    rw [alookup_aset_of_ne hg]

theorem lookup2_ensureGroup (G : GroupsMap) (g g' c' : String) :
    lookup2 (ensureGroup G g) g' c' = lookup2 G g' c' := by
  unfold ensureGroup
  cases h : alookup g G with
  | some m => rfl
  | none =>
    by_cases hg : g' = g
    · subst hg
      unfold lookup2
      rw [alookup_aset_self, h]
      simp [alookup]
    · unfold lookup2
      rw [alookup_aset_of_ne hg]

theorem lookup2_setPerm_isSome (G : GroupsMap) {g' c' : String} (g c v : String)
    (h : (lookup2 G g' c').isSome) : (lookup2 (setPerm G g c v) g' c').isSome := by
  by_cases he : g' = g ∧ c' = c
  · obtain ⟨h1, h2⟩ := he
    subst h1
    subst h2
    rw [lookup2_setPerm_self]
    rfl
  · rw [lookup2_setPerm_of_ne G he]
    exact h

/-! ### Well-formed permission maps -/

theorem goodGraph_nil : GoodGraph [] := ⟨by simp [NodupKeys], by simp⟩

theorem goodGraph_setPerm {G : GroupsMap} (h : GoodGraph G) (g c v : String) :
    GoodGraph (setPerm G g c v) := by
  obtain ⟨h1, h2⟩ := h
  constructor
  · exact nodupKeys_aset h1 _ _
  · intro e he
    rcases mem_aset_elim he with hm | hm
    · exact h2 e hm
    · subst hm
      show NodupKeys (aset c v ((alookup g G).getD []))
      cases hl : alookup g G with
      | none =>
        simp only [hl, Option.getD_none]
        exact nodupKeys_aset (by simp [NodupKeys]) _ _
      | some m =>
        simp only [hl, Option.getD_some]
        exact nodupKeys_aset (h2 (g, m) (alookup_mem hl)) _ _

theorem goodGraph_ensureGroup {G : GroupsMap} (h : GoodGraph G) (g : String) :
    GoodGraph (ensureGroup G g) := by
  obtain ⟨h1, h2⟩ := h
  unfold ensureGroup
  cases hl : alookup g G with
  | some m => exact ⟨h1, h2⟩
  | none =>
    constructor
    · exact nodupKeys_aset h1 _ _
    · intro e he
      rcases mem_aset_elim he with hm | hm
      · exact h2 e hm
      · subst hm
        simp [NodupKeys]

theorem graphEdges_mem {G : GroupsMap} (h : GoodGraph G) (gStr c l : String) :
    (gStr, c, l) ∈ graphEdges G ↔ lookup2 G gStr c = some l := by
  constructor
  · intro hm
    unfold graphEdges at hm
    rw [List.mem_flatMap] at hm
    obtain ⟨e, heG, hmem⟩ := hm
    rw [List.mem_map] at hmem
    obtain ⟨cl, hcl, heq⟩ := hmem
    obtain ⟨e1, e2⟩ := e
    obtain ⟨cl1, cl2⟩ := cl
    simp only [Prod.mk.injEq] at heq
    obtain ⟨hq1, hq2, hq3⟩ := heq
    subst hq1
    subst hq2
    subst hq3
    unfold lookup2
    rw [alookup_of_mem_nodup h.1 heG]
    exact alookup_of_mem_nodup (h.2 _ heG) hcl
  · intro hl
    unfold lookup2 at hl
    cases hg : alookup gStr G with
    | none => rw [hg] at hl; simp at hl
    | some m =>
      rw [hg] at hl
      simp only [Option.some_bind] at hl
      unfold graphEdges
      rw [List.mem_flatMap]
      exact ⟨(gStr, m), alookup_mem hg, List.mem_map.mpr ⟨(c, l), alookup_mem hl, rfl⟩⟩

/-! ### Generic fold lemmas over the permission map -/

theorem foldl_lookup2_invariant {β : Type} (f : GroupsMap → β → GroupsMap) (l : List β)
    (G : GroupsMap) (gStr c : String)
    (h : ∀ b ∈ l, ∀ H, lookup2 (f H b) gStr c = lookup2 H gStr c) :
    lookup2 (l.foldl f G) gStr c = lookup2 G gStr c := by
  induction l generalizing G with
  | nil => rfl
  | cons b rest ih =>
    rw [List.foldl_cons, ih _ (fun x hx H => h x (List.mem_cons_of_mem _ hx) H)]
    exact h b (List.mem_cons_self _ _) G

theorem foldl_lookup2_once {β : Type} (f : GroupsMap → β → GroupsMap) (l1 l2 : List β) (b : β)
    (G : GroupsMap) (gStr c : String) (F : Option String → Option String)
    (h1 : ∀ x ∈ l1, ∀ H, lookup2 (f H x) gStr c = lookup2 H gStr c)
    (h2 : ∀ x ∈ l2, ∀ H, lookup2 (f H x) gStr c = lookup2 H gStr c)
    (hb : ∀ H, lookup2 (f H b) gStr c = F (lookup2 H gStr c)) :
    lookup2 ((l1 ++ b :: l2).foldl f G) gStr c = F (lookup2 G gStr c) := by
  rw [List.foldl_append, List.foldl_cons,
    foldl_lookup2_invariant f l2 _ gStr c h2, hb,
    foldl_lookup2_invariant f l1 G gStr c h1]

/-! ### Characterization of the anchor-child step -/

theorem anchorGroupStep_preserve (gnames : List (Int × String)) (ps : List CollectionPermission)
    (cStr cname : String) {gStr c : String} (H : GroupsMap) (g : Int)
    (h : ¬(formatInt g = gStr ∧ cStr = c)) :
    lookup2 (anchorGroupStep gnames ps cStr cname H g) gStr c = lookup2 H gStr c := by
  unfold anchorGroupStep
  by_cases hex : isExplicitPermissionFor ps g cStr
  · simp only [hex, if_true, lookup2_ensureGroup]
  · simp only [hex, if_false, Bool.false_eq_true]
    cases hcur : lookup2 (ensureGroup H (formatInt g)) (formatInt g) cStr with
    | none =>
      rw [lookup2_setPerm_of_ne _ (fun hh => h ⟨hh.1.symm, hh.2.symm⟩), lookup2_ensureGroup]
    | some existingPerm =>
      dsimp only
      by_cases hup : existingPerm = CollectionPermissionLevelRead ∧
          anchorPermission gnames g cname = CollectionPermissionLevelWrite
      · rw [if_pos hup, lookup2_setPerm_of_ne _ (fun hh => h ⟨hh.1.symm, hh.2.symm⟩),
          lookup2_ensureGroup]
      · rw [if_neg hup, lookup2_ensureGroup]

theorem anchorGroupStep_at (gnames : List (Int × String)) (ps : List CollectionPermission)
    (cStr cname : String) (H : GroupsMap) (g : Int) :
    lookup2 (anchorGroupStep gnames ps cStr cname H g) (formatInt g) cStr =
      if isExplicitPermissionFor ps g cStr then lookup2 H (formatInt g) cStr
      else step3At (lookup2 H (formatInt g) cStr) (anchorPermission gnames g cname) := by
  unfold anchorGroupStep
  by_cases hex : isExplicitPermissionFor ps g cStr
  · simp only [hex, if_true, lookup2_ensureGroup]
  · simp only [hex, if_false, Bool.false_eq_true]
    cases hcur : lookup2 (ensureGroup H (formatInt g)) (formatInt g) cStr with
    | none =>
      rw [lookup2_setPerm_self]
      rw [lookup2_ensureGroup] at hcur
      rw [hcur]
      rfl
    | some existingPerm =>
      dsimp only
      rw [lookup2_ensureGroup] at hcur
      rw [hcur]
      by_cases hup : existingPerm = CollectionPermissionLevelRead ∧
          anchorPermission gnames g cname = CollectionPermissionLevelWrite
      · rw [if_pos hup, lookup2_setPerm_self]
        simp [step3At, hup]
      · rw [if_neg hup, lookup2_ensureGroup, hcur]
        simp [step3At, hup]

theorem nodup_split_not_mem {α : Type} {l1 l2 : List α} {a : α}
    (h : (l1 ++ a :: l2).Nodup) : a ∉ l1 ∧ a ∉ l2 := by
  rw [List.nodup_append] at h
  obtain ⟨h1, h2, h3⟩ := h
  rw [List.nodup_cons] at h2
  exact ⟨fun hm => h3 hm (List.mem_cons_self _ _), h2.1⟩

theorem nodupKeys_split_not_mem {α : Type} {l1 l2 : List (Int × α)} {cid : Int} {info : α}
    (h : NodupKeys (l1 ++ (cid, info) :: l2)) :
    (∀ e ∈ l1, e.1 ≠ cid) ∧ (∀ e ∈ l2, e.1 ≠ cid) := by
  unfold NodupKeys at h
  rw [List.map_append, List.map_cons, List.nodup_append] at h
  obtain ⟨h1, h2, h3⟩ := h
  rw [List.nodup_cons] at h2
  constructor
  · intro e he heq
    exact h3 (List.mem_map_of_mem Prod.fst he) (by rw [heq]; exact List.mem_cons_self _ _)
  · intro e he heq
    have hm : e.1 ∈ l2.map Prod.fst := List.mem_map_of_mem Prod.fst he
    exact h2.1 (heq ▸ hm)

theorem anchorStep_preserve_c (gids : List Int) (gnames : List (Int × String))
    (ps : List CollectionPermission) (cid : Int) (info : CollectionInfo)
    {gStr c : String} (H : GroupsMap) (hc : formatInt cid ≠ c) :
    lookup2 (anchorStep gids gnames ps cid info H) gStr c = lookup2 H gStr c := by
  unfold anchorStep
  exact foldl_lookup2_invariant _ _ _ _ _ (fun g _ H' =>
    anchorGroupStep_preserve _ _ _ _ H' g (fun hh => hc hh.2))

theorem anchorStep_at (gids : List Int) (hnd : gids.Nodup) (gnames : List (Int × String))
    (ps : List CollectionPermission) (cid : Int) (info : CollectionInfo) (H : GroupsMap)
    {g : Int} (hg : g ∈ gids) :
    lookup2 (anchorStep gids gnames ps cid info H) (formatInt g) (formatInt cid) =
      if isExplicitPermissionFor ps g (formatInt cid) then
        lookup2 H (formatInt g) (formatInt cid)
      else step3At (lookup2 H (formatInt g) (formatInt cid)) (anchorPermission gnames g info.Name) := by
  obtain ⟨l1, l2, rfl⟩ := List.append_of_mem hg
  obtain ⟨hn1, hn2⟩ := nodup_split_not_mem hnd
  unfold anchorStep
  refine foldl_lookup2_once _ l1 l2 g H (formatInt g) (formatInt cid)
    (fun old => if isExplicitPermissionFor ps g (formatInt cid) then old
      else step3At old (anchorPermission gnames g info.Name)) ?_ ?_ ?_
  · intro x hx H'
    refine anchorGroupStep_preserve _ _ _ _ H' x (fun hh => ?_)
    exact hn1 (formatInt_injective hh.1 ▸ hx)
  · intro x hx H'
    refine anchorGroupStep_preserve _ _ _ _ H' x (fun hh => ?_)
    exact hn2 (formatInt_injective hh.1 ▸ hx)
  · intro H'
    exact anchorGroupStep_at gnames ps (formatInt cid) info.Name H' g

theorem anchorCollStep_preserve (gids : List Int) (gnames : List (Int × String))
    (ps : List CollectionPermission) {gStr c : String} (H : GroupsMap) (e : Int × CollectionInfo)
    (h : ¬((e.2.ParentID = (5 : Int) ∨ e.2.ParentID = (4 : Int)) ∧ formatInt e.1 = c)) :
    lookup2 (anchorCollStep gids gnames ps H e) gStr c = lookup2 H gStr c := by
  unfold anchorCollStep
  by_cases hp : e.2.ParentID = (5 : Int) ∨ e.2.ParentID = (4 : Int)
  · rw [if_pos hp]
    exact anchorStep_preserve_c _ _ _ _ _ H (fun hh => h ⟨hp, hh⟩)
  · rw [if_neg hp]

theorem applyAnchorChildren_preserve (colls : List (Int × CollectionInfo)) (gids : List Int)
    (gnames : List (Int × String)) (ps : List CollectionPermission) {gStr c : String} (G : GroupsMap)
    (h : ∀ e ∈ colls, ¬((e.2.ParentID = (5 : Int) ∨ e.2.ParentID = (4 : Int)) ∧ formatInt e.1 = c)) :
    lookup2 (applyAnchorChildren colls gids gnames ps G) gStr c = lookup2 G gStr c := by
  unfold applyAnchorChildren
  exact foldl_lookup2_invariant _ _ _ _ _ (fun e he H => anchorCollStep_preserve _ _ _ H e (h e he))

theorem applyAnchorChildren_at (colls : List (Int × CollectionInfo)) (hck : NodupKeys colls)
    (gids : List Int) (hnd : gids.Nodup) (gnames : List (Int × String))
    (ps : List CollectionPermission) (G : GroupsMap) {cid : Int} {info : CollectionInfo}
    (hmem : (cid, info) ∈ colls) (hpar : info.ParentID = (5 : Int) ∨ info.ParentID = (4 : Int))
    {g : Int} (hg : g ∈ gids) :
    lookup2 (applyAnchorChildren colls gids gnames ps G) (formatInt g) (formatInt cid) =
      if isExplicitPermissionFor ps g (formatInt cid) then lookup2 G (formatInt g) (formatInt cid)
      else step3At (lookup2 G (formatInt g) (formatInt cid)) (anchorPermission gnames g info.Name) := by
  obtain ⟨l1, l2, rfl⟩ := List.append_of_mem hmem
  obtain ⟨hk1, hk2⟩ := nodupKeys_split_not_mem hck
  unfold applyAnchorChildren
  refine foldl_lookup2_once _ l1 l2 (cid, info) G (formatInt g) (formatInt cid)
    (fun old => if isExplicitPermissionFor ps g (formatInt cid) then old
      else step3At old (anchorPermission gnames g info.Name)) ?_ ?_ ?_
  · intro e he H
    exact anchorCollStep_preserve _ _ _ H e (fun hh => hk1 e he (formatInt_injective hh.2))
  · intro e he H
    exact anchorCollStep_preserve _ _ _ H e (fun hh => hk2 e he (formatInt_injective hh.2))
  · intro H
    unfold anchorCollStep
    rw [if_pos hpar]
    exact anchorStep_at gids hnd gnames ps cid info H hg

/-! ### Characterization of the recursive step -/

theorem recursiveGroupStep_preserve (ps : List CollectionPermission) (owner : Int) (cStr : String)
    {gStr c : String} (H : GroupsMap) (g : Int) (h : ¬(formatInt g = gStr ∧ cStr = c)) :
    lookup2 (recursiveGroupStep ps owner cStr H g) gStr c = lookup2 H gStr c := by
  unfold recursiveGroupStep
  by_cases hex : isExplicitPermissionFor ps g cStr
  · simp only [hex, if_true, lookup2_ensureGroup]
  · simp only [hex, if_false, Bool.false_eq_true]
    rw [lookup2_setPerm_of_ne _ (fun hh => h ⟨hh.1.symm, hh.2.symm⟩), lookup2_ensureGroup]

theorem recursiveGroupStep_at (ps : List CollectionPermission) (owner : Int) (cStr : String)
    (H : GroupsMap) (g : Int) :
    lookup2 (recursiveGroupStep ps owner cStr H g) (formatInt g) cStr =
      if isExplicitPermissionFor ps g cStr then lookup2 H (formatInt g) cStr
      else some (if g = owner then CollectionPermissionLevelWrite else CollectionPermissionLevelRead) := by
  unfold recursiveGroupStep
  by_cases hex : isExplicitPermissionFor ps g cStr
  · simp only [hex, if_true, lookup2_ensureGroup]
  · simp only [hex, if_false, Bool.false_eq_true]
    rw [lookup2_setPerm_self]

theorem recursiveStep_preserve_c (gids : List Int) (ps : List CollectionPermission)
    (owner cid : Int) {gStr c : String} (H : GroupsMap) (hc : formatInt cid ≠ c) :
    lookup2 (recursiveStep gids ps owner cid H) gStr c = lookup2 H gStr c := by
  unfold recursiveStep
  exact foldl_lookup2_invariant _ _ _ _ _ (fun g _ H' =>
    recursiveGroupStep_preserve _ _ _ H' g (fun hh => hc hh.2))

theorem recursiveStep_at (gids : List Int) (hnd : gids.Nodup) (ps : List CollectionPermission)
    (owner cid : Int) (H : GroupsMap) {g : Int} (hg : g ∈ gids) :
    lookup2 (recursiveStep gids ps owner cid H) (formatInt g) (formatInt cid) =
      if isExplicitPermissionFor ps g (formatInt cid) then lookup2 H (formatInt g) (formatInt cid)
      else some (if g = owner then CollectionPermissionLevelWrite else CollectionPermissionLevelRead) := by
  obtain ⟨l1, l2, rfl⟩ := List.append_of_mem hg
  obtain ⟨hn1, hn2⟩ := nodup_split_not_mem hnd
  unfold recursiveStep
  refine foldl_lookup2_once _ l1 l2 g H (formatInt g) (formatInt cid)
    (fun old => if isExplicitPermissionFor ps g (formatInt cid) then old
      else some (if g = owner then CollectionPermissionLevelWrite else CollectionPermissionLevelRead))
    ?_ ?_ ?_
  · intro x hx H'
    refine recursiveGroupStep_preserve _ _ _ H' x (fun hh => ?_)
    exact hn1 (formatInt_injective hh.1 ▸ hx)
  · intro x hx H'
    refine recursiveGroupStep_preserve _ _ _ H' x (fun hh => ?_)
    exact hn2 (formatInt_injective hh.1 ▸ hx)
  · intro H'
    exact recursiveGroupStep_at ps owner (formatInt cid) H' g

theorem recursiveCollStep_preserve_c (gids : List Int) (c2g : List (Int × Int))
    (ps : List CollectionPermission) {gStr c : String} (H : GroupsMap) (e : Int × CollectionInfo)
    (hc : formatInt e.1 ≠ c) :
    lookup2 (recursiveCollStep gids c2g ps H e) gStr c = lookup2 H gStr c := by
  simp only [recursiveCollStep]
  by_cases h1 : e.2.Location = ""
  · rw [if_pos h1]
  · rw [if_neg h1]
    by_cases h2 : extractGroupCollectionId e.2.Location < 0
    · rw [if_pos h2]
    · rw [if_neg h2]
      cases howner : alookup (extractGroupCollectionId e.2.Location) c2g with
      | none => rfl
      | some owner =>
        dsimp only
        by_cases h3 : isCollectionInPlan ps (formatInt e.1)
        · rw [if_pos h3]
        · rw [if_neg h3]
          exact recursiveStep_preserve_c _ _ _ _ H hc

theorem recursiveCollStep_eq_of_skip (gids : List Int) (c2g : List (Int × Int))
    (ps : List CollectionPermission) (H : GroupsMap) (e : Int × CollectionInfo)
    (h : e.2.Location = "" ∨ extractGroupCollectionId e.2.Location < 0 ∨
         alookup (extractGroupCollectionId e.2.Location) c2g = none ∨
         isCollectionInPlan ps (formatInt e.1) = true) :
    recursiveCollStep gids c2g ps H e = H := by
  simp only [recursiveCollStep]
  by_cases h1 : e.2.Location = ""
  · rw [if_pos h1]
  · rw [if_neg h1]
    by_cases h2 : extractGroupCollectionId e.2.Location < 0
    · rw [if_pos h2]
    · rw [if_neg h2]
      rcases h with h | h | h | h
      · exact absurd h h1
      · exact absurd h h2
      · rw [h]
      · cases howner : alookup (extractGroupCollectionId e.2.Location) c2g with
        | none => rfl
        | some owner =>
          dsimp only
          rw [if_pos h]

theorem recursiveCollStep_eq_of_fire (gids : List Int) (c2g : List (Int × Int))
    (ps : List CollectionPermission) (H : GroupsMap) (e : Int × CollectionInfo) (owner : Int)
    (h1 : e.2.Location ≠ "") (h2 : ¬(extractGroupCollectionId e.2.Location < 0))
    (h3 : alookup (extractGroupCollectionId e.2.Location) c2g = some owner)
    (h4 : isCollectionInPlan ps (formatInt e.1) = false) :
    recursiveCollStep gids c2g ps H e = recursiveStep gids ps owner e.1 H := by
  simp only [recursiveCollStep]
  rw [if_neg h1, if_neg h2, h3]
  dsimp only
  rw [if_neg (by simp [h4])]

theorem applyRecursive_preserve (colls : List (Int × CollectionInfo)) (gids : List Int)
    (c2g : List (Int × Int)) (ps : List CollectionPermission) {gStr c : String} (G : GroupsMap)
    (h : ∀ e ∈ colls, formatInt e.1 ≠ c) :
    lookup2 (applyRecursive colls gids c2g ps G) gStr c = lookup2 G gStr c := by
  unfold applyRecursive
  exact foldl_lookup2_invariant _ _ _ _ _ (fun e he H =>
    recursiveCollStep_preserve_c _ _ _ H e (h e he))

theorem applyRecursive_at (colls : List (Int × CollectionInfo)) (hck : NodupKeys colls)
    (gids : List Int) (hnd : gids.Nodup) (c2g : List (Int × Int))
    (ps : List CollectionPermission) (G : GroupsMap) {cid : Int} {info : CollectionInfo}
    (hmem : (cid, info) ∈ colls) (owner : Int)
    (h1 : info.Location ≠ "") (h2 : ¬(extractGroupCollectionId info.Location < 0))
    (h3 : alookup (extractGroupCollectionId info.Location) c2g = some owner)
    (h4 : isCollectionInPlan ps (formatInt cid) = false)
    {g : Int} (hg : g ∈ gids) :
    lookup2 (applyRecursive colls gids c2g ps G) (formatInt g) (formatInt cid) =
      if isExplicitPermissionFor ps g (formatInt cid) then lookup2 G (formatInt g) (formatInt cid)
      else some (if g = owner then CollectionPermissionLevelWrite else CollectionPermissionLevelRead) := by
  obtain ⟨l1, l2, rfl⟩ := List.append_of_mem hmem
  obtain ⟨hk1, hk2⟩ := nodupKeys_split_not_mem hck
  unfold applyRecursive
  refine foldl_lookup2_once _ l1 l2 (cid, info) G (formatInt g) (formatInt cid)
    (fun old => if isExplicitPermissionFor ps g (formatInt cid) then old
      else some (if g = owner then CollectionPermissionLevelWrite else CollectionPermissionLevelRead))
    ?_ ?_ ?_
  · intro e he H
    exact recursiveCollStep_preserve_c _ _ _ H e (fun hh => hk1 e he (formatInt_injective hh))
  · intro e he H
    exact recursiveCollStep_preserve_c _ _ _ H e (fun hh => hk2 e he (formatInt_injective hh))
  · intro H
    rw [recursiveCollStep_eq_of_fire gids c2g ps H (cid, info) owner h1 h2 h3 h4]
    exact recursiveStep_at gids hnd ps owner cid H hg

/-! ### Lemmas about the seeding phase -/

theorem seedGroupsAux_lookup_mono {acc : GroupsMap} {ps : List CollectionPermission}
    {G : GroupsMap} (hok : seedGroupsAux acc ps = .ok G) {gStr c v : String}
    (h : lookup2 acc gStr c = some v) : lookup2 G gStr c = some v := by
  induction ps generalizing acc with
  | nil =>
    simp only [seedGroupsAux, Except.ok.injEq] at hok
    subst hok
    exact h
  | cons p rest ih =>
    cases hg : p.group with
    | none => simp [seedGroupsAux, hg] at hok
    | some g =>
      cases hc : p.collection with
      | none => simp [seedGroupsAux, hg, hc] at hok
      | some collectionId =>
        simp only [seedGroupsAux, hg, hc] at hok
        by_cases hdup : (alookup collectionId ((alookup (formatInt g) acc).getD [])).isSome
        · rw [if_pos hdup] at hok
          exact absurd hok (by simp)
        · rw [if_neg hdup] at hok
          refine ih hok ?_
          by_cases hkey : gStr = formatInt g ∧ c = collectionId
          · exfalso
            apply hdup
            rw [alookup_getD_eq_lookup2, ← hkey.1, ← hkey.2, h]
            rfl
          · rw [lookup2_setPerm_of_ne _ hkey]
            exact h

theorem seedGroupsAux_lookup_of_mem {acc : GroupsMap} {ps : List CollectionPermission}
    {G : GroupsMap} (hok : seedGroupsAux acc ps = .ok G) {p : CollectionPermission}
    (hp : p ∈ ps) {g : Int} {c : String} (hg : p.group = some g) (hc : p.collection = some c) :
    lookup2 G (formatInt g) c = some p.permission := by
  induction ps generalizing acc with
  | nil => simp at hp
  | cons q rest ih =>
    cases hqg : q.group with
    | none => simp [seedGroupsAux, hqg] at hok
    | some qg =>
      cases hqc : q.collection with
      | none => simp [seedGroupsAux, hqg, hqc] at hok
      | some qc =>
        simp only [seedGroupsAux, hqg, hqc] at hok
        by_cases hdup : (alookup qc ((alookup (formatInt qg) acc).getD [])).isSome
        · rw [if_pos hdup] at hok
          exact absurd hok (by simp)
        · rw [if_neg hdup] at hok
          rcases List.mem_cons.mp hp with hp1 | hp1
          · subst hp1
            rw [hg] at hqg
            rw [hc] at hqc
            have hgg : g = qg := Option.some.inj hqg
            have hcc : c = qc := Option.some.inj hqc
            subst hgg
            subst hcc
            exact seedGroupsAux_lookup_mono hok (lookup2_setPerm_self acc _ _ _)
          · exact ih hok hp1

theorem seedGroupsAux_lookup_none {acc : GroupsMap} {ps : List CollectionPermission}
    {G : GroupsMap} (hok : seedGroupsAux acc ps = .ok G) {gStr c : String}
    (hacc : lookup2 acc gStr c = none)
    (h : ∀ p ∈ ps, ∀ g cc, p.group = some g → p.collection = some cc →
      ¬(formatInt g = gStr ∧ cc = c)) :
    lookup2 G gStr c = none := by
  induction ps generalizing acc with
  | nil =>
    simp only [seedGroupsAux, Except.ok.injEq] at hok
    subst hok
    exact hacc
  | cons q rest ih =>
    cases hqg : q.group with
    | none => simp [seedGroupsAux, hqg] at hok
    | some qg =>
      cases hqc : q.collection with
      | none => simp [seedGroupsAux, hqg, hqc] at hok
      | some qc =>
        simp only [seedGroupsAux, hqg, hqc] at hok
        by_cases hdup : (alookup qc ((alookup (formatInt qg) acc).getD [])).isSome
        · rw [if_pos hdup] at hok
          exact absurd hok (by simp)
        · rw [if_neg hdup] at hok
          refine ih hok ?_ (fun p hp => h p (List.mem_cons_of_mem _ hp))
          rw [lookup2_setPerm_of_ne _ (fun hh =>
            h q (List.mem_cons_self _ _) qg qc hqg hqc ⟨hh.1.symm, hh.2.symm⟩)]
          exact hacc

theorem seedGroupsAux_good {acc : GroupsMap} {ps : List CollectionPermission} {G : GroupsMap}
    (hok : seedGroupsAux acc ps = .ok G) (hacc : GoodGraph acc) : GoodGraph G := by
  induction ps generalizing acc with
  | nil =>
    simp only [seedGroupsAux, Except.ok.injEq] at hok
    subst hok
    exact hacc
  | cons q rest ih =>
    cases hqg : q.group with
    | none => simp [seedGroupsAux, hqg] at hok
    | some qg =>
      cases hqc : q.collection with
      | none => simp [seedGroupsAux, hqg, hqc] at hok
      | some qc =>
        simp only [seedGroupsAux, hqg, hqc] at hok
        by_cases hdup : (alookup qc ((alookup (formatInt qg) acc).getD [])).isSome
        · rw [if_pos hdup] at hok
          exact absurd hok (by simp)
        · rw [if_neg hdup] at hok
          exact ih hok (goodGraph_setPerm hacc _ _ _)

theorem seedGroupsAux_keys {acc : GroupsMap} {ps : List CollectionPermission} {G : GroupsMap}
    (hok : seedGroupsAux acc ps = .ok G) :
    ∀ k ∈ G.map Prod.fst, k ∈ acc.map Prod.fst ∨
      ∃ p ∈ ps, ∃ g : Int, p.group = some g ∧ formatInt g = k := by
  induction ps generalizing acc with
  | nil =>
    simp only [seedGroupsAux, Except.ok.injEq] at hok
    subst hok
    exact fun k hk => Or.inl hk
  | cons q rest ih =>
    cases hqg : q.group with
    | none => simp [seedGroupsAux, hqg] at hok
    | some qg =>
      cases hqc : q.collection with
      | none => simp [seedGroupsAux, hqg, hqc] at hok
      | some qc =>
        simp only [seedGroupsAux, hqg, hqc] at hok
        by_cases hdup : (alookup qc ((alookup (formatInt qg) acc).getD [])).isSome
        · rw [if_pos hdup] at hok
          exact absurd hok (by simp)
        · rw [if_neg hdup] at hok
          intro k hk
          rcases ih hok k hk with hin | hin
          · unfold setPerm at hin
            rcases (mem_keys_aset _ _ _ _).mp hin with hin2 | hin2
            · exact Or.inl hin2
            · exact Or.inr ⟨q, List.mem_cons_self _ _, qg, hqg, hin2.symm⟩
          · obtain ⟨p, hp, g, h1, h2⟩ := hin
            exact Or.inr ⟨p, List.mem_cons_of_mem _ hp, g, h1, h2⟩

theorem seedGroupsAux_error_of_present {ps : List CollectionPermission} {acc : GroupsMap}
    {gStr c : String} (hpres : (lookup2 acc gStr c).isSome)
    (hq : ∃ q ∈ ps, ∃ g : Int, q.group = some g ∧ formatInt g = gStr ∧ q.collection = some c) :
    ∀ G, seedGroupsAux acc ps ≠ .ok G := by
  induction ps generalizing acc with
  | nil =>
    obtain ⟨q, hq1, _⟩ := hq
    simp at hq1
  | cons r rest ih =>
    intro G hok
    cases hrg : r.group with
    | none => simp [seedGroupsAux, hrg] at hok
    | some rg =>
      cases hrc : r.collection with
      | none => simp [seedGroupsAux, hrg, hrc] at hok
      | some rc =>
        simp only [seedGroupsAux, hrg, hrc] at hok
        by_cases hdup : (alookup rc ((alookup (formatInt rg) acc).getD [])).isSome
        · rw [if_pos hdup] at hok
          exact absurd hok (by simp)
        · rw [if_neg hdup] at hok
          obtain ⟨q, hqmem, g, hg1, hg2, hg3⟩ := hq
          rcases List.mem_cons.mp hqmem with hq1 | hq1
          · subst hq1
            rw [hg1] at hrg
            rw [hg3] at hrc
            have hgg : g = rg := Option.some.inj hrg
            have hcc : c = rc := Option.some.inj hrc
            apply hdup
            rw [alookup_getD_eq_lookup2, ← hcc, ← hgg, hg2]
            exact hpres
          · exact ih (lookup2_setPerm_isSome acc _ _ _ hpres)
              ⟨q, hq1, g, hg1, hg2, hg3⟩ G hok

theorem seedGroupsAux_append {acc : GroupsMap} {xs ys : List CollectionPermission} {G : GroupsMap}
    (hok : seedGroupsAux acc (xs ++ ys) = .ok G) :
    ∃ acc', seedGroupsAux acc xs = .ok acc' ∧ seedGroupsAux acc' ys = .ok G := by
  induction xs generalizing acc with
  | nil => exact ⟨acc, rfl, hok⟩
  | cons r rest ih =>
    cases hrg : r.group with
    | none => simp [seedGroupsAux, hrg] at hok
    | some rg =>
      cases hrc : r.collection with
      | none => simp [seedGroupsAux, hrg, hrc] at hok
      | some rc =>
        simp only [List.cons_append, seedGroupsAux, hrg, hrc] at hok
        by_cases hdup : (alookup rc ((alookup (formatInt rg) acc).getD [])).isSome
        · rw [if_pos hdup] at hok
          exact absurd hok (by simp)
        · rw [if_neg hdup] at hok
          obtain ⟨acc', h1, h2⟩ := ih hok
          refine ⟨acc', ?_, h2⟩
          simp only [seedGroupsAux, hrg, hrc]
          rw [if_neg hdup]
          exact h1

theorem seedGroupsAux_cons_ok {acc : GroupsMap} {p : CollectionPermission}
    {rest : List CollectionPermission} {G : GroupsMap}
    (hok : seedGroupsAux acc (p :: rest) = .ok G) :
    ∃ g c, p.group = some g ∧ p.collection = some c ∧
      seedGroupsAux (setPerm acc (formatInt g) c p.permission) rest = .ok G := by
  cases hg : p.group with
  | none => simp [seedGroupsAux, hg] at hok
  | some g =>
    cases hc : p.collection with
    | none => simp [seedGroupsAux, hg, hc] at hok
    | some c =>
      simp only [seedGroupsAux, hg, hc] at hok
      by_cases hdup : (alookup c ((alookup (formatInt g) acc).getD [])).isSome
      · rw [if_pos hdup] at hok
        exact absurd hok (by simp)
      · rw [if_neg hdup] at hok
        exact ⟨g, c, rfl, rfl, hok⟩

theorem seedGroups_error_of_hasDup {ps : List CollectionPermission} (h : HasDupPair ps) :
    ∀ G, seedGroups ps ≠ .ok G := by
  obtain ⟨ps1, p, ps2, q, ps3, g, c, hps, hp1, hp2, hq1, hq2, _⟩ := h
  intro G hok
  unfold seedGroups at hok
  rw [hps] at hok
  obtain ⟨acc1, hA, hB⟩ := @seedGroupsAux_append _ (ps1 ++ p :: ps2) _ _ hok
  have hpres : (lookup2 acc1 (formatInt g) c).isSome := by
    rw [seedGroupsAux_lookup_of_mem hA
      (List.mem_append_right ps1 (List.mem_cons_self p ps2)) hp1 hp2]
    rfl
  exact seedGroupsAux_error_of_present hpres
    ⟨q, List.mem_cons_self _ _, g, hq1, rfl, hq2⟩ G hB

/-! ### Generic fold preservation and skipping -/

theorem foldl_preserves {β σ : Type} (P : σ → Prop) (f : σ → β → σ) (l : List β) (s : σ)
    (hs : P s) (h : ∀ s b, P s → P (f s b)) : P (l.foldl f s) := by
  induction l generalizing s with
  | nil => exact hs
  | cons b rest ih => exact ih _ (h s b hs)

theorem foldl_step_skip {β σ : Type} (f : σ → β → σ) (xs ys : List β) (b : β)
    (hskip : ∀ s, f s b = s) (s : σ) :
    (xs ++ b :: ys).foldl f s = (xs ++ ys).foldl f s := by
  rw [List.foldl_append, List.foldl_append, List.foldl_cons, hskip]

/-! ### Lemmas about the resource tree builder -/

theorem nodupKeys_fetchCollStep {acc : List (Int × CollectionInfo)} (h : NodupKeys acc)
    (c : Collection) : NodupKeys (fetchCollStep acc c) := by
  simp only [fetchCollStep]
  by_cases hp : c.personalOwnerId.isSome
  · rw [if_pos hp]
    exact h
  · rw [if_neg hp]
    by_cases hl : c.location.getD "" = "" ∨ c.location.getD "" = "/"
    · rw [if_pos hl]
      exact h
    · rw [if_neg hl]
      by_cases hd : deriveParentId (c.location.getD "") < 0
      · rw [if_pos hd]
        exact h
      · rw [if_neg hd]
        cases c.id with
        | int i => exact nodupKeys_aset h _ _
        | str s =>
          dsimp only
          by_cases hr : s ≠ "root"
          · rw [if_pos hr]
            cases atoi? s with
            | none => exact h
            | some parsedId => exact nodupKeys_aset h _ _
          · rw [if_neg hr]
            exact h

theorem nodupKeys_fetchChildCollections (colls : List Collection) :
    NodupKeys (fetchChildCollections colls) :=
  foldl_preserves NodupKeys fetchCollStep colls [] (by simp [NodupKeys])
    (fun s b hs => nodupKeys_fetchCollStep hs b)

theorem fetchCollStep_skip {c : Collection}
    (h : c.personalOwnerId.isSome = true ∨ c.location.getD "" = "" ∨ c.location.getD "" = "/" ∨
      (∀ seg, (splitSlashes (trimSlashes ((c.location.getD "").data))).getLast? = some seg →
        atoiList? seg = none))
    (acc : List (Int × CollectionInfo)) : fetchCollStep acc c = acc := by
  simp only [fetchCollStep]
  by_cases hp : c.personalOwnerId.isSome
  · rw [if_pos hp]
  · rw [if_neg hp]
    by_cases hl : c.location.getD "" = "" ∨ c.location.getD "" = "/"
    · rw [if_pos hl]
    · rw [if_neg hl]
      rcases h with h | h | h | h
      · exact absurd h hp
      · exact absurd (Or.inl h) hl
      · exact absurd (Or.inr h) hl
      · have hd : deriveParentId (c.location.getD "") < 0 := by
          simp only [deriveParentId]
          cases hlast : (splitSlashes (trimSlashes ((c.location.getD "").data))).getLast? with
          | none => norm_num
          | some seg =>
            dsimp only
            rw [h seg hlast]
            norm_num
        rw [if_pos hd]

theorem fetchGroupNames_congr {srv srv' : Server} (hg : srv.groupName = srv'.groupName)
    (gids : List Int) : fetchGroupNames srv gids = fetchGroupNames srv' gids := by
  unfold fetchGroupNames
  rw [hg]

theorem makeGraph_congr_server (data : CollectionGraphResourceModel)
    (st : Option CollectionGraphResourceModel) {srv srv' : Server}
    (hc : fetchChildCollections srv.collections = fetchChildCollections srv'.collections)
    (hg : srv.groupName = srv'.groupName) :
    makeCollectionPermissionsGraphFromModel data st (some srv) =
      makeCollectionPermissionsGraphFromModel data st (some srv') := by
  unfold makeCollectionPermissionsGraphFromModel
  cases hseed : seedGroups data.permissions with
  | error e => rfl
  | ok G =>
    dsimp only
    rw [hc, fetchGroupNames_congr hg]

theorem filterRecursive_congr (ps : List CollectionPermission) {srv srv' : Server}
    (hc : fetchChildCollections srv.collections = fetchChildCollections srv'.collections) :
    filterRecursivePermissions ps srv = filterRecursivePermissions ps srv' := by
  unfold filterRecursivePermissions
  rw [hc]

/-! ### Claim C10 -/

/-- C10: the state filter is a pure restriction. Every edge of its output is
an edge of its input, kept verbatim (the output is a sublist of the input, so
the filter never adds an edge and never changes a group, collection or
level), and an edge whose collection id is null is always kept. -/
theorem C10_state_filter_pure_restriction (permissions : List CollectionPermission)
    (client : Server) :
    ((filterRecursivePermissions permissions client).1.Sublist permissions) ∧
    (∀ p ∈ permissions, p.collection = none →
      p ∈ (filterRecursivePermissions permissions client).1) := by
  constructor
  · exact List.filter_sublist _
  · intro p hp hnone
    refine List.mem_filter.mpr ⟨hp, ?_⟩
    rw [hnone]

/-- C10 witness: at a concrete input, a null-collection edge survives the
filter and the output is a sublist of the input. -/
theorem C10_state_filter_pure_restriction_witness :
    wPermNull ∈ (filterRecursivePermissions [wPerm7root, wPermNull] wSrv).1 ∧
    (filterRecursivePermissions [wPerm7root, wPermNull] wSrv).1.Sublist
      [wPerm7root, wPermNull] :=
  ⟨(C10_state_filter_pure_restriction [wPerm7root, wPermNull] wSrv).2 wPermNull
      (by decide) rfl,
   (C10_state_filter_pure_restriction [wPerm7root, wPermNull] wSrv).1⟩

/-! ### Claim C8 -/

/-- C8: malformed-path degradation. A listed resource that is personal, has an
empty or bare-root location, or whose location's last trimmed path segment
does not parse as an integer is excluded from the resource tree without any
error, and removing it from the listing changes nothing: the tree, the
permission expansion, and the state filter computed from the remaining
resources are unaffected. -/
theorem C8_malformed_location_degrades_gracefully (xs ys : List Collection) (c : Collection)
    (h : c.personalOwnerId.isSome = true ∨ c.location.getD "" = "" ∨ c.location.getD "" = "/" ∨
      (∀ seg, (splitSlashes (trimSlashes ((c.location.getD "").data))).getLast? = some seg →
        atoiList? seg = none)) :
    fetchChildCollections (xs ++ c :: ys) = fetchChildCollections (xs ++ ys) ∧
    (∀ (data : CollectionGraphResourceModel) (st : Option CollectionGraphResourceModel)
        (gn : Int → Option String) (rev nrev : Int),
      makeCollectionPermissionsGraphFromModel data st
        (some { collections := xs ++ c :: ys, groupName := gn,
                currentRevision := rev, nextRevision := nrev }) =
      makeCollectionPermissionsGraphFromModel data st
        (some { collections := xs ++ ys, groupName := gn,
                currentRevision := rev, nextRevision := nrev })) ∧
    (∀ (ps : List CollectionPermission) (gn : Int → Option String) (rev nrev : Int),
      filterRecursivePermissions ps
        { collections := xs ++ c :: ys, groupName := gn,
          currentRevision := rev, nextRevision := nrev } =
      filterRecursivePermissions ps
        { collections := xs ++ ys, groupName := gn,
          currentRevision := rev, nextRevision := nrev }) := by
  have hfetch : fetchChildCollections (xs ++ c :: ys) = fetchChildCollections (xs ++ ys) :=
    foldl_step_skip fetchCollStep xs ys c (fetchCollStep_skip h) []
  refine ⟨hfetch, ?_, ?_⟩
  · intro data st gn rev nrev
    exact makeGraph_congr_server data st hfetch rfl
  · intro ps gn rev nrev
    exact filterRecursive_congr ps hfetch

/-- C8 witness: a concrete resource with unparseable location `/abc/` is
excluded from the tree and does not disturb the processing of the resource
listed next to it. -/
theorem C8_malformed_location_degrades_gracefully_witness :
    fetchChildCollections [wColl16, wCollBad] = fetchChildCollections [wColl16] :=
  (C8_malformed_location_degrades_gracefully [wColl16] [] wCollBad
    (Or.inr (Or.inr (Or.inr (fun seg hseg => by
      have h1 : (splitSlashes (trimSlashes (((wCollBad.location.getD "").data)))).getLast? =
          some ['a', 'b', 'c'] := by decide
      rw [h1] at hseg
      obtain rfl := Option.some.inj hseg
      decide))))).1

/-! ### Claim C6 -/

/-- C6: propagation toggle identity. With `applyChildCollectionsPermissions`
set to `false`, the expander issues no network call and returns exactly the
seeded explicit map; its edges are precisely the declared (group, collection,
level) triples — regardless of the state, the server, its ownership data, or
its tree contents. -/
theorem C6_toggle_off_identity (data : CollectionGraphResourceModel)
    (st : Option CollectionGraphResourceModel) (client : Option Server) (gs : GroupsMap)
    (hflag : data.applyChildCollectionsPermissions = some false)
    (hseed : seedGroups data.permissions = .ok gs) :
    makeCollectionPermissionsGraphFromModel data st client =
      (.ok { revision := (match st with | some s => s.revision | none => data.revision),
             groups := gs }, []) ∧
    (∀ t, t ∈ graphEdges gs ↔ t ∈ permTriples data.permissions) := by
  constructor
  · unfold makeCollectionPermissionsGraphFromModel
    rw [hseed]
    dsimp only
    rw [hflag]
    cases client with
    | none => rfl
    | some srv => rfl
  · intro t
    obtain ⟨gStr, c, v⟩ := t
    have hgood : GoodGraph gs := seedGroupsAux_good hseed goodGraph_nil
    rw [graphEdges_mem hgood]
    constructor
    · intro hl
      have hex : ∃ p ∈ data.permissions, ∃ g : Int,
          p.group = some g ∧ formatInt g = gStr ∧ p.collection = some c := by
        by_contra hno
        push_neg at hno
        have hnone : lookup2 gs gStr c = none := by
          refine seedGroupsAux_lookup_none hseed (by simp [lookup2, alookup]) ?_
          intro p hp g cc h1 h2 hk
          exact hno p hp g h1 hk.1 (hk.2 ▸ h2)
        rw [hnone] at hl
        cases hl
      obtain ⟨p, hp, g, h1, h2, h3⟩ := hex
      have hperm := seedGroupsAux_lookup_of_mem hseed hp h1 h3
      rw [h2] at hperm
      rw [hperm] at hl
      have hv : p.permission = v := Option.some.inj hl
      unfold permTriples
      rw [List.mem_filterMap]
      refine ⟨p, hp, ?_⟩
      rw [h1, h3]
      dsimp only
      rw [h2, hv]
    · intro hm
      unfold permTriples at hm
      rw [List.mem_filterMap] at hm
      obtain ⟨p, hp, hmap⟩ := hm
      cases h1 : p.group with
      | none =>
        rw [h1] at hmap
        simp at hmap
      | some g =>
        cases h3 : p.collection with
        | none =>
          rw [h1, h3] at hmap
          simp at hmap
        | some c' =>
          rw [h1, h3] at hmap
          dsimp only at hmap
          have htr := Option.some.inj hmap
          simp only [Prod.mk.injEq] at htr
          obtain ⟨hq1, hq2, hq3⟩ := htr
          subst hq1
          subst hq2
          subst hq3
          exact seedGroupsAux_lookup_of_mem hseed hp h1 h3

/-- C6 witness: at a concrete input with the toggle off, the expander returns
the seeded single-edge map verbatim with no API calls. -/
theorem C6_toggle_off_identity_witness :
    makeCollectionPermissionsGraphFromModel wDataC6 none (some wSrv) =
      (.ok { revision := 0, groups := [("7", [("root", "write")])] }, []) :=
  (C6_toggle_off_identity wDataC6 none (some wSrv) [("7", [("root", "write")])]
    rfl rfl).1

/-! ### Claim C4 -/

theorem makeGraph_error_of_hasDup (data : CollectionGraphResourceModel)
    (st : Option CollectionGraphResourceModel) (client : Option Server)
    (h : HasDupPair data.permissions) :
    ∃ e, makeCollectionPermissionsGraphFromModel data st client = (.error e, []) := by
  cases hseed : seedGroups data.permissions with
  | ok G => exact absurd hseed (seedGroups_error_of_hasDup h G)
  | error e =>
    refine ⟨e, ?_⟩
    unfold makeCollectionPermissionsGraphFromModel
    rw [hseed]

/-- C4 counterexample: the claim as stated is false. At a concrete declared
input holding two edges for group 7 and collection `root` with levels `read`
and `write`, the Create operation does fail — but only after issuing a read
request (the revision fetch) to the server, so a network call is issued
before the duplicate is detected. -/
theorem C4_counterexample_create_reads_before_duplicate_check :
    HasDupPair wDataDup.permissions ∧
    createOp wDataDup wSrv =
      (.error "Found duplicate permission definition.", [ApiCall.readGraph]) ∧
    (createOp wDataDup wSrv).2 ≠ [] :=
  ⟨⟨[], wPerm7rootR, [], wPerm7root, [], 7, "root", rfl, rfl, rfl, rfl, rfl, by decide⟩,
   rfl, by decide⟩

/-- C4 amended: a duplicate (group, resource) pair in the declared input
always fails graph construction, so no write request is ever issued. The
Update operation issues no network call at all — in particular, when the
declared permission set differs from the recorded state it fails with an
empty trace. The Create operation detects the duplicate after exactly one
network call, the read fetching the current revision, and before any other
request. -/
theorem C4_amended_duplicate_fails_before_write :
    (∀ (data : CollectionGraphResourceModel) (srv : Server), HasDupPair data.permissions →
      ∃ e, createOp data srv = (.error e, [ApiCall.readGraph])) ∧
    (∀ (data state : CollectionGraphResourceModel) (srv : Server), HasDupPair data.permissions →
      (updateOp data state srv).2 = [] ∧
      (permissionsSetEqual data.permissions state.permissions = false →
        ∃ e, updateOp data state srv = (.error e, []))) := by
  constructor
  · intro data srv h
    obtain ⟨e, heq⟩ := makeGraph_error_of_hasDup (createBaseData data srv)
      (some (createTempState srv)) (some srv) h
    refine ⟨e, ?_⟩
    unfold createOp
    dsimp only
    rw [heq]
  · intro data state srv h
    by_cases hcond :
        (!permissionsSetEqual (withDefaultFlag data).permissions state.permissions ||
          ((withDefaultFlag data).applyChildCollectionsPermissions.isSome &&
            state.applyChildCollectionsPermissions.isSome &&
            (withDefaultFlag data).applyChildCollectionsPermissions !=
              state.applyChildCollectionsPermissions)) = true
    · obtain ⟨e, heq⟩ := makeGraph_error_of_hasDup (withDefaultFlag data)
        (some state) (some srv) h
      have hres : updateOp data state srv = (.error e, []) := by
        unfold updateOp
        dsimp only
        rw [if_pos hcond, heq]
      exact ⟨by rw [hres], fun _ => ⟨e, hres⟩⟩
    · have hres : updateOp data state srv =
          (.ok { withDefaultFlag data with revision := state.revision }, []) := by
        unfold updateOp
        rw [if_neg hcond]
      refine ⟨by rw [hres], fun hne => ?_⟩
      exfalso
      apply hcond
      have hperm : (withDefaultFlag data).permissions = data.permissions := rfl
      rw [hperm, hne]
      rfl

/-- C4 amended witness: the amended behavior at a concrete duplicate input:
Create fails with exactly one read in its trace, and Update issues no call. -/
theorem C4_amended_duplicate_fails_before_write_witness :
    (∃ e, createOp wDataDup wSrv = (.error e, [ApiCall.readGraph])) ∧
    (updateOp wDataDup wState0 wSrv).2 = [] :=
  ⟨C4_amended_duplicate_fails_before_write.1 wDataDup wSrv
    ⟨[], wPerm7rootR, [], wPerm7root, [], 7, "root", rfl, rfl, rfl, rfl, rfl, by decide⟩,
   (C4_amended_duplicate_fails_before_write.2 wDataDup wState0 wSrv
    ⟨[], wPerm7rootR, [], wPerm7root, [], 7, "root", rfl, rfl, rfl, rfl, rfl, by decide⟩).1⟩

/-! ### Helper lemmas about the expander's result -/

theorem makeGraph_ok_of_seed {data : CollectionGraphResourceModel}
    {st : Option CollectionGraphResourceModel} {client : Option Server} {gs : GroupsMap}
    (hseed : seedGroups data.permissions = .ok gs) :
    ∃ g calls, makeCollectionPermissionsGraphFromModel data st client = (.ok g, calls) := by
  unfold makeCollectionPermissionsGraphFromModel
  rw [hseed]
  exact ⟨_, _, rfl⟩

theorem makeGraph_ok_revision {data : CollectionGraphResourceModel}
    {st : CollectionGraphResourceModel} {client : Option Server}
    {g : CollectionPermissionsGraph} {calls : List ApiCall}
    (h : makeCollectionPermissionsGraphFromModel data (some st) client = (.ok g, calls)) :
    g.revision = st.revision := by
  unfold makeCollectionPermissionsGraphFromModel at h
  cases hseed : seedGroups data.permissions with
  | error e =>
    rw [hseed] at h
    simp at h
  | ok gs =>
    rw [hseed] at h
    dsimp only at h
    rw [Prod.mk.injEq] at h
    have hg := h.1
    rw [Except.ok.injEq] at hg
    rw [← hg]

theorem makeGraph_no_write (data : CollectionGraphResourceModel)
    (st : Option CollectionGraphResourceModel) (client : Option Server)
    (body : CollectionPermissionsGraph) :
    ApiCall.writeGraph body ∉ (makeCollectionPermissionsGraphFromModel data st client).2 := by
  unfold makeCollectionPermissionsGraphFromModel
  cases hseed : seedGroups data.permissions with
  | error e => simp
  | ok gs =>
    dsimp only
    cases client with
    | none => simp
    | some srv =>
      dsimp only
      by_cases hflag : data.applyChildCollectionsPermissions.getD true
      · rw [if_pos hflag]
        intro hmem
        simp [fetchGroupNames] at hmem
      · rw [if_neg hflag]
        simp

theorem makeGraph_ok_expanded (data : CollectionGraphResourceModel)
    (st : Option CollectionGraphResourceModel) (srv : Server) (gs : GroupsMap)
    (hflag : data.applyChildCollectionsPermissions = some true)
    (hseed : seedGroups data.permissions = .ok gs) :
    makeCollectionPermissionsGraphFromModel data st (some srv) =
      (.ok { revision := (match st with | some s => s.revision | none => data.revision),
             groups := expandedGroups data.permissions srv gs },
       ApiCall.listCollections ::
         (fetchGroupNames srv (groupIdsList data.permissions)).2) := by
  unfold makeCollectionPermissionsGraphFromModel
  rw [hseed]
  dsimp only
  rw [hflag]
  rfl

/-! ### Claim C5 -/

/-- C5 counterexample: the claim as stated is false. At a concrete input the
declared permission set differs from the recorded state — so, by the claim,
a write using the last-recorded revision should be performed — yet no write
request is issued: graph construction fails on a duplicate declared pair and
Update aborts with an empty trace. -/
theorem C5_counterexample_diff_without_write :
    permissionsSetEqual wDataDup.permissions wState0.permissions = false ∧
    updateOp wDataDup wState0 wSrv =
      (.error "Found duplicate permission definition.", []) :=
  ⟨by decide, rfl⟩

/-- C5 amended: the no-op path holds as claimed — when neither the explicit
permission set nor the (defaulted) propagation toggle differs from the
recorded state, Update issues no network call and returns exactly the
last-recorded revision. In the other direction, a write, whenever one is
issued, always carries the last-recorded revision as its base, and when the
explicit set differs and the declared permissions are well-formed (the seed
succeeds) a write is indeed issued. When construction fails (for example, on
a duplicate pair), no write happens despite the difference. -/
theorem C5_amended_noop_and_base_revision :
    (∀ (data state : CollectionGraphResourceModel) (srv : Server),
      permissionsSetEqual data.permissions state.permissions = true →
      (∀ b, state.applyChildCollectionsPermissions = some b →
        data.applyChildCollectionsPermissions.getD true = b) →
      updateOp data state srv =
        (.ok { withDefaultFlag data with revision := state.revision }, [])) ∧
    (∀ (data state : CollectionGraphResourceModel) (srv : Server)
        (body : CollectionPermissionsGraph),
      ApiCall.writeGraph body ∈ (updateOp data state srv).2 →
      body.revision = state.revision) ∧
    (∀ (data state : CollectionGraphResourceModel) (srv : Server) (gs : GroupsMap),
      seedGroups data.permissions = .ok gs →
      permissionsSetEqual data.permissions state.permissions = false →
      ∃ body calls, updateOp data state srv =
        (.ok { withDefaultFlag data with revision := srv.nextRevision },
         calls ++ [ApiCall.writeGraph body]) ∧
        body.revision = state.revision) := by
  refine ⟨?_, ?_, ?_⟩
  · intro data state srv hperm hflag
    have hflagFalse : ((withDefaultFlag data).applyChildCollectionsPermissions.isSome &&
        state.applyChildCollectionsPermissions.isSome &&
        ((withDefaultFlag data).applyChildCollectionsPermissions !=
          state.applyChildCollectionsPermissions)) = false := by
      cases hb : state.applyChildCollectionsPermissions with
      | none => simp [hb]
      | some b =>
        have hbv := hflag b hb
        simp [withDefaultFlag, hb, hbv]
    have hpermEq : (withDefaultFlag data).permissions = data.permissions := rfl
    unfold updateOp
    dsimp only
    rw [if_neg (by rw [hpermEq, hperm, hflagFalse]; simp)]
  · intro data state srv body hmem
    unfold updateOp at hmem
    dsimp only at hmem
    by_cases hcond :
        (!permissionsSetEqual (withDefaultFlag data).permissions state.permissions ||
          ((withDefaultFlag data).applyChildCollectionsPermissions.isSome &&
            state.applyChildCollectionsPermissions.isSome &&
            ((withDefaultFlag data).applyChildCollectionsPermissions !=
              state.applyChildCollectionsPermissions))) = true
    · rw [if_pos hcond] at hmem
      cases hmk : makeCollectionPermissionsGraphFromModel (withDefaultFlag data)
          (some state) (some srv) with
      | mk r calls =>
        cases r with
        | error e =>
          rw [hmk] at hmem
          dsimp only at hmem
          have hnw := makeGraph_no_write (withDefaultFlag data) (some state) (some srv) body
          rw [hmk] at hnw
          exact absurd hmem hnw
        | ok g =>
          rw [hmk] at hmem
          dsimp only at hmem
          rcases List.mem_append.mp hmem with hin | hin
          · have hnw := makeGraph_no_write (withDefaultFlag data) (some state) (some srv) body
            rw [hmk] at hnw
            exact absurd hin hnw
          · have hbg : body = g := by
              have := List.mem_singleton.mp hin
              exact (ApiCall.writeGraph.inj this)
            rw [hbg]
            exact makeGraph_ok_revision hmk
    · rw [if_neg hcond] at hmem
      simp at hmem
  · intro data state srv gs hseed hperm
    obtain ⟨g, calls, hmk⟩ :=
      @makeGraph_ok_of_seed (withDefaultFlag data) (some state) (some srv) gs hseed
    refine ⟨g, calls, ?_, makeGraph_ok_revision hmk⟩
    have hpermEq : (withDefaultFlag data).permissions = data.permissions := rfl
    unfold updateOp
    dsimp only
    rw [if_pos (by rw [hpermEq, hperm]; simp), hmk]

/-- C5 witness: at a concrete input whose explicit set and toggle equal the
recorded state, Update performs no call and keeps revision 42; and at a
concrete differing well-formed input, the write carries revision 42 as its
base. -/
theorem C5_amended_noop_and_base_revision_witness :
    updateOp wDataC1 wStateEq wSrv =
      (.ok { withDefaultFlag wDataC1 with revision := wStateEq.revision }, []) ∧
    (∃ body calls, updateOp wDataC2 wState0 wSrv =
      (.ok { withDefaultFlag wDataC2 with revision := wSrv.nextRevision },
       calls ++ [ApiCall.writeGraph body]) ∧ body.revision = wState0.revision) :=
  ⟨C5_amended_noop_and_base_revision.1 wDataC1 wStateEq wSrv (by decide)
    (fun b hb => by
      have hbt : b = true := by
        have h2 := hb
        simp [wStateEq] at h2
        exact h2
      rw [hbt]
      rfl),
   C5_amended_noop_and_base_revision.2.2 wDataC2 wState0 wSrv _ rfl (by decide)⟩

/-! ### Preservation properties of the anchor-child step -/

theorem foldl_lookup2_pred {β : Type} (P : Option String → Prop) (f : GroupsMap → β → GroupsMap)
    (l : List β) (G : GroupsMap) (gStr c : String)
    (h : ∀ b ∈ l, ∀ H, P (lookup2 H gStr c) → P (lookup2 (f H b) gStr c))
    (hG : P (lookup2 G gStr c)) : P (lookup2 (l.foldl f G) gStr c) := by
  induction l generalizing G with
  | nil => exact hG
  | cons b rest ih =>
    rw [List.foldl_cons]
    exact ih _ (fun x hx => h x (List.mem_cons_of_mem _ hx))
      (h b (List.mem_cons_self _ _) G hG)

theorem anchorGroupStep_preserve_write (gnames : List (Int × String))
    (ps : List CollectionPermission) (cStr cname : String) {gStr c : String}
    (H : GroupsMap) (g : Int)
    (h : lookup2 H gStr c = some CollectionPermissionLevelWrite) :
    lookup2 (anchorGroupStep gnames ps cStr cname H g) gStr c =
      some CollectionPermissionLevelWrite := by
  by_cases hk : formatInt g = gStr ∧ cStr = c
  · obtain ⟨h1, h2⟩ := hk
    subst h1
    subst h2
    rw [anchorGroupStep_at]
    by_cases hex : isExplicitPermissionFor ps g cStr
    · rw [if_pos hex]
      exact h
    · rw [if_neg hex, h]
      unfold step3At
      dsimp only
      rw [if_neg (fun hh : CollectionPermissionLevelWrite = CollectionPermissionLevelRead ∧
        anchorPermission gnames g cname = CollectionPermissionLevelWrite =>
          absurd hh.1 (by decide))]
  · rw [anchorGroupStep_preserve _ _ _ _ H g hk]
    exact h

theorem applyAnchorChildren_preserve_write (colls : List (Int × CollectionInfo)) (gids : List Int)
    (gnames : List (Int × String)) (ps : List CollectionPermission) {gStr c : String}
    (G : GroupsMap) (h : lookup2 G gStr c = some CollectionPermissionLevelWrite) :
    lookup2 (applyAnchorChildren colls gids gnames ps G) gStr c =
      some CollectionPermissionLevelWrite := by
  unfold applyAnchorChildren
  refine foldl_lookup2_pred (fun o => o = some CollectionPermissionLevelWrite) _ colls G gStr c
    ?_ h
  intro e _ H hH
  unfold anchorCollStep
  by_cases hp : e.2.ParentID = (5 : Int) ∨ e.2.ParentID = (4 : Int)
  · rw [if_pos hp]
    unfold anchorStep
    exact foldl_lookup2_pred (fun o => o = some CollectionPermissionLevelWrite) _ gids H gStr c
      (fun g _ H' hH' => anchorGroupStep_preserve_write _ _ _ _ H' g hH') hH
  · rw [if_neg hp]
    exact hH

theorem anchorGroupStep_preserve_explicit (gnames : List (Int × String))
    (ps : List CollectionPermission) (cStr cname : String) {g : Int} {c : String}
    (hex : isExplicitPermissionFor ps g c = true) (H : GroupsMap) (g' : Int) :
    lookup2 (anchorGroupStep gnames ps cStr cname H g') (formatInt g) c =
      lookup2 H (formatInt g) c := by
  by_cases hk : formatInt g' = formatInt g ∧ cStr = c
  · obtain ⟨h1, h2⟩ := hk
    have hgg : g' = g := formatInt_injective h1
    subst hgg
    subst h2
    unfold anchorGroupStep
    rw [hex]
    simp only [if_true, lookup2_ensureGroup]
  · rw [anchorGroupStep_preserve _ _ _ _ H g' hk]

theorem applyAnchorChildren_preserve_explicit (colls : List (Int × CollectionInfo))
    (gids : List Int) (gnames : List (Int × String)) (ps : List CollectionPermission)
    {g : Int} {c : String} (hex : isExplicitPermissionFor ps g c = true) (G : GroupsMap) :
    lookup2 (applyAnchorChildren colls gids gnames ps G) (formatInt g) c =
      lookup2 G (formatInt g) c := by
  unfold applyAnchorChildren
  refine foldl_lookup2_invariant _ colls G (formatInt g) c ?_
  intro e _ H
  unfold anchorCollStep
  by_cases hp : e.2.ParentID = (5 : Int) ∨ e.2.ParentID = (4 : Int)
  · rw [if_pos hp]
    unfold anchorStep
    exact foldl_lookup2_invariant _ gids H (formatInt g) c
      (fun g' _ H' => anchorGroupStep_preserve_explicit _ _ _ _ hex H' g')
  · rw [if_neg hp]

theorem anchorGroupStep_change (gnames : List (Int × String)) (ps : List CollectionPermission)
    (cStr cname : String) (H : GroupsMap) (g : Int) {gStr c e : String}
    (hold : lookup2 H gStr c = some e)
    (hne : lookup2 (anchorGroupStep gnames ps cStr cname H g) gStr c ≠ some e) :
    e = CollectionPermissionLevelRead ∧
    lookup2 (anchorGroupStep gnames ps cStr cname H g) gStr c =
      some CollectionPermissionLevelWrite ∧
    formatInt g = gStr ∧ cStr = c ∧ isExplicitPermissionFor ps g cStr = false ∧
    anchorPermission gnames g cname = CollectionPermissionLevelWrite := by
  by_cases hk : formatInt g = gStr ∧ cStr = c
  · obtain ⟨h1, h2⟩ := hk
    subst h1
    subst h2
    rw [anchorGroupStep_at] at hne ⊢
    by_cases hex : isExplicitPermissionFor ps g cStr
    · rw [if_pos hex] at hne
      exact absurd hold hne
    · rw [if_neg hex] at hne ⊢
      rw [hold] at hne ⊢
      unfold step3At at hne ⊢
      dsimp only at hne ⊢
      by_cases hup : e = CollectionPermissionLevelRead ∧
          anchorPermission gnames g cname = CollectionPermissionLevelWrite
      · rw [if_pos hup] at hne ⊢
        rw [hup.2]
        exact ⟨hup.1, rfl, rfl, rfl, by simpa using hex, rfl⟩
      · rw [if_neg hup] at hne
        exact absurd rfl hne
  · rw [anchorGroupStep_preserve _ _ _ _ H g hk] at hne
    exact absurd hold hne

theorem anchorStep_change (gids : List Int) (gnames : List (Int × String))
    (ps : List CollectionPermission) (cid : Int) (info : CollectionInfo) (H : GroupsMap)
    {gStr c e : String} (hold : lookup2 H gStr c = some e)
    (hne : lookup2 (anchorStep gids gnames ps cid info H) gStr c ≠ some e) :
    e = CollectionPermissionLevelRead ∧
    lookup2 (anchorStep gids gnames ps cid info H) gStr c =
      some CollectionPermissionLevelWrite ∧
    formatInt cid = c ∧
    ∃ g ∈ gids, formatInt g = gStr ∧ isExplicitPermissionFor ps g (formatInt cid) = false ∧
      anchorPermission gnames g info.Name = CollectionPermissionLevelWrite := by
  induction gids generalizing H with
  | nil => exact absurd hold hne
  | cons g₀ rest ih =>
    unfold anchorStep at hne ⊢
    rw [List.foldl_cons] at hne ⊢
    by_cases h1 : lookup2 (anchorGroupStep gnames ps (formatInt cid) info.Name H g₀) gStr c =
        some e
    · obtain ⟨he, hfin, hcid, g, hg, hfmt, hexp, hname⟩ := ih
        (H := anchorGroupStep gnames ps (formatInt cid) info.Name H g₀) h1 hne
      exact ⟨he, hfin, hcid, g, List.mem_cons_of_mem _ hg, hfmt, hexp, hname⟩
    · obtain ⟨he, hstep, hfmt, hcid, hexp, hname⟩ :=
        anchorGroupStep_change gnames ps (formatInt cid) info.Name H g₀ hold h1
      have hfin : lookup2 (rest.foldl (anchorGroupStep gnames ps (formatInt cid) info.Name)
          (anchorGroupStep gnames ps (formatInt cid) info.Name H g₀)) gStr c =
          some CollectionPermissionLevelWrite :=
        foldl_lookup2_pred (fun o => o = some CollectionPermissionLevelWrite) _ rest _ gStr c
          (fun g' _ H' hH' => anchorGroupStep_preserve_write _ _ _ _ H' g' hH') hstep
      exact ⟨he, hfin, hcid, g₀, List.mem_cons_self _ _, hfmt, hexp, hname⟩

theorem applyAnchorChildren_change (colls : List (Int × CollectionInfo)) (gids : List Int)
    (gnames : List (Int × String)) (ps : List CollectionPermission) (G : GroupsMap)
    {gStr c e : String} (hold : lookup2 G gStr c = some e)
    (hne : lookup2 (applyAnchorChildren colls gids gnames ps G) gStr c ≠ some e) :
    e = CollectionPermissionLevelRead ∧
    lookup2 (applyAnchorChildren colls gids gnames ps G) gStr c =
      some CollectionPermissionLevelWrite ∧
    ∃ cid info, (cid, info) ∈ colls ∧ (info.ParentID = (5 : Int) ∨ info.ParentID = (4 : Int)) ∧
      formatInt cid = c ∧
      ∃ g ∈ gids, formatInt g = gStr ∧ isExplicitPermissionFor ps g (formatInt cid) = false ∧
        anchorPermission gnames g info.Name = CollectionPermissionLevelWrite := by
  induction colls generalizing G with
  | nil => exact absurd hold hne
  | cons e₀ rest ih =>
    unfold applyAnchorChildren at hne ⊢
    rw [List.foldl_cons] at hne ⊢
    by_cases h1 : lookup2 (anchorCollStep gids gnames ps G e₀) gStr c = some e
    · obtain ⟨he, hfin, cid, info, hmem, hpar, hcid, hrest⟩ := ih
        (G := anchorCollStep gids gnames ps G e₀) h1 hne
      exact ⟨he, hfin, cid, info, List.mem_cons_of_mem _ hmem, hpar, hcid, hrest⟩
    · obtain ⟨cid₀, info₀⟩ := e₀
      unfold anchorCollStep at h1 hne ⊢
      by_cases hp : info₀.ParentID = (5 : Int) ∨ info₀.ParentID = (4 : Int)
      · rw [if_pos hp] at h1 hne ⊢
        obtain ⟨he, hstep, hcid, g, hg, hfmt, hexp, hname⟩ :=
          anchorStep_change gids gnames ps cid₀ info₀ G hold h1
        have hfin : lookup2 (rest.foldl (anchorCollStep gids gnames ps)
            (anchorStep gids gnames ps cid₀ info₀ G)) gStr c =
            some CollectionPermissionLevelWrite := by
          refine foldl_lookup2_pred (fun o => o = some CollectionPermissionLevelWrite) _ rest _
            gStr c ?_ hstep
          intro e' _ H hH
          unfold anchorCollStep
          by_cases hp' : e'.2.ParentID = (5 : Int) ∨ e'.2.ParentID = (4 : Int)
          · rw [if_pos hp']
            unfold anchorStep
            exact foldl_lookup2_pred (fun o => o = some CollectionPermissionLevelWrite) _ gids H
              gStr c (fun g' _ H' hH' => anchorGroupStep_preserve_write _ _ _ _ H' g' hH') hH
          · rw [if_neg hp']
            exact hH
        exact ⟨he, hfin, cid₀, info₀, List.mem_cons_self _ _, hp, hcid, g, hg, hfmt, hexp, hname⟩
      · rw [if_neg hp] at h1
        exact absurd hold h1

/-! ### Claim C7 -/

/-- C7: in the anchor-child expansion step, an existing `write` entry is never
downgraded; an entry for an explicitly declared (group, resource) pair is
never altered; and the only change ever made to an existing entry is the
upgrade of a non-explicit `read` to `write`, which happens only at a direct
child of an anchor root for a group whose computed anchor level is `write` —
that is, whose normalized name matches the child's normalized name. -/
theorem C7_anchor_step_never_downgrades (colls : List (Int × CollectionInfo)) (gids : List Int)
    (gnames : List (Int × String)) (ps : List CollectionPermission) (G : GroupsMap) :
    (∀ gStr c, lookup2 G gStr c = some CollectionPermissionLevelWrite →
      lookup2 (applyAnchorChildren colls gids gnames ps G) gStr c =
        some CollectionPermissionLevelWrite) ∧
    (∀ (g : Int) (c : String), isExplicitPermissionFor ps g c = true →
      lookup2 (applyAnchorChildren colls gids gnames ps G) (formatInt g) c =
        lookup2 G (formatInt g) c) ∧
    (∀ gStr c e, lookup2 G gStr c = some e →
      lookup2 (applyAnchorChildren colls gids gnames ps G) gStr c ≠ some e →
      e = CollectionPermissionLevelRead ∧
      lookup2 (applyAnchorChildren colls gids gnames ps G) gStr c =
        some CollectionPermissionLevelWrite ∧
      ∃ cid info, (cid, info) ∈ colls ∧
        (info.ParentID = (5 : Int) ∨ info.ParentID = (4 : Int)) ∧ formatInt cid = c ∧
        ∃ g ∈ gids, formatInt g = gStr ∧
          isExplicitPermissionFor ps g (formatInt cid) = false ∧
          anchorPermission gnames g info.Name = CollectionPermissionLevelWrite) :=
  ⟨fun gStr c h => applyAnchorChildren_preserve_write colls gids gnames ps G h,
   fun g c hex => applyAnchorChildren_preserve_explicit colls gids gnames ps hex G,
   fun gStr c e hold hne => applyAnchorChildren_change colls gids gnames ps G hold hne⟩

/-- C7 witness: at concrete inputs, a `write` entry survives the anchor step,
an explicit entry is untouched, and a non-explicit `read` entry on anchor
child 16 is upgraded to `write` by the name-matching group 7. -/
theorem C7_anchor_step_never_downgrades_witness :
    (lookup2 (applyAnchorChildren (fetchChildCollections wSrv.collections) [7]
        (fetchGroupNames wSrv [7]).1 [] [("7", [("16", "write")])]) "7" "16" =
      some CollectionPermissionLevelWrite) ∧
    (lookup2 (applyAnchorChildren (fetchChildCollections wSrv.collections) [7]
        (fetchGroupNames wSrv [7]).1 [wPerm7c16] [("7", [("16", "read")])]) "7" "16" =
      lookup2 [("7", [("16", "read")])] "7" "16") ∧
    (CollectionPermissionLevelRead = CollectionPermissionLevelRead ∧
      lookup2 (applyAnchorChildren (fetchChildCollections wSrv.collections) [7]
        (fetchGroupNames wSrv [7]).1 [] [("7", [("16", "read")])]) "7" "16" =
        some CollectionPermissionLevelWrite ∧
      ∃ cid info, (cid, info) ∈ fetchChildCollections wSrv.collections ∧
        (info.ParentID = (5 : Int) ∨ info.ParentID = (4 : Int)) ∧ formatInt cid = "16" ∧
        ∃ g ∈ [(7 : Int)], formatInt g = "7" ∧
          isExplicitPermissionFor [] g (formatInt cid) = false ∧
          anchorPermission (fetchGroupNames wSrv [7]).1 g info.Name =
            CollectionPermissionLevelWrite) :=
  ⟨(C7_anchor_step_never_downgrades (fetchChildCollections wSrv.collections) [7]
      (fetchGroupNames wSrv [7]).1 [] [("7", [("16", "write")])]).1 "7" "16" rfl,
   (C7_anchor_step_never_downgrades (fetchChildCollections wSrv.collections) [7]
      (fetchGroupNames wSrv [7]).1 [wPerm7c16] [("7", [("16", "read")])]).2.1 7 "16"
      (by decide),
   (C7_anchor_step_never_downgrades (fetchChildCollections wSrv.collections) [7]
      (fetchGroupNames wSrv [7]).1 [] [("7", [("16", "read")])]).2.2 "7" "16"
      CollectionPermissionLevelRead rfl (by decide)⟩

/-! ### Key-domain lemmas: expansion introduces no new group keys -/

theorem foldl_keys {β : Type} (f : GroupsMap → β → GroupsMap) (l : List β) (G : GroupsMap)
    (S : String → Prop)
    (h : ∀ H b k, b ∈ l → k ∈ (f H b).map Prod.fst → k ∈ H.map Prod.fst ∨ S k)
    (k : String) (hk : k ∈ (l.foldl f G).map Prod.fst) : k ∈ G.map Prod.fst ∨ S k := by
  induction l generalizing G with
  | nil => exact Or.inl hk
  | cons b rest ih =>
    rw [List.foldl_cons] at hk
    rcases ih (f G b) (fun H b' k' hb' => h H b' k' (List.mem_cons_of_mem _ hb')) hk with h1 | h1
    · exact h G b k (List.mem_cons_self _ _) h1
    · exact Or.inr h1

theorem ensureGroup_keys (H : GroupsMap) (g k : String)
    (h : k ∈ (ensureGroup H g).map Prod.fst) : k ∈ H.map Prod.fst ∨ k = g := by
  unfold ensureGroup at h
  cases hl : alookup g H with
  | some m =>
    rw [hl] at h
    exact Or.inl h
  | none =>
    rw [hl] at h
    exact (mem_keys_aset _ _ _ _).mp h

theorem anchorGroupStep_keys (gnames : List (Int × String)) (ps : List CollectionPermission)
    (cStr cname : String) (H : GroupsMap) (g : Int) (k : String)
    (h : k ∈ (anchorGroupStep gnames ps cStr cname H g).map Prod.fst) :
    k ∈ H.map Prod.fst ∨ k = formatInt g := by
  unfold anchorGroupStep at h
  by_cases hex : isExplicitPermissionFor ps g cStr
  · simp only [hex, if_true] at h
    exact ensureGroup_keys H (formatInt g) k h
  · simp only [hex, if_false, Bool.false_eq_true] at h
    cases hcur : lookup2 (ensureGroup H (formatInt g)) (formatInt g) cStr with
    | none =>
      rw [hcur] at h
      dsimp only at h
      unfold setPerm at h
      rcases (mem_keys_aset _ _ _ _).mp h with h2 | h2
      · exact ensureGroup_keys H (formatInt g) k h2
      · exact Or.inr h2
    | some e' =>
      rw [hcur] at h
      dsimp only at h
      by_cases hup : e' = CollectionPermissionLevelRead ∧
          anchorPermission gnames g cname = CollectionPermissionLevelWrite
      · rw [if_pos hup] at h
        unfold setPerm at h
        rcases (mem_keys_aset _ _ _ _).mp h with h2 | h2
        · exact ensureGroup_keys H (formatInt g) k h2
        · exact Or.inr h2
      · rw [if_neg hup] at h
        exact ensureGroup_keys H (formatInt g) k h

theorem recursiveGroupStep_keys (ps : List CollectionPermission) (owner : Int) (cStr : String)
    (H : GroupsMap) (g : Int) (k : String)
    (h : k ∈ (recursiveGroupStep ps owner cStr H g).map Prod.fst) :
    k ∈ H.map Prod.fst ∨ k = formatInt g := by
  unfold recursiveGroupStep at h
  by_cases hex : isExplicitPermissionFor ps g cStr
  · simp only [hex, if_true] at h
    exact ensureGroup_keys H (formatInt g) k h
  · simp only [hex, if_false, Bool.false_eq_true] at h
    unfold setPerm at h
    rcases (mem_keys_aset _ _ _ _).mp h with h2 | h2
    · exact ensureGroup_keys H (formatInt g) k h2
    · exact Or.inr h2

theorem applyAnchorChildren_keys (colls : List (Int × CollectionInfo)) (gids : List Int)
    (gnames : List (Int × String)) (ps : List CollectionPermission) (G : GroupsMap) (k : String)
    (hk : k ∈ (applyAnchorChildren colls gids gnames ps G).map Prod.fst) :
    k ∈ G.map Prod.fst ∨ ∃ g ∈ gids, k = formatInt g := by
  unfold applyAnchorChildren at hk
  refine foldl_keys _ colls G (fun k' => ∃ g ∈ gids, k' = formatInt g) ?_ k hk
  intro H e k' _ hk'
  unfold anchorCollStep at hk'
  by_cases hp : e.2.ParentID = (5 : Int) ∨ e.2.ParentID = (4 : Int)
  · rw [if_pos hp] at hk'
    unfold anchorStep at hk'
    refine foldl_keys _ gids H (fun k'' => ∃ g ∈ gids, k'' = formatInt g) ?_ k' hk'
    intro H' g k'' hg hk''
    rcases anchorGroupStep_keys _ _ _ _ H' g k'' hk'' with h2 | h2
    · exact Or.inl h2
    · exact Or.inr ⟨g, hg, h2⟩
  · rw [if_neg hp] at hk'
    exact Or.inl hk'

theorem applyRecursive_keys (colls : List (Int × CollectionInfo)) (gids : List Int)
    (c2g : List (Int × Int)) (ps : List CollectionPermission) (G : GroupsMap) (k : String)
    (hk : k ∈ (applyRecursive colls gids c2g ps G).map Prod.fst) :
    k ∈ G.map Prod.fst ∨ ∃ g ∈ gids, k = formatInt g := by
  unfold applyRecursive at hk
  refine foldl_keys _ colls G (fun k' => ∃ g ∈ gids, k' = formatInt g) ?_ k hk
  intro H e k' _ hk'
  unfold recursiveCollStep at hk'
  by_cases h1 : e.2.Location = ""
  · rw [if_pos h1] at hk'
    exact Or.inl hk'
  · rw [if_neg h1] at hk'
    by_cases h2 : extractGroupCollectionId e.2.Location < 0
    · rw [if_pos h2] at hk'
      exact Or.inl hk'
    · rw [if_neg h2] at hk'
      cases howner : alookup (extractGroupCollectionId e.2.Location) c2g with
      | none =>
        rw [howner] at hk'
        exact Or.inl hk'
      | some owner =>
        rw [howner] at hk'
        dsimp only at hk'
        by_cases h3 : isCollectionInPlan ps (formatInt e.1)
        · rw [if_pos h3] at hk'
          exact Or.inl hk'
        · rw [if_neg h3] at hk'
          unfold recursiveStep at hk'
          refine foldl_keys _ gids H (fun k'' => ∃ g ∈ gids, k'' = formatInt g) ?_ k' hk'
          intro H' g k'' hg hk''
          rcases recursiveGroupStep_keys _ _ _ H' g k'' hk'' with hh | hh
          · exact Or.inl hh
          · exact Or.inr ⟨g, hg, hh⟩

theorem groupIdsList_mem_aux {ps : List CollectionPermission} {g : Int} :
    ∀ acc : List Int, g ∈ ps.foldl (fun acc p =>
      match p.group with
      | some g' => if g' ∈ acc then acc else acc ++ [g']
      | none => acc) acc → g ∈ acc ∨ ∃ p ∈ ps, p.group = some g := by
  induction ps with
  | nil => exact fun acc h => Or.inl h
  | cons p rest ih =>
    intro acc h
    rw [List.foldl_cons] at h
    rcases ih _ h with h1 | h1
    · cases hpg : p.group with
      | none =>
        rw [hpg] at h1
        exact Or.inl h1
      | some g' =>
        rw [hpg] at h1
        dsimp only at h1
        by_cases hin : g' ∈ acc
        · rw [if_pos hin] at h1
          exact Or.inl h1
        · rw [if_neg hin] at h1
          rcases List.mem_append.mp h1 with h2 | h2
          · exact Or.inl h2
          · exact Or.inr ⟨p, List.mem_cons_self _ _, by
              rw [hpg, List.mem_singleton.mp h2]⟩
    · obtain ⟨q, hq, hqg⟩ := h1
      exact Or.inr ⟨q, List.mem_cons_of_mem _ hq, hqg⟩

theorem groupIdsList_mem {ps : List CollectionPermission} {g : Int}
    (h : g ∈ groupIdsList ps) : ∃ p ∈ ps, p.group = some g := by
  rcases groupIdsList_mem_aux [] h with h1 | h1
  · simp at h1
  · exact h1

/-! ### Claim C9 -/

/-- C9: group-domain invariant of expansion. Every group key of the permission
graph the expander produces comes from some edge of the explicit declaration:
expansion never introduces a group that has no explicitly declared
permission. -/
theorem C9_expansion_adds_no_group (data : CollectionGraphResourceModel)
    (st : Option CollectionGraphResourceModel) (client : Option Server)
    (g : CollectionPermissionsGraph) (calls : List ApiCall)
    (h : makeCollectionPermissionsGraphFromModel data st client = (.ok g, calls)) :
    ∀ gStr ∈ g.groups.map Prod.fst, ∃ p ∈ data.permissions, ∃ gid : Int,
      p.group = some gid ∧ formatInt gid = gStr := by
  unfold makeCollectionPermissionsGraphFromModel at h
  cases hseed : seedGroups data.permissions with
  | error e =>
    rw [hseed] at h
    simp at h
  | ok gs =>
    rw [hseed] at h
    dsimp only at h
    rw [Prod.mk.injEq] at h
    have hg := h.1
    rw [Except.ok.injEq] at hg
    have hseedKeys : ∀ k ∈ gs.map Prod.fst, ∃ p ∈ data.permissions, ∃ gid : Int,
        p.group = some gid ∧ formatInt gid = k := by
      intro k hk
      rcases seedGroupsAux_keys hseed k hk with h1 | h1
      · simp at h1
      · obtain ⟨p, hp, gid, h2, h3⟩ := h1
        exact ⟨p, hp, gid, h2, h3⟩
    intro gStr hmem
    rw [← hg] at hmem
    dsimp only at hmem
    cases client with
    | none => exact hseedKeys gStr hmem
    | some srv =>
      dsimp only at hmem
      by_cases hflag : data.applyChildCollectionsPermissions.getD true = true
      · rw [if_pos hflag] at hmem
        dsimp only at hmem
        rcases applyRecursive_keys _ _ _ _ _ gStr hmem with h1 | h1
        · rcases applyAnchorChildren_keys _ _ _ _ _ gStr h1 with h2 | h2
          · exact hseedKeys gStr h2
          · obtain ⟨gid, hgid, hfmt⟩ := h2
            obtain ⟨p, hp, hpg⟩ := groupIdsList_mem hgid
            exact ⟨p, hp, gid, hpg, hfmt.symm⟩
        · obtain ⟨gid, hgid, hfmt⟩ := h1
          obtain ⟨p, hp, hpg⟩ := groupIdsList_mem hgid
          exact ⟨p, hp, gid, hpg, hfmt.symm⟩
      · rw [if_neg hflag] at hmem
        exact hseedKeys gStr hmem

/-- C9 witness: at the concrete expansion of a single declared edge for group
7, the only group key in the produced graph is traced back to that edge. -/
theorem C9_expansion_adds_no_group_witness :
    ∃ p ∈ wDataC1.permissions, ∃ gid : Int, p.group = some gid ∧ formatInt gid = "7" :=
  C9_expansion_adds_no_group wDataC1 none (some wSrv)
    { revision := 0, groups := [("7", [("root", "write"), ("16", "write"), ("60", "write")])] }
    [ApiCall.listCollections, ApiCall.getGroup 7] rfl "7" (by decide)

/-! ### Claim C2 -/

theorem groupIdsList_nodup_aux (ps : List CollectionPermission) :
    ∀ acc : List Int, acc.Nodup → (ps.foldl (fun acc p =>
      match p.group with
      | some g' => if g' ∈ acc then acc else acc ++ [g']
      | none => acc) acc).Nodup := by
  induction ps with
  | nil => exact fun acc h => h
  | cons p rest ih =>
    intro acc hacc
    rw [List.foldl_cons]
    refine ih _ ?_
    cases hpg : p.group with
    | none => exact hacc
    | some g' =>
      dsimp only
      by_cases hin : g' ∈ acc
      · rw [if_pos hin]
        exact hacc
      · rw [if_neg hin]
        rw [List.nodup_append]
        exact ⟨hacc, List.nodup_singleton _, by
          intro a ha hb
          rw [List.mem_singleton.mp hb] at ha
          exact hin ha⟩

theorem groupIdsList_nodup (ps : List CollectionPermission) : (groupIdsList ps).Nodup :=
  groupIdsList_nodup_aux ps [] List.nodup_nil

theorem isExplicit_false_of_not_inPlan {ps : List CollectionPermission} {g : Int} {cStr : String}
    (h : isCollectionInPlan ps cStr = false) :
    isExplicitPermissionFor ps g cStr = false := by
  unfold isCollectionInPlan at h
  unfold isExplicitPermissionFor
  rw [List.any_eq_false] at h ⊢
  intro p hp
  have h2 := h p hp
  intro hcontra
  apply h2
  rw [Bool.and_eq_true] at hcontra ⊢
  refine ⟨?_, hcontra.2⟩
  have h3 : p.group = some g := eq_of_beq hcontra.1
  rw [h3]
  rfl

/-- C2 counterexample: the claim as stated is false. In a tree where anchor
child 16 (named Analytics, owned by group 7) has descendant 60, with declared
edges for group 7 on `root` and for group 8 on `60`: the pair (7, 60) is not
explicitly declared and 16 is resolved as owned by group 7, so the claim
predicts that group 7 receives `write` on 60 — but the expansion gives group
7 no entry at all on 60, because group 8's explicit declaration on 60
suppresses the recursive grant for every group. -/
theorem C2_counterexample_other_groups_explicit_suppresses :
    isExplicitPermissionFor wDataC2.permissions 7 "60" = false ∧
    alookup (extractGroupCollectionId "/5/16/")
      (collectionIdToGroupId (fetchChildCollections wSrv.collections)
        (groupIdsList wDataC2.permissions)
        (fetchGroupNames wSrv (groupIdsList wDataC2.permissions)).1) = some 7 ∧
    makeCollectionPermissionsGraphFromModel wDataC2 none (some wSrv) =
      (.ok { revision := 0,
             groups := [("7", [("root", "write"), ("16", "write")]),
                        ("8", [("60", "read"), ("16", "read")])] },
       [ApiCall.listCollections, ApiCall.getGroup 7, ApiCall.getGroup 8]) ∧
    lookup2 [("7", [("root", "write"), ("16", "write")]),
             ("8", [("60", "read"), ("16", "read")])] "7" "60" = none :=
  ⟨by decide, by decide, rfl, by decide⟩

/-- C2 amended: recursive propagation is per resource, not per (group,
resource) pair. For a resource in an owned subtree (its location names an
owned anchor child) on which no group has declared any explicit edge, every
group under consideration receives a derived entry: `write` for the owning
group and `read` for every other group. An explicit declaration by any group
on the resource suppresses the recursive step for that resource entirely. -/
theorem C2_amended_recursive_per_resource (data : CollectionGraphResourceModel) (srv : Server)
    (gs : GroupsMap) (g cid : Int) (info : CollectionInfo) (owner : Int)
    (st : Option CollectionGraphResourceModel)
    (hflag : data.applyChildCollectionsPermissions = some true)
    (hseed : seedGroups data.permissions = .ok gs)
    (hmem : (cid, info) ∈ fetchChildCollections srv.collections)
    (hge : ¬(extractGroupCollectionId info.Location < 0))
    (howner : alookup (extractGroupCollectionId info.Location)
      (collectionIdToGroupId (fetchChildCollections srv.collections)
        (groupIdsList data.permissions)
        (fetchGroupNames srv (groupIdsList data.permissions)).1) = some owner)
    (hplan : isCollectionInPlan data.permissions (formatInt cid) = false)
    (hg : g ∈ groupIdsList data.permissions) :
    ∀ gOut calls,
      makeCollectionPermissionsGraphFromModel data st (some srv) = (.ok gOut, calls) →
      lookup2 gOut.groups (formatInt g) (formatInt cid) =
        some (if g = owner then CollectionPermissionLevelWrite
              else CollectionPermissionLevelRead) := by
  intro gOut calls h
  rw [makeGraph_ok_expanded data st srv gs hflag hseed] at h
  rw [Prod.mk.injEq, Except.ok.injEq] at h
  rw [← h.1]
  unfold expandedGroups
  have h1 : info.Location ≠ "" := by
    intro hl
    rw [hl] at hge
    exact hge (by decide)
  rw [applyRecursive_at (fetchChildCollections srv.collections)
    (nodupKeys_fetchChildCollections _) (groupIdsList data.permissions)
    (groupIdsList_nodup _) _ _ _ hmem owner h1 hge howner hplan hg]
  rw [if_neg (by rw [isExplicit_false_of_not_inPlan hplan]; simp)]

/-- C2 amended witness: at the concrete single-edge input for group 7,
descendant 60 of the owned anchor child 16 receives derived `write` for the
owning group 7. -/
theorem C2_amended_recursive_per_resource_witness :
    lookup2 [("7", [("root", "write"), ("16", "write"), ("60", "write")])] "7" "60" =
      some CollectionPermissionLevelWrite :=
  C2_amended_recursive_per_resource wDataC1 wSrv [("7", [("root", "write")])] 7 60
    { ID := 60, ParentID := 16, Name := "Sub", Location := "/5/16/" } 7 none
    rfl rfl (by decide) (by decide) (by decide) (by decide) (by decide)
    { revision := 0,
      groups := [("7", [("root", "write"), ("16", "write"), ("60", "write")])] }
    [ApiCall.listCollections, ApiCall.getGroup 7] rfl

/-! ### Claim C1: structure of locations under the anchor roots -/

theorem splitSlashes_ne_nil (cs : List Char) : splitSlashes cs ≠ [] := by
  induction cs with
  | nil => simp [splitSlashes]
  | cons c rest ih =>
    simp only [splitSlashes]
    by_cases hc : c = '/'
    · rw [if_pos hc]
      exact List.cons_ne_nil _ _
    · rw [if_neg hc]
      cases h : splitSlashes rest with
      | nil => exact List.cons_ne_nil _ _
      | cons s tl => exact List.cons_ne_nil _ _

theorem rightTrimSlashes_all_slash {cs : List Char} (h : rightTrimSlashes cs = []) :
    ∀ c ∈ cs, c = '/' := by
  induction cs with
  | nil => simp
  | cons c rest ih =>
    unfold rightTrimSlashes at h
    cases hr : rightTrimSlashes rest with
    | nil =>
      rw [hr] at h
      dsimp only at h
      by_cases hc : c = '/'
      · intro x hx
        rcases List.mem_cons.mp hx with h1 | h1
        · rw [h1]
          exact hc
        · exact ih hr x h1
      · rw [if_neg hc] at h
        exact absurd h (List.cons_ne_nil _ _)
    | cons r0 rs =>
      rw [hr] at h
      dsimp only at h
      exact absurd h (List.cons_ne_nil _ _)

theorem splitSlashes_all_slash {cs : List Char} (h : ∀ c ∈ cs, c = '/') :
    ∃ tl, splitSlashes cs = [] :: tl := by
  induction cs with
  | nil => exact ⟨[], rfl⟩
  | cons c rest ih =>
    have hc : c = '/' := h c (List.mem_cons_self _ _)
    simp only [splitSlashes]
    rw [if_pos hc]
    exact ⟨splitSlashes rest, rfl⟩

theorem rightTrimSlashes_cons_of_ne_nil {xs : List Char} {r0 : Char} {rs : List Char}
    (h : rightTrimSlashes xs = r0 :: rs) (c : Char) :
    rightTrimSlashes (c :: xs) = c :: r0 :: rs := by
  unfold rightTrimSlashes
  rw [h]

theorem splitSlashes_cons_slash (cs : List Char) :
    splitSlashes ('/' :: cs) = [] :: splitSlashes cs := by
  simp only [splitSlashes]
  rw [if_pos trivial]

theorem splitSlashes_cons_ne {c : Char} (hc : ¬(c = '/')) {cs : List Char} {s : List Char}
    {tl : List (List Char)} (h : splitSlashes cs = s :: tl) :
    splitSlashes (c :: cs) = (c :: s) :: tl := by
  simp only [splitSlashes]
  rw [if_neg hc, h]

theorem segments_of_marker {a : Char} (ha : ¬(a = '/')) {rest p : List Char}
    {tail : List (List Char)} (hsplit : splitSlashes rest = p :: tail) (hp : p ≠ []) :
    1 < (splitSlashes (trimSlashes ('/' :: a :: '/' :: rest))).length := by
  have hd : dropLeadingSlashes ('/' :: a :: '/' :: rest) = a :: '/' :: rest := by
    unfold dropLeadingSlashes
    rw [List.dropWhile_cons, if_pos (by simp), List.dropWhile_cons, if_neg (by simpa using ha)]
  unfold trimSlashes
  rw [hd]
  cases hR : rightTrimSlashes rest with
  | nil =>
    exfalso
    obtain ⟨tl, htl⟩ := splitSlashes_all_slash (rightTrimSlashes_all_slash hR)
    rw [hsplit] at htl
    exact hp (List.cons.injEq .. ▸ htl).1
  | cons r0 rs =>
    have h1 : rightTrimSlashes ('/' :: rest) = '/' :: r0 :: rs :=
      rightTrimSlashes_cons_of_ne_nil hR '/'
    have h2 : rightTrimSlashes (a :: '/' :: rest) = a :: '/' :: r0 :: rs :=
      rightTrimSlashes_cons_of_ne_nil h1 a
    rw [h2, splitSlashes_cons_ne ha (splitSlashes_cons_slash (r0 :: rs))]
    have h3 := splitSlashes_ne_nil (r0 :: rs)
    rw [List.length_cons]
    have h4 : 0 < (splitSlashes (r0 :: rs)).length := List.length_pos.mpr h3
    omega

theorem extract_nonneg_structure {loc : String}
    (h : ¬(extractGroupCollectionId loc < 0)) :
    (hasPrefixStr "/5/" loc = true ∨ hasPrefixStr "/4/" loc = true) ∧
    1 < (splitSlashes (trimSlashes loc.data)).length := by
  unfold extractGroupCollectionId at h
  by_cases hpre : hasPrefixStr "/5/" loc ∨ hasPrefixStr "/4/" loc
  · refine ⟨hpre, ?_⟩
    rw [if_pos hpre] at h
    rcases hpre with hp5 | hp5
    · obtain ⟨t, ht⟩ := List.isPrefixOf_iff_prefix.mp hp5
      have ht' : loc.data = '/' :: '5' :: '/' :: t := ht.symm
      rw [ht'] at h ⊢
      dsimp only [List.drop] at h
      cases hsp : splitSlashes t with
      | nil => exact absurd hsp (splitSlashes_ne_nil t)
      | cons p tl =>
        rw [hsp] at h
        dsimp only at h
        by_cases hp : p = []
        · rw [if_neg (by simp [hp])] at h
          exact absurd (by decide) h
        · exact segments_of_marker (by decide) hsp hp
    · obtain ⟨t, ht⟩ := List.isPrefixOf_iff_prefix.mp hp5
      have ht' : loc.data = '/' :: '4' :: '/' :: t := ht.symm
      rw [ht'] at h ⊢
      dsimp only [List.drop] at h
      cases hsp : splitSlashes t with
      | nil => exact absurd hsp (splitSlashes_ne_nil t)
      | cons p tl =>
        rw [hsp] at h
        dsimp only at h
        by_cases hp : p = []
        · rw [if_neg (by simp [hp])] at h
          exact absurd (by decide) h
        · exact segments_of_marker (by decide) hsp hp
  · rw [if_neg hpre] at h
    exact absurd (by decide) h

theorem childStep_lookup_true (k : String) (e : Int × CollectionInfo)
    (s : List (String × Bool)) (h : alookup k s = some true) :
    alookup k (childStep s e) = some true := by
  unfold childStep
  by_cases h0 : e.2.ParentID = (0 : Int)
  · rw [if_pos h0]
    exact h
  · rw [if_neg h0]
    by_cases h1 : hasPrefixStr "/5/" e.2.Location ∨ hasPrefixStr "/4/" e.2.Location
    · rw [if_pos h1]
      by_cases h2 : (splitSlashes (trimSlashes e.2.Location.data)).length > 1
      · rw [if_pos h2]
        by_cases hk : formatInt e.1 = k
        · rw [hk, alookup_aset_self]
        · rw [alookup_aset_of_ne (fun hh => hk hh.symm)]
          exact h
      · rw [if_neg h2]
        exact h
    · rw [if_neg h1]
      exact h

theorem childCollectionIds_lookup (k : String) (colls : List (Int × CollectionInfo)) :
    ∀ s, (∃ e ∈ colls, formatInt e.1 = k ∧ ¬(e.2.ParentID = (0 : Int)) ∧
      (hasPrefixStr "/5/" e.2.Location ∨ hasPrefixStr "/4/" e.2.Location) ∧
      (splitSlashes (trimSlashes e.2.Location.data)).length > 1) →
    alookup k (colls.foldl childStep s) = some true := by
  induction colls with
  | nil =>
    rintro s ⟨e, he, _⟩
    simp at he
  | cons e₀ rest ih =>
    rintro s ⟨e, he, hk, h0, h1, h2⟩
    rw [List.foldl_cons]
    rcases List.mem_cons.mp he with h3 | h3
    · subst h3
      have hstep : alookup k (childStep s e) = some true := by
        unfold childStep
        rw [if_neg h0, if_pos h1, if_pos h2, ← hk, alookup_aset_self]
      exact foldl_preserves (fun s' => alookup k s' = some true) childStep rest _ hstep
        (fun s' b hb => childStep_lookup_true k b s' hb)
    · exact ih _ ⟨e, h3, hk, h0, h1, h2⟩

theorem isChildCollectionId_of_eligible {colls : List (Int × CollectionInfo)}
    {e : Int × CollectionInfo} (he : e ∈ colls) (h0 : e.2.ParentID ≠ (0 : Int))
    (hext : ¬(extractGroupCollectionId e.2.Location < 0)) :
    isChildCollectionId (childCollectionIds colls) (formatInt e.1) = true := by
  obtain ⟨hpre, hseg⟩ := extract_nonneg_structure hext
  unfold isChildCollectionId childCollectionIds
  rw [childCollectionIds_lookup (formatInt e.1) colls [] ⟨e, he, rfl, h0, hpre, hseg⟩]
  rfl

theorem applyAnchorChildren_touch (colls : List (Int × CollectionInfo)) (gids : List Int)
    (gnames : List (Int × String)) (ps : List CollectionPermission) (G : GroupsMap)
    {gStr c : String}
    (hne : lookup2 (applyAnchorChildren colls gids gnames ps G) gStr c ≠ lookup2 G gStr c) :
    ∃ cid info, (cid, info) ∈ colls ∧
      (info.ParentID = (5 : Int) ∨ info.ParentID = (4 : Int)) ∧ formatInt cid = c := by
  induction colls generalizing G with
  | nil => exact absurd rfl hne
  | cons e₀ rest ih =>
    unfold applyAnchorChildren at hne
    rw [List.foldl_cons] at hne
    by_cases h1 : lookup2 (rest.foldl (anchorCollStep gids gnames ps)
        (anchorCollStep gids gnames ps G e₀)) gStr c =
        lookup2 (anchorCollStep gids gnames ps G e₀) gStr c
    · rw [h1] at hne
      obtain ⟨cid₀, info₀⟩ := e₀
      by_cases hp : info₀.ParentID = (5 : Int) ∨ info₀.ParentID = (4 : Int)
      · by_cases hc : formatInt cid₀ = c
        · exact ⟨cid₀, info₀, List.mem_cons_self _ _, hp, hc⟩
        · rw [anchorCollStep_preserve gids gnames ps G (cid₀, info₀)
            (fun hh => hc hh.2)] at hne
          exact absurd rfl hne
      · rw [anchorCollStep_preserve gids gnames ps G (cid₀, info₀)
          (fun hh => hp hh.1)] at hne
        exact absurd rfl hne
    · obtain ⟨cid, info, hmem, hpar, hcid⟩ := ih (G := anchorCollStep gids gnames ps G e₀) h1
      exact ⟨cid, info, List.mem_cons_of_mem _ hmem, hpar, hcid⟩

theorem applyRecursive_change (colls : List (Int × CollectionInfo)) (gids : List Int)
    (c2g : List (Int × Int)) (ps : List CollectionPermission) (G : GroupsMap) {gStr c : String}
    (hne : lookup2 (applyRecursive colls gids c2g ps G) gStr c ≠ lookup2 G gStr c) :
    ∃ e ∈ colls, formatInt e.1 = c ∧ e.2.Location ≠ "" ∧
      ¬(extractGroupCollectionId e.2.Location < 0) ∧
      isCollectionInPlan ps (formatInt e.1) = false := by
  induction colls generalizing G with
  | nil => exact absurd rfl hne
  | cons e₀ rest ih =>
    unfold applyRecursive at hne
    rw [List.foldl_cons] at hne
    by_cases h1 : lookup2 (rest.foldl (recursiveCollStep gids c2g ps)
        (recursiveCollStep gids c2g ps G e₀)) gStr c =
        lookup2 (recursiveCollStep gids c2g ps G e₀) gStr c
    · rw [h1] at hne
      by_cases hl : e₀.2.Location = ""
      · rw [recursiveCollStep_eq_of_skip gids c2g ps G e₀ (Or.inl hl)] at hne
        exact absurd rfl hne
      by_cases hx : extractGroupCollectionId e₀.2.Location < 0
      · rw [recursiveCollStep_eq_of_skip gids c2g ps G e₀ (Or.inr (Or.inl hx))] at hne
        exact absurd rfl hne
      by_cases hip : isCollectionInPlan ps (formatInt e₀.1) = true
      · rw [recursiveCollStep_eq_of_skip gids c2g ps G e₀
          (Or.inr (Or.inr (Or.inr hip)))] at hne
        exact absurd rfl hne
      by_cases hc : formatInt e₀.1 = c
      · exact ⟨e₀, List.mem_cons_self _ _, hc, hl, hx, Bool.eq_false_iff.mpr hip⟩
      · rw [recursiveCollStep_preserve_c gids c2g ps G e₀ hc] at hne
        exact absurd rfl hne
    · obtain ⟨e, hmem, hrest⟩ := ih (G := recursiveCollStep gids c2g ps G e₀) h1
      exact ⟨e, List.mem_cons_of_mem _ hmem, hrest⟩

theorem seedGroupsAux_lookup_inv {acc : GroupsMap} {ps : List CollectionPermission}
    {G : GroupsMap} (hok : seedGroupsAux acc ps = .ok G) {gk c l : String}
    (h : lookup2 G gk c = some l) :
    lookup2 acc gk c = some l ∨
    ∃ p ∈ ps, ∃ g : Int, p.group = some g ∧ formatInt g = gk ∧
      p.collection = some c ∧ p.permission = l := by
  induction ps generalizing acc with
  | nil =>
    simp only [seedGroupsAux, Except.ok.injEq] at hok
    subst hok
    exact Or.inl h
  | cons q rest ih =>
    cases hqg : q.group with
    | none => simp [seedGroupsAux, hqg] at hok
    | some qg =>
      cases hqc : q.collection with
      | none => simp [seedGroupsAux, hqg, hqc] at hok
      | some qc =>
        simp only [seedGroupsAux, hqg, hqc] at hok
        by_cases hdup : (alookup qc ((alookup (formatInt qg) acc).getD [])).isSome
        · rw [if_pos hdup] at hok
          exact absurd hok (by simp)
        · rw [if_neg hdup] at hok
          rcases ih hok with hin | ⟨p, hp, g, hg1, hg2, hg3, hg4⟩
          · by_cases hkc : formatInt qg = gk ∧ qc = c
            · obtain ⟨h1, h2⟩ := hkc
              subst h1
              subst h2
              rw [lookup2_setPerm_self] at hin
              exact Or.inr ⟨q, List.mem_cons_self _ _, qg, hqg, rfl, hqc,
                (Option.some.inj hin)⟩
            · rw [lookup2_setPerm_of_ne _ (fun hh => hkc ⟨hh.1.symm, hh.2.symm⟩)] at hin
              exact Or.inl hin
          · exact Or.inr ⟨p, List.mem_cons_of_mem _ hp, g, hg1, hg2, hg3, hg4⟩

theorem seedGroups_lookup_inv {ps : List CollectionPermission} {G : GroupsMap}
    (hok : seedGroups ps = .ok G) {gk c l : String} (h : lookup2 G gk c = some l) :
    ∃ p ∈ ps, ∃ g : Int, p.group = some g ∧ formatInt g = gk ∧
      p.collection = some c ∧ p.permission = l := by
  rcases seedGroupsAux_lookup_inv hok h with hin | hr
  · simp [lookup2, alookup] at hin
  · exact hr

theorem seedGroupsAux_ok_shape {acc : GroupsMap} {ps : List CollectionPermission}
    {G : GroupsMap} (hok : seedGroupsAux acc ps = .ok G) :
    ∀ p ∈ ps, p.group.isSome ∧ p.collection.isSome := by
  induction ps generalizing acc with
  | nil => simp
  | cons q rest ih =>
    cases hqg : q.group with
    | none => simp [seedGroupsAux, hqg] at hok
    | some qg =>
      cases hqc : q.collection with
      | none => simp [seedGroupsAux, hqg, hqc] at hok
      | some qc =>
        simp only [seedGroupsAux, hqg, hqc] at hok
        by_cases hdup : (alookup qc ((alookup (formatInt qg) acc).getD [])).isSome
        · rw [if_pos hdup] at hok
          exact absurd hok (by simp)
        · rw [if_neg hdup] at hok
          intro p hp
          rcases List.mem_cons.mp hp with h1 | h1
          · subst h1
            rw [hqg, hqc]
            exact ⟨rfl, rfl⟩
          · exact ih hok p h1

theorem applyRecursive_preserve_inPlan (colls : List (Int × CollectionInfo)) (gids : List Int)
    (c2g : List (Int × Int)) (ps : List CollectionPermission) {c : String}
    (hip : isCollectionInPlan ps c = true) (G : GroupsMap) (gStr : String) :
    lookup2 (applyRecursive colls gids c2g ps G) gStr c = lookup2 G gStr c := by
  unfold applyRecursive
  refine foldl_lookup2_invariant _ colls G gStr c ?_
  intro e _ H
  by_cases hc : formatInt e.1 = c
  · rw [recursiveCollStep_eq_of_skip gids c2g ps H e
      (Or.inr (Or.inr (Or.inr (by rw [hc]; exact hip))))]
  · exact recursiveCollStep_preserve_c gids c2g ps H e hc

theorem goodGraph_anchorGroupStep (gnames : List (Int × String))
    (ps : List CollectionPermission) (cStr cname : String) {H : GroupsMap}
    (h : GoodGraph H) (g : Int) : GoodGraph (anchorGroupStep gnames ps cStr cname H g) := by
  unfold anchorGroupStep
  by_cases hex : isExplicitPermissionFor ps g cStr
  · simp only [hex, if_true]
    exact goodGraph_ensureGroup h _
  · simp only [hex, if_false, Bool.false_eq_true]
    cases hcur : lookup2 (ensureGroup H (formatInt g)) (formatInt g) cStr with
    | none => exact goodGraph_setPerm (goodGraph_ensureGroup h _) _ _ _
    | some e =>
      dsimp only
      by_cases hup : e = CollectionPermissionLevelRead ∧
          anchorPermission gnames g cname = CollectionPermissionLevelWrite
      · rw [if_pos hup]
        exact goodGraph_setPerm (goodGraph_ensureGroup h _) _ _ _
      · rw [if_neg hup]
        exact goodGraph_ensureGroup h _

theorem goodGraph_applyAnchorChildren (colls : List (Int × CollectionInfo)) (gids : List Int)
    (gnames : List (Int × String)) (ps : List CollectionPermission) {G : GroupsMap}
    (h : GoodGraph G) : GoodGraph (applyAnchorChildren colls gids gnames ps G) := by
  unfold applyAnchorChildren
  refine foldl_preserves GoodGraph _ colls G h ?_
  intro s e hs
  unfold anchorCollStep
  by_cases hp : e.2.ParentID = (5 : Int) ∨ e.2.ParentID = (4 : Int)
  · rw [if_pos hp]
    unfold anchorStep
    exact foldl_preserves GoodGraph _ gids s hs
      (fun s' g hs' => goodGraph_anchorGroupStep gnames ps _ _ hs' g)
  · rw [if_neg hp]
    exact hs

theorem goodGraph_recursiveGroupStep (ps : List CollectionPermission) (owner : Int)
    (cStr : String) {H : GroupsMap} (h : GoodGraph H) (g : Int) :
    GoodGraph (recursiveGroupStep ps owner cStr H g) := by
  unfold recursiveGroupStep
  by_cases hex : isExplicitPermissionFor ps g cStr
  · simp only [hex, if_true]
    exact goodGraph_ensureGroup h _
  · simp only [hex, if_false, Bool.false_eq_true]
    exact goodGraph_setPerm (goodGraph_ensureGroup h _) _ _ _

theorem goodGraph_applyRecursive (colls : List (Int × CollectionInfo)) (gids : List Int)
    (c2g : List (Int × Int)) (ps : List CollectionPermission) {G : GroupsMap}
    (h : GoodGraph G) : GoodGraph (applyRecursive colls gids c2g ps G) := by
  unfold applyRecursive
  refine foldl_preserves GoodGraph _ colls G h ?_
  intro s e hs
  unfold recursiveCollStep
  by_cases h1 : e.2.Location = ""
  · rw [if_pos h1]
    exact hs
  · rw [if_neg h1]
    by_cases h2 : extractGroupCollectionId e.2.Location < 0
    · rw [if_pos h2]
      exact hs
    · rw [if_neg h2]
      cases howner : alookup (extractGroupCollectionId e.2.Location) c2g with
      | none => exact hs
      | some owner =>
        dsimp only
        by_cases h3 : isCollectionInPlan ps (formatInt e.1)
        · rw [if_pos h3]
          exact hs
        · rw [if_neg h3]
          unfold recursiveStep
          exact foldl_preserves GoodGraph _ gids s hs
            (fun s' g hs' => goodGraph_recursiveGroupStep ps owner _ hs' g)

theorem graphToPermissions_mem_intro {G : GroupsMap} {g : Int} {c l : String}
    (h : lookup2 G (formatInt g) c = some l) :
    ({ group := some g, collection := some c, permission := l } : CollectionPermission) ∈
      graphToPermissions G := by
  unfold lookup2 at h
  cases hpm : alookup (formatInt g) G with
  | none =>
    rw [hpm] at h
    simp at h
  | some pm =>
    rw [hpm] at h
    have h2 : alookup c pm = some l := h
    unfold graphToPermissions
    refine List.mem_flatMap.mpr ⟨(formatInt g, pm), alookup_mem hpm, ?_⟩
    refine List.mem_filterMap.mpr ⟨(c, l), alookup_mem h2, ?_⟩
    dsimp only
    rw [atoi?_formatInt]
    rfl

theorem graphToPermissions_mem_elim {G : GroupsMap} {q : CollectionPermission}
    (hgood : GoodGraph G) (hq : q ∈ graphToPermissions G) :
    ∃ gk, ∃ g : Int, ∃ c l : String, atoi? gk = some g ∧
      q = { group := some g, collection := some c, permission := l } ∧
      lookup2 G gk c = some l := by
  unfold graphToPermissions at hq
  obtain ⟨e, heG, hq2⟩ := List.mem_flatMap.mp hq
  obtain ⟨cl, hcl, hq3⟩ := List.mem_filterMap.mp hq2
  cases hg : atoi? e.1 with
  | none =>
    rw [hg] at hq3
    simp at hq3
  | some g =>
    rw [hg] at hq3
    simp only [Option.map_some'] at hq3
    refine ⟨e.1, g, cl.1, cl.2, hg, (Option.some.inj hq3).symm, ?_⟩
    have h1 : alookup e.1 G = some e.2 := alookup_of_mem_nodup hgood.1 heG
    have h2 : alookup cl.1 e.2 = some cl.2 := alookup_of_mem_nodup (hgood.2 e heG) hcl
    unfold lookup2
    rw [h1]
    exact h2

theorem isExplicit_of_mem {ps : List CollectionPermission} {p : CollectionPermission}
    (hp : p ∈ ps) {g : Int} {c : String} (hg : p.group = some g)
    (hc : p.collection = some c) : isExplicitPermissionFor ps g c = true := by
  unfold isExplicitPermissionFor
  rw [List.any_eq_true]
  exact ⟨p, hp, by rw [hg, hc]; simp⟩

theorem permission_ext {p q : CollectionPermission} (h1 : p.group = q.group)
    (h2 : p.collection = q.collection) (h3 : p.permission = q.permission) : p = q := by
  cases p
  cases q
  rw [CollectionPermission.mk.injEq]
  exact ⟨h1, h2, h3⟩

/-- C1 amended: under the claim's own precondition (no declared resource in
the filtered region, here with every tree node carrying a nonzero parent id),
filtering the expansion gives back the declared set E TOGETHER WITH the
derived anchor-child edges: every declared edge survives, and every surviving
edge is either declared or lies on a direct child of an anchor root. The
derived edges of the recursive step are stripped, but the derived edges of
the anchor-child step are not, so the filter is not a full inverse. -/
theorem C1_amended_filter_keeps_anchor_children
    (data : CollectionGraphResourceModel) (srv : Server) (gs : GroupsMap)
    (st : Option CollectionGraphResourceModel)
    (gOut : CollectionPermissionsGraph) (calls : List ApiCall)
    (hflag : data.applyChildCollectionsPermissions = some true)
    (hseed : seedGroups data.permissions = .ok gs)
    (hreg : data.permissions.all (fun p =>
      match p.collection with
      | some c => !(isChildCollectionId
          (childCollectionIds (fetchChildCollections srv.collections)) c)
      | none => true) = true)
    (hpar : ∀ e ∈ fetchChildCollections srv.collections, e.2.ParentID ≠ (0 : Int))
    (h : makeCollectionPermissionsGraphFromModel data st (some srv) = (.ok gOut, calls)) :
    (∀ p ∈ data.permissions,
      p ∈ (filterRecursivePermissions (graphToPermissions gOut.groups) srv).1) ∧
    (∀ q ∈ (filterRecursivePermissions (graphToPermissions gOut.groups) srv).1,
      q ∈ data.permissions ∨
      ∃ cid info, (cid, info) ∈ fetchChildCollections srv.collections ∧
        (info.ParentID = (5 : Int) ∨ info.ParentID = (4 : Int)) ∧
        q.collection = some (formatInt cid)) := by
  rw [makeGraph_ok_expanded data st srv gs hflag hseed] at h
  rw [Prod.mk.injEq, Except.ok.injEq] at h
  have hgroups : gOut.groups = expandedGroups data.permissions srv gs := by
    rw [← h.1]
  rw [hgroups]
  have hgood : GoodGraph (expandedGroups data.permissions srv gs) := by
    unfold expandedGroups
    exact goodGraph_applyRecursive _ _ _ _
      (goodGraph_applyAnchorChildren _ _ _ _ (seedGroupsAux_good hseed goodGraph_nil))
  constructor
  · intro p hp
    have hshape := seedGroupsAux_ok_shape hseed p hp
    cases hpg : p.group with
    | none =>
      rw [hpg] at hshape
      simp at hshape
    | some g =>
      cases hpc : p.collection with
      | none =>
        rw [hpc] at hshape
        simp at hshape
      | some c =>
        have hlook_seed : lookup2 gs (formatInt g) c = some p.permission :=
          seedGroupsAux_lookup_of_mem hseed hp hpg hpc
        have hex : isExplicitPermissionFor data.permissions g c = true :=
          isExplicit_of_mem hp hpg hpc
        have hip : isCollectionInPlan data.permissions c = true := by
          unfold isCollectionInPlan
          rw [List.any_eq_true]
          exact ⟨p, hp, by rw [hpg, hpc]; simp⟩
        have hfin : lookup2 (expandedGroups data.permissions srv gs)
            (formatInt g) c = some p.permission := by
          unfold expandedGroups
          rw [applyRecursive_preserve_inPlan _ _ _ _ hip _ _,
            applyAnchorChildren_preserve_explicit _ _ _ _ hex _]
          exact hlook_seed
        have hmem := graphToPermissions_mem_intro hfin
        have hpeq : p = ⟨some g, some c, p.permission⟩ := permission_ext hpg hpc rfl
        rw [hpeq]
        simp only [filterRecursivePermissions]
        rw [List.mem_filter]
        refine ⟨hmem, ?_⟩
        have hr := List.all_eq_true.mp hreg p hp
        rw [hpeq] at hr
        exact hr
  · intro q hq
    simp only [filterRecursivePermissions] at hq
    rw [List.mem_filter] at hq
    obtain ⟨hqmem, hqpred⟩ := hq
    obtain ⟨gk, g, c, l, hgk, hqeq, hlook⟩ := graphToPermissions_mem_elim hgood hqmem
    by_cases hrec : lookup2 (expandedGroups data.permissions srv gs) gk c =
        lookup2 (applyAnchorChildren (fetchChildCollections srv.collections)
          (groupIdsList data.permissions)
          (fetchGroupNames srv (groupIdsList data.permissions)).1 data.permissions gs) gk c
    · by_cases hanc : lookup2 (applyAnchorChildren (fetchChildCollections srv.collections)
          (groupIdsList data.permissions)
          (fetchGroupNames srv (groupIdsList data.permissions)).1 data.permissions gs) gk c =
          lookup2 gs gk c
      · left
        have hseedlook : lookup2 gs gk c = some l := by
          rw [← hanc, ← hrec]
          exact hlook
        obtain ⟨p, hp, g', hg1, hg2, hg3, hg4⟩ := seedGroups_lookup_inv hseed hseedlook
        have hgg : g' = g := by
          have h5 := atoi?_formatInt g'
          rw [hg2, hgk] at h5
          exact (Option.some.inj h5).symm
        have hpeq : p = { group := some g, collection := some c, permission := l } :=
          permission_ext (by rw [hg1, hgg]) hg3 hg4
        rw [hqeq, ← hpeq]
        exact hp
      · right
        obtain ⟨cid, info, hmem, hpar5, hcid⟩ :=
          applyAnchorChildren_touch (fetchChildCollections srv.collections)
            (groupIdsList data.permissions)
            (fetchGroupNames srv (groupIdsList data.permissions)).1 data.permissions gs hanc
        refine ⟨cid, info, hmem, hpar5, ?_⟩
        rw [hqeq]
        dsimp only
        rw [hcid]
    · exfalso
      have hrec' : lookup2 (applyRecursive (fetchChildCollections srv.collections)
          (groupIdsList data.permissions)
          (collectionIdToGroupId (fetchChildCollections srv.collections)
            (groupIdsList data.permissions)
            (fetchGroupNames srv (groupIdsList data.permissions)).1)
          data.permissions
          (applyAnchorChildren (fetchChildCollections srv.collections)
            (groupIdsList data.permissions)
            (fetchGroupNames srv (groupIdsList data.permissions)).1 data.permissions gs))
          gk c ≠
          lookup2 (applyAnchorChildren (fetchChildCollections srv.collections)
            (groupIdsList data.permissions)
            (fetchGroupNames srv (groupIdsList data.permissions)).1 data.permissions gs)
          gk c := hrec
      obtain ⟨e, hmem, hc, hl, hx, hip⟩ :=
        applyRecursive_change _ _ _ _ _ hrec'
      have hnest : isChildCollectionId
          (childCollectionIds (fetchChildCollections srv.collections))
          (formatInt e.1) = true :=
        isChildCollectionId_of_eligible hmem (hpar e hmem) hx
      rw [hqeq] at hqpred
      dsimp only at hqpred
      rw [← hc, hnest] at hqpred
      simp at hqpred

/-- C1 counterexample: the claim as stated is false. With the single declared
edge E = [(group 7, root, write)] and a tree holding one direct child of the
Public anchor (id 16, named G16, location `/5/`), E meets the claim's
precondition (no declared resource lies in the filtered region), yet
filtering the flattened expansion returns the derived anchor-child edge
(7, 16, read) on top of E: filter(expand(E)) = E + [(7, 16, read)] ≠ E. -/
theorem C1_counterexample_derived_anchor_edge_survives :
    wDataC1.permissions.all (fun p =>
      match p.collection with
      | some c => !(isChildCollectionId
          (childCollectionIds (fetchChildCollections wSrvC1.collections)) c)
      | none => true) = true ∧
    makeCollectionPermissionsGraphFromModel wDataC1 none (some wSrvC1) =
      (.ok { revision := 0, groups := [("7", [("root", "write"), ("16", "read")])] },
       [ApiCall.listCollections, ApiCall.getGroup 7]) ∧
    (filterRecursivePermissions
      (graphToPermissions [("7", [("root", "write"), ("16", "read")])]) wSrvC1).1 =
      [wPerm7root, wPerm7c16] ∧
    wDataC1.permissions = [wPerm7root] ∧
    wPerm7c16 ∉ wDataC1.permissions :=
  ⟨by decide, rfl, by decide, rfl, by decide⟩

/-- C1 amended witness: at the concrete single-edge input, the declared edge
survives the filtered readback, and the surviving derived edge (7, 16, read)
is accounted for by the direct anchor child 16. -/
theorem C1_amended_filter_keeps_anchor_children_witness :
    wPerm7root ∈ (filterRecursivePermissions (graphToPermissions
      [("7", [("root", "write"), ("16", "read")])]) wSrvC1).1 ∧
    (wPerm7c16 ∈ wDataC1.permissions ∨
      ∃ cid info, (cid, info) ∈ fetchChildCollections wSrvC1.collections ∧
        (info.ParentID = (5 : Int) ∨ info.ParentID = (4 : Int)) ∧
        wPerm7c16.collection = some (formatInt cid)) :=
  ⟨(C1_amended_filter_keeps_anchor_children wDataC1 wSrvC1 [("7", [("root", "write")])] none
      { revision := 0, groups := [("7", [("root", "write"), ("16", "read")])] }
      [ApiCall.listCollections, ApiCall.getGroup 7] rfl rfl (by decide) (by decide) rfl).1
      wPerm7root (by decide),
   (C1_amended_filter_keeps_anchor_children wDataC1 wSrvC1 [("7", [("root", "write")])] none
      { revision := 0, groups := [("7", [("root", "write"), ("16", "read")])] }
      [ApiCall.listCollections, ApiCall.getGroup 7] rfl rfl (by decide) (by decide) rfl).2
      wPerm7c16 (by decide)⟩

/-! ### Claim C3: idempotence of the expansion -/

theorem alookup_isSome_of_mem [DecidableEq κ] {k : κ} {v : α} {l : List (κ × α)}
    (h : (k, v) ∈ l) : (alookup k l).isSome = true := by
  induction l with
  | nil => simp at h
  | cons e rest ih =>
    obtain ⟨k', v'⟩ := e
    by_cases hk : k' = k
    · subst hk
      simp [alookup]
    · simp only [alookup, if_neg hk]
      rcases List.mem_cons.mp h with h1 | h1
      · exact absurd (congrArg Prod.fst h1).symm hk
      · exact ih h1

theorem alookup_aset_isSome [DecidableEq κ] {k : κ} {l : List (κ × α)} (k' : κ) (v : α)
    (h : (alookup k l).isSome = true) : (alookup k (aset k' v l)).isSome = true := by
  by_cases hk : k' = k
  · subst hk
    rw [alookup_aset_self]
    rfl
  · rw [alookup_aset_of_ne (fun hh => hk hh.symm)]
    exact h

theorem lookup2_none_dup_check {acc : GroupsMap} {gk c : String}
    (h : lookup2 acc gk c = none) :
    (alookup c ((alookup gk acc).getD [])).isSome = false := by
  unfold lookup2 at h
  cases hpm : alookup gk acc with
  | none =>
    rw [Option.getD_none]
    rfl
  | some pm =>
    rw [hpm] at h
    rw [Option.getD_some]
    have h2 : alookup c pm = none := h
    rw [h2]
    rfl

theorem lookup2_isSome_group {G : GroupsMap} {gk c l : String}
    (h : lookup2 G gk c = some l) : (alookup gk G).isSome = true := by
  unfold lookup2 at h
  cases hpm : alookup gk G with
  | none =>
    rw [hpm] at h
    simp at h
  | some pm => rfl

theorem step3At_isSome (old : Option String) (perm : String) :
    (step3At old perm).isSome = true := by
  unfold step3At
  cases old with
  | none => rfl
  | some e =>
    dsimp only
    by_cases hup : e = CollectionPermissionLevelRead ∧ perm = CollectionPermissionLevelWrite
    · rw [if_pos hup]
      rfl
    · rw [if_neg hup]
      rfl

theorem ensureGroup_eq_of_present {G : GroupsMap} {gStr : String}
    (h : (alookup gStr G).isSome = true) : ensureGroup G gStr = G := by
  unfold ensureGroup
  cases hl : alookup gStr G with
  | some m => rfl
  | none =>
    rw [hl] at h
    simp at h

theorem isExplicit_elim {ps : List CollectionPermission} {g : Int} {c : String}
    (h : isExplicitPermissionFor ps g c = true) :
    ∃ p ∈ ps, p.group = some g ∧ p.collection = some c := by
  unfold isExplicitPermissionFor at h
  rw [List.any_eq_true] at h
  obtain ⟨p, hp, hcond⟩ := h
  rw [Bool.and_eq_true] at hcond
  exact ⟨p, hp, eq_of_beq hcond.1, eq_of_beq hcond.2⟩

theorem isCollectionInPlan_elim {ps : List CollectionPermission} {c : String}
    (h : isCollectionInPlan ps c = true) :
    ∃ p ∈ ps, ∃ g : Int, p.group = some g ∧ p.collection = some c := by
  unfold isCollectionInPlan at h
  rw [List.any_eq_true] at h
  obtain ⟨p, hp, hcond⟩ := h
  rw [Bool.and_eq_true] at hcond
  obtain ⟨g, hg⟩ := Option.isSome_iff_exists.mp hcond.1
  exact ⟨p, hp, g, hg, eq_of_beq hcond.2⟩

theorem isCollectionInPlan_intro {ps : List CollectionPermission} {p : CollectionPermission}
    (hp : p ∈ ps) {g : Int} {c : String} (hg : p.group = some g)
    (hc : p.collection = some c) : isCollectionInPlan ps c = true := by
  unfold isCollectionInPlan
  rw [List.any_eq_true]
  exact ⟨p, hp, by rw [hg, hc]; simp⟩

theorem groupIdsList_complete_aux {g : Int} (ps : List CollectionPermission) :
    ∀ acc : List Int, (g ∈ acc ∨ ∃ p ∈ ps, p.group = some g) →
    g ∈ ps.foldl (fun acc p =>
      match p.group with
      | some g' => if g' ∈ acc then acc else acc ++ [g']
      | none => acc) acc := by
  induction ps with
  | nil =>
    rintro acc (h | ⟨p, hp, _⟩)
    · exact h
    · simp at hp
  | cons q rest ih =>
    rintro acc (h | ⟨p, hp, hg⟩)
    · rw [List.foldl_cons]
      refine ih _ (Or.inl ?_)
      cases hqg : q.group with
      | none => exact h
      | some qg =>
        dsimp only
        by_cases hin : qg ∈ acc
        · rw [if_pos hin]
          exact h
        · rw [if_neg hin]
          exact List.mem_append_left _ h
    · rw [List.foldl_cons]
      rcases List.mem_cons.mp hp with h1 | h1
      · subst h1
        refine ih _ (Or.inl ?_)
        rw [hg]
        dsimp only
        by_cases hin : g ∈ acc
        · rw [if_pos hin]
          exact hin
        · rw [if_neg hin]
          exact List.mem_append_right _ (List.mem_singleton.mpr rfl)
      · exact ih _ (Or.inr ⟨p, h1, hg⟩)

theorem groupIdsList_complete {ps : List CollectionPermission} {p : CollectionPermission}
    (hp : p ∈ ps) {g : Int} (hg : p.group = some g) : g ∈ groupIdsList ps :=
  groupIdsList_complete_aux ps [] (Or.inr ⟨p, hp, hg⟩)

theorem mem_graphToPermissions_shape {G : GroupsMap} {q : CollectionPermission}
    (hq : q ∈ graphToPermissions G) :
    ∃ e ∈ G, ∃ g : Int, ∃ cl ∈ e.2, atoi? e.1 = some g ∧
      q = ⟨some g, some cl.1, cl.2⟩ := by
  unfold graphToPermissions at hq
  obtain ⟨e, heG, hq2⟩ := List.mem_flatMap.mp hq
  obtain ⟨cl, hcl, hq3⟩ := List.mem_filterMap.mp hq2
  cases hg : atoi? e.1 with
  | none =>
    rw [hg] at hq3
    simp at hq3
  | some g =>
    rw [hg] at hq3
    simp only [Option.map_some'] at hq3
    exact ⟨e, heG, g, cl, hcl, hg, (Option.some.inj hq3).symm⟩

theorem fetchGroupNames_step_preserve {srv : Server} {g : Int} {n : String}
    (hn : srv.groupName g = some n) (g₀ : Int) (m : List (Int × String))
    (h : alookup g m = some n) :
    alookup g (match srv.groupName g₀ with
      | some name => aset g₀ name m
      | none => m) = some n := by
  cases hg0 : srv.groupName g₀ with
  | none => exact h
  | some nm =>
    dsimp only
    by_cases hk : g₀ = g
    · subst hk
      rw [hg0] at hn
      rw [(Option.some.inj hn), alookup_aset_self]
    · rw [alookup_aset_of_ne (fun hh => hk hh.symm)]
      exact h

theorem fetchGroupNames_lookup_aux {srv : Server} {g : Int} {n : String}
    (hn : srv.groupName g = some n) (gids : List Int) :
    ∀ m, g ∈ gids →
    alookup g (gids.foldl (fun m g' =>
      match srv.groupName g' with
      | some name => aset g' name m
      | none => m) m) = some n := by
  induction gids with
  | nil =>
    intro m h
    simp at h
  | cons g₀ rest ih =>
    intro m h
    rw [List.foldl_cons]
    rcases List.mem_cons.mp h with h1 | h1
    · subst h1
      have hstep : alookup g (match srv.groupName g with
          | some name => aset g name m
          | none => m) = some n := by
        rw [hn]
        exact alookup_aset_self _ _ _
      refine foldl_preserves (fun m' => alookup g m' = some n) _ rest _ hstep ?_
      intro m' g' hm'
      exact fetchGroupNames_step_preserve hn g' m' hm'
    · exact ih _ h1

theorem fetchGroupNames_lookup_of_mem {srv : Server} {gids : List Int} {g : Int} {n : String}
    (hg : g ∈ gids) (hn : srv.groupName g = some n) :
    alookup g (fetchGroupNames srv gids).1 = some n := by
  unfold fetchGroupNames
  exact fetchGroupNames_lookup_aux hn gids [] hg

theorem fetchGroupNames_lookup_elim_aux {srv : Server} {g : Int} {n : String}
    (gids : List Int) :
    ∀ m, alookup g (gids.foldl (fun m g' =>
      match srv.groupName g' with
      | some name => aset g' name m
      | none => m) m) = some n →
    alookup g m = some n ∨ (g ∈ gids ∧ srv.groupName g = some n) := by
  induction gids with
  | nil => exact fun m h => Or.inl h
  | cons g₀ rest ih =>
    intro m h
    rw [List.foldl_cons] at h
    rcases ih _ h with h1 | h1
    · cases hg0 : srv.groupName g₀ with
      | none =>
        rw [hg0] at h1
        exact Or.inl h1
      | some nm =>
        rw [hg0] at h1
        dsimp only at h1
        by_cases hk : g₀ = g
        · subst hk
          rw [alookup_aset_self] at h1
          exact Or.inr ⟨List.mem_cons_self _ _, by rw [hg0, h1]⟩
        · rw [alookup_aset_of_ne (fun hh => hk hh.symm)] at h1
          exact Or.inl h1
    · exact Or.inr ⟨List.mem_cons_of_mem _ h1.1, h1.2⟩

theorem fetchGroupNames_lookup_elim {srv : Server} {gids : List Int} {g : Int} {n : String}
    (h : alookup g (fetchGroupNames srv gids).1 = some n) :
    g ∈ gids ∧ srv.groupName g = some n := by
  unfold fetchGroupNames at h
  rcases fetchGroupNames_lookup_elim_aux gids [] h with h1 | h1
  · simp [alookup] at h1
  · exact h1

theorem c2g_step_preserve_isSome {gids : List Int} {gnames : List (Int × String)} {cid : Int}
    (e : Int × CollectionInfo) (m : List (Int × Int))
    (h : (alookup cid m).isSome = true) :
    (alookup cid (if e.2.ParentID = (5 : Int) ∨ e.2.ParentID = (4 : Int) then
      match gids.find? (fun g =>
        match alookup g gnames with
        | some groupName => normalizeName groupName == normalizeName e.2.Name
        | none => false) with
      | some g => aset e.1 g m
      | none => m
    else m)).isSome = true := by
  by_cases hp : e.2.ParentID = (5 : Int) ∨ e.2.ParentID = (4 : Int)
  · rw [if_pos hp]
    cases hf : gids.find? (fun g =>
        match alookup g gnames with
        | some groupName => normalizeName groupName == normalizeName e.2.Name
        | none => false) with
    | none => exact h
    | some g => exact alookup_aset_isSome _ _ h
  · rw [if_neg hp]
    exact h

theorem c2g_lookup_isSome_aux {gids : List Int} {gnames : List (Int × String)} {cid : Int}
    {info : CollectionInfo} (colls : List (Int × CollectionInfo)) :
    ∀ m, (cid, info) ∈ colls → (info.ParentID = (5 : Int) ∨ info.ParentID = (4 : Int)) →
    (gids.find? (fun g =>
      match alookup g gnames with
      | some groupName => normalizeName groupName == normalizeName info.Name
      | none => false)).isSome = true →
    (alookup cid (colls.foldl (fun m e =>
      if e.2.ParentID = (5 : Int) ∨ e.2.ParentID = (4 : Int) then
        match gids.find? (fun g =>
          match alookup g gnames with
          | some groupName => normalizeName groupName == normalizeName e.2.Name
          | none => false) with
        | some g => aset e.1 g m
        | none => m
      else m) m)).isSome = true := by
  induction colls with
  | nil =>
    intro m h
    simp at h
  | cons e₀ rest ih =>
    intro m h hpar hf
    rw [List.foldl_cons]
    rcases List.mem_cons.mp h with h1 | h1
    · obtain ⟨g, hg⟩ := Option.isSome_iff_exists.mp hf
      have hstep : (alookup cid (if e₀.2.ParentID = (5 : Int) ∨ e₀.2.ParentID = (4 : Int) then
          match gids.find? (fun g =>
            match alookup g gnames with
            | some groupName => normalizeName groupName == normalizeName e₀.2.Name
            | none => false) with
          | some g => aset e₀.1 g m
          | none => m
        else m)).isSome = true := by
        rw [← h1]
        dsimp only
        rw [if_pos hpar, hg, alookup_aset_self]
        rfl
      refine foldl_preserves (fun m' => (alookup cid m').isSome = true) _ rest _ hstep ?_
      intro m' e' hm'
      exact c2g_step_preserve_isSome e' m' hm'
    · exact ih _ h1 hpar hf

theorem c2g_lookup_isSome {colls : List (Int × CollectionInfo)} {gids : List Int}
    {gnames : List (Int × String)} {cid : Int} {info : CollectionInfo}
    (hmem : (cid, info) ∈ colls)
    (hpar : info.ParentID = (5 : Int) ∨ info.ParentID = (4 : Int))
    (hf : (gids.find? (fun g =>
      match alookup g gnames with
      | some groupName => normalizeName groupName == normalizeName info.Name
      | none => false)).isSome = true) :
    (alookup cid (collectionIdToGroupId colls gids gnames)).isSome = true := by
  unfold collectionIdToGroupId
  exact c2g_lookup_isSome_aux colls [] hmem hpar hf

theorem c2g_lookup_elim_aux {gids : List Int} {gnames : List (Int × String)} {cid owner : Int}
    (colls : List (Int × CollectionInfo)) :
    ∀ m, alookup cid (colls.foldl (fun m e =>
      if e.2.ParentID = (5 : Int) ∨ e.2.ParentID = (4 : Int) then
        match gids.find? (fun g =>
          match alookup g gnames with
          | some groupName => normalizeName groupName == normalizeName e.2.Name
          | none => false) with
        | some g => aset e.1 g m
        | none => m
      else m) m) = some owner →
    alookup cid m = some owner ∨
    ∃ info, (cid, info) ∈ colls ∧ (info.ParentID = (5 : Int) ∨ info.ParentID = (4 : Int)) ∧
      (gids.find? (fun g =>
        match alookup g gnames with
        | some groupName => normalizeName groupName == normalizeName info.Name
        | none => false)).isSome = true := by
  induction colls with
  | nil => exact fun m h => Or.inl h
  | cons e₀ rest ih =>
    intro m h
    rw [List.foldl_cons] at h
    rcases ih _ h with h1 | h1
    · by_cases hp : e₀.2.ParentID = (5 : Int) ∨ e₀.2.ParentID = (4 : Int)
      · rw [if_pos hp] at h1
        cases hf : gids.find? (fun g =>
            match alookup g gnames with
            | some groupName => normalizeName groupName == normalizeName e₀.2.Name
            | none => false) with
        | none =>
          rw [hf] at h1
          exact Or.inl h1
        | some g =>
          rw [hf] at h1
          dsimp only at h1
          by_cases hk : e₀.1 = cid
          · refine Or.inr ⟨e₀.2, ?_, hp, by rw [hf]; rfl⟩
            rw [← hk]
            exact List.mem_cons_self _ _
          · rw [alookup_aset_of_ne (fun hh => hk hh.symm)] at h1
            exact Or.inl h1
      · rw [if_neg hp] at h1
        exact Or.inl h1
    · obtain ⟨info, hmem, hrest⟩ := h1
      exact Or.inr ⟨info, List.mem_cons_of_mem _ hmem, hrest⟩

theorem c2g_lookup_elim {colls : List (Int × CollectionInfo)} {gids : List Int}
    {gnames : List (Int × String)} {cid owner : Int}
    (h : alookup cid (collectionIdToGroupId colls gids gnames) = some owner) :
    ∃ info, (cid, info) ∈ colls ∧ (info.ParentID = (5 : Int) ∨ info.ParentID = (4 : Int)) ∧
      (gids.find? (fun g =>
        match alookup g gnames with
        | some groupName => normalizeName groupName == normalizeName info.Name
        | none => false)).isSome = true := by
  unfold collectionIdToGroupId at h
  rcases c2g_lookup_elim_aux colls [] h with h1 | h1
  · simp [alookup] at h1
  · exact h1

theorem filterMap_none_graph (pm : PermMap) :
    pm.filterMap (fun cl => (none : Option Int).map
      (fun g => ({ group := some g, collection := some cl.1, permission := cl.2 } :
        CollectionPermission))) = [] := by
  induction pm with
  | nil => rfl
  | cons cl cls ih => simp [List.filterMap_cons, ih]

theorem filterMap_some_graph (g0 : Int) (pm : PermMap) :
    pm.filterMap (fun cl => (some g0).map
      (fun g => ({ group := some g, collection := some cl.1, permission := cl.2 } :
        CollectionPermission))) = pm.map
      (fun cl => ({ group := some g0, collection := some cl.1, permission := cl.2 } :
        CollectionPermission)) :=
  congrFun (List.filterMap_eq_map (fun cl : String × String =>
    ({ group := some g0, collection := some cl.1, permission := cl.2 } :
      CollectionPermission))) pm

theorem pairwise_fresh_graphToPermissions {G : GroupsMap} (hgood : GoodGraph G)
    (hfmt : ∀ e ∈ G, ∃ g : Int, e.1 = formatInt g) :
    List.Pairwise (fun p q => ∀ (g g' : Int) (c c' : String),
      p.group = some g → p.collection = some c → q.group = some g' → q.collection = some c' →
      ¬(formatInt g = formatInt g' ∧ c = c')) (graphToPermissions G) := by
  induction G with
  | nil => exact List.Pairwise.nil
  | cons e rest ih =>
    obtain ⟨hnd, hpm⟩ := hgood
    unfold NodupKeys at hnd
    rw [List.map_cons, List.nodup_cons] at hnd
    have hgood' : GoodGraph rest := ⟨hnd.2, fun e' he' => hpm e' (List.mem_cons_of_mem _ he')⟩
    have ih' := ih hgood' (fun e' he' => hfmt e' (List.mem_cons_of_mem _ he'))
    unfold graphToPermissions
    rw [List.flatMap_cons, List.pairwise_append]
    refine ⟨?_, ih', ?_⟩
    · cases hg : atoi? e.1 with
      | none =>
        rw [filterMap_none_graph e.2]
        exact List.Pairwise.nil
      | some g0 =>
        rw [filterMap_some_graph g0 e.2, List.pairwise_map]
        have hkeys : List.Pairwise (fun cl cl' : String × String => cl.1 ≠ cl'.1) e.2 :=
          List.pairwise_map.mp (hpm e (List.mem_cons_self _ _))
        refine hkeys.imp ?_
        intro cl cl' hne g g' c c' hg1 hc1 hg2 hc2
        rintro ⟨hfe, hcc⟩
        apply hne
        have e1 : cl.1 = c := Option.some.inj hc1
        have e2 : cl'.1 = c' := Option.some.inj hc2
        rw [e1, e2]
        exact hcc
    · intro p hp q hq
      obtain ⟨cl, hcl, hp2⟩ := List.mem_filterMap.mp hp
      cases hgp : atoi? e.1 with
      | none =>
        rw [hgp] at hp2
        simp at hp2
      | some gp =>
        rw [hgp] at hp2
        simp only [Option.map_some'] at hp2
        obtain ⟨e', he', g', cl', hcl', hg', hq2⟩ := mem_graphToPermissions_shape hq
        obtain ⟨g0, hg0⟩ := hfmt e (List.mem_cons_self _ _)
        obtain ⟨g1, hg1⟩ := hfmt e' (List.mem_cons_of_mem _ he')
        intro ga gb c c' hga hc hgb hc'
        rintro ⟨hfe, hcc⟩
        have hg0' : e.1 = formatInt g0 := hg0
        have hg1' : e'.1 = formatInt g1 := hg1
        have hp3 : ({ group := some gp, collection := some cl.1, permission := cl.2 } :
            CollectionPermission) = p := Option.some.inj hp2
        have hpa : some gp = some ga := by
          rw [← hp3] at hga
          exact hga
        have hqb : some g' = some gb := by
          rw [hq2] at hgb
          exact hgb
        have hpg0 : gp = g0 := by
          have h4 := atoi?_formatInt g0
          rw [← hg0', hgp] at h4
          exact Option.some.inj h4
        have hqg1 : g' = g1 := by
          have h4 := atoi?_formatInt g1
          rw [← hg1', hg'] at h4
          exact Option.some.inj h4
        have hkey : e.1 = e'.1 := by
          rw [hg0', hg1', ← hpg0, ← hqg1,
            Option.some.inj hpa, Option.some.inj hqb]
          exact hfe
        apply hnd.1
        rw [hkey]
        exact List.mem_map_of_mem Prod.fst he'

theorem seedGroupsAux_ok_of_fresh {ps : List CollectionPermission} :
    ∀ acc : GroupsMap,
    (∀ p ∈ ps, ∃ g c, p.group = some g ∧ p.collection = some c ∧
      lookup2 acc (formatInt g) c = none) →
    List.Pairwise (fun p q => ∀ (g g' : Int) (c c' : String),
      p.group = some g → p.collection = some c → q.group = some g' → q.collection = some c' →
      ¬(formatInt g = formatInt g' ∧ c = c')) ps →
    ∃ G, seedGroupsAux acc ps = .ok G := by
  induction ps with
  | nil => exact fun acc _ _ => ⟨acc, rfl⟩
  | cons p rest ih =>
    intro acc hfresh hpw
    obtain ⟨g, c, hg, hc, hnone⟩ := hfresh p (List.mem_cons_self _ _)
    rw [List.pairwise_cons] at hpw
    obtain ⟨hhead, htail⟩ := hpw
    simp only [seedGroupsAux, hg, hc]
    rw [if_neg (by rw [lookup2_none_dup_check hnone]; simp)]
    refine ih _ ?_ htail
    intro q hq
    obtain ⟨g', c', hg', hc', hnone'⟩ := hfresh q (List.mem_cons_of_mem _ hq)
    refine ⟨g', c', hg', hc', ?_⟩
    rw [lookup2_setPerm_of_ne _ ?_]
    · exact hnone'
    · intro hh
      exact hhead q hq g g' c c' hg hc hg' hc' ⟨hh.1.symm, hh.2.symm⟩

theorem seedGroups_readback_ok {G : GroupsMap} (hgood : GoodGraph G)
    (hfmt : ∀ e ∈ G, ∃ g : Int, e.1 = formatInt g) :
    ∃ gs2, seedGroups (graphToPermissions G) = .ok gs2 := by
  refine seedGroupsAux_ok_of_fresh [] ?_ (pairwise_fresh_graphToPermissions hgood hfmt)
  intro p hp
  obtain ⟨e, he, g, cl, hcl, hg, hpe⟩ := mem_graphToPermissions_shape hp
  exact ⟨g, cl.1, by rw [hpe], by rw [hpe], rfl⟩

theorem seed_readback_lookup {G gs2 : GroupsMap} (hgood : GoodGraph G)
    (hfmt : ∀ e ∈ G, ∃ g : Int, e.1 = formatInt g)
    (hok : seedGroups (graphToPermissions G) = .ok gs2) (gk c : String) :
    lookup2 gs2 gk c = lookup2 G gk c := by
  cases h1 : lookup2 G gk c with
  | some l =>
    have hgrp := lookup2_isSome_group h1
    obtain ⟨pm, hpm⟩ := Option.isSome_iff_exists.mp hgrp
    obtain ⟨g, hgk0⟩ := hfmt (gk, pm) (alookup_mem hpm)
    have hgk : gk = formatInt g := hgk0
    have hmem : ({ group := some g, collection := some c, permission := l } :
        CollectionPermission) ∈ graphToPermissions G := by
      refine graphToPermissions_mem_intro ?_
      rw [← hgk]
      exact h1
    have h5 := seedGroupsAux_lookup_of_mem hok hmem rfl rfl
    rw [hgk]
    exact h5
  | none =>
    cases h2 : lookup2 gs2 gk c with
    | none => rfl
    | some l =>
      exfalso
      obtain ⟨p, hp, g, hpg, hfmtg, hpc, hperm⟩ := seedGroups_lookup_inv hok h2
      obtain ⟨e, he, g'', cl, hcl, hgatoi, hpe⟩ := mem_graphToPermissions_shape hp
      rw [hpe] at hpg hpc
      dsimp only at hpg hpc
      obtain ⟨g3, hg30⟩ := hfmt e he
      have hg3 : e.1 = formatInt g3 := hg30
      have h4 := atoi?_formatInt g3
      rw [← hg3, hgatoi] at h4
      have hg''3 : g'' = g3 := Option.some.inj h4
      have hkey : e.1 = gk := by
        rw [hg3, ← hg''3, Option.some.inj hpg, hfmtg]
      have ha1 : alookup gk G = some e.2 := by
        rw [← hkey]
        exact alookup_of_mem_nodup hgood.1 he
      have ha2 : alookup c e.2 = some cl.2 := by
        rw [← Option.some.inj hpc]
        exact alookup_of_mem_nodup (hgood.2 e he) hcl
      unfold lookup2 at h1
      rw [ha1] at h1
      have h6 : alookup c e.2 = none := h1
      rw [ha2] at h6
      exact Option.noConfusion h6

theorem keysFormatted_expanded {ps : List CollectionPermission} {srv : Server} {gs : GroupsMap}
    (hseed : seedGroups ps = .ok gs) :
    ∀ e ∈ expandedGroups ps srv gs, ∃ g : Int, e.1 = formatInt g := by
  intro e he
  have hk : e.1 ∈ (expandedGroups ps srv gs).map Prod.fst := List.mem_map_of_mem Prod.fst he
  unfold expandedGroups at hk
  rcases applyRecursive_keys _ _ _ _ _ _ hk with h1 | h1
  · rcases applyAnchorChildren_keys _ _ _ _ _ _ h1 with h2 | h2
    · rcases seedGroupsAux_keys hseed _ h2 with h3 | h3
      · simp at h3
      · obtain ⟨p, _, g, _, hfmt2⟩ := h3
        exact ⟨g, hfmt2.symm⟩
    · obtain ⟨g, _, hfmt2⟩ := h2
      exact ⟨g, hfmt2⟩
  · obtain ⟨g, _, hfmt2⟩ := h1
    exact ⟨g, hfmt2⟩

theorem anchorGroupStep_eq_of_explicit (gnames : List (Int × String))
    {ps : List CollectionPermission} {g : Int} {cStr : String}
    (hex : isExplicitPermissionFor ps g cStr = true) (cname : String) {H : GroupsMap}
    (hpres : (alookup (formatInt g) H).isSome = true) :
    anchorGroupStep gnames ps cStr cname H g = H := by
  unfold anchorGroupStep
  simp only [hex, if_true]
  exact ensureGroup_eq_of_present hpres

theorem anchorStep_eq_of_explicit (gids : List Int) (gnames : List (Int × String))
    (ps : List CollectionPermission) (cid : Int) (info : CollectionInfo) (H : GroupsMap)
    (h : ∀ g ∈ gids, isExplicitPermissionFor ps g (formatInt cid) = true ∧
      (alookup (formatInt g) H).isSome = true) :
    anchorStep gids gnames ps cid info H = H := by
  unfold anchorStep
  induction gids with
  | nil => rfl
  | cons g rest ih =>
    rw [List.foldl_cons,
      anchorGroupStep_eq_of_explicit gnames (h g (List.mem_cons_self _ _)).1 info.Name
        (h g (List.mem_cons_self _ _)).2]
    exact ih (fun g' hg' => h g' (List.mem_cons_of_mem _ hg'))

theorem applyAnchorChildren_eq_of_explicit (colls : List (Int × CollectionInfo))
    (gids : List Int) (gnames : List (Int × String)) (ps : List CollectionPermission)
    (G : GroupsMap)
    (h : ∀ g ∈ gids, (alookup (formatInt g) G).isSome = true ∧
      ∀ cid info, (cid, info) ∈ colls →
        (info.ParentID = (5 : Int) ∨ info.ParentID = (4 : Int)) →
        isExplicitPermissionFor ps g (formatInt cid) = true) :
    applyAnchorChildren colls gids gnames ps G = G := by
  unfold applyAnchorChildren
  induction colls with
  | nil => rfl
  | cons e rest ih =>
    rw [List.foldl_cons]
    have hstep : anchorCollStep gids gnames ps G e = G := by
      unfold anchorCollStep
      by_cases hp : e.2.ParentID = (5 : Int) ∨ e.2.ParentID = (4 : Int)
      · rw [if_pos hp]
        exact anchorStep_eq_of_explicit gids gnames ps e.1 e.2 G
          (fun g hg => ⟨(h g hg).2 e.1 e.2 (List.mem_cons_self _ _) hp, (h g hg).1⟩)
      · rw [if_neg hp]
    rw [hstep]
    exact ih (fun g hg => ⟨(h g hg).1,
      fun cid info hm hp => (h g hg).2 cid info (List.mem_cons_of_mem _ hm) hp⟩)

theorem applyRecursive_eq_of_skips (colls : List (Int × CollectionInfo)) (gids : List Int)
    (c2g : List (Int × Int)) (ps : List CollectionPermission) (G : GroupsMap)
    (h : ∀ e ∈ colls, e.2.Location = "" ∨ extractGroupCollectionId e.2.Location < 0 ∨
      alookup (extractGroupCollectionId e.2.Location) c2g = none ∨
      isCollectionInPlan ps (formatInt e.1) = true) :
    applyRecursive colls gids c2g ps G = G := by
  unfold applyRecursive
  induction colls with
  | nil => rfl
  | cons e rest ih =>
    rw [List.foldl_cons,
      recursiveCollStep_eq_of_skip gids c2g ps G e (h e (List.mem_cons_self _ _))]
    exact ih (fun e' he' => h e' (List.mem_cons_of_mem _ he'))

theorem applyRecursive_eq_of_gids_nil (colls : List (Int × CollectionInfo))
    (c2g : List (Int × Int)) (ps : List CollectionPermission) (G : GroupsMap) :
    applyRecursive colls [] c2g ps G = G := by
  unfold applyRecursive
  induction colls with
  | nil => rfl
  | cons e rest ih =>
    rw [List.foldl_cons]
    have hstep : recursiveCollStep [] c2g ps G e = G := by
      unfold recursiveCollStep
      by_cases h1 : e.2.Location = ""
      · rw [if_pos h1]
      · rw [if_neg h1]
        by_cases h2 : extractGroupCollectionId e.2.Location < 0
        · rw [if_pos h2]
        · rw [if_neg h2]
          cases ho : alookup (extractGroupCollectionId e.2.Location) c2g with
          | none => rfl
          | some owner =>
            dsimp only
            by_cases h3 : isCollectionInPlan ps (formatInt e.1)
            · rw [if_pos h3]
            · rw [if_neg h3]
              rfl
    rw [hstep]
    exact ih

theorem recursiveGroupStep_isSome (ps : List CollectionPermission) (owner : Int)
    (cStr : String) {gk c : String} (H : GroupsMap) (g : Int)
    (h : (lookup2 H gk c).isSome = true) :
    (lookup2 (recursiveGroupStep ps owner cStr H g) gk c).isSome = true := by
  by_cases hkc : formatInt g = gk ∧ cStr = c
  · obtain ⟨h1, h2⟩ := hkc
    subst h1
    subst h2
    rw [recursiveGroupStep_at]
    by_cases hex : isExplicitPermissionFor ps g cStr
    · rw [if_pos hex]
      exact h
    · rw [if_neg hex]
      rfl
  · rw [recursiveGroupStep_preserve ps owner cStr H g hkc]
    exact h

theorem applyRecursive_isSome (colls : List (Int × CollectionInfo)) (gids : List Int)
    (c2g : List (Int × Int)) (ps : List CollectionPermission) {gk c : String} (G : GroupsMap)
    (h : (lookup2 G gk c).isSome = true) :
    (lookup2 (applyRecursive colls gids c2g ps G) gk c).isSome = true := by
  unfold applyRecursive
  refine foldl_lookup2_pred (fun o => o.isSome = true) _ colls G gk c ?_ h
  intro e _ H hH
  unfold recursiveCollStep
  by_cases h1 : e.2.Location = ""
  · rw [if_pos h1]
    exact hH
  · rw [if_neg h1]
    by_cases h2 : extractGroupCollectionId e.2.Location < 0
    · rw [if_pos h2]
      exact hH
    · rw [if_neg h2]
      cases ho : alookup (extractGroupCollectionId e.2.Location) c2g with
      | none => exact hH
      | some owner =>
        dsimp only
        by_cases h3 : isCollectionInPlan ps (formatInt e.1)
        · rw [if_pos h3]
          exact hH
        · rw [if_neg h3]
          unfold recursiveStep
          exact foldl_lookup2_pred (fun o => o.isSome = true) _ gids H gk c
            (fun g _ H' hH' => recursiveGroupStep_isSome ps owner _ H' g hH') hH

theorem declared_lookup_expanded {ps : List CollectionPermission} (srv : Server)
    {gs : GroupsMap} (hseed : seedGroups ps = .ok gs) {p : CollectionPermission}
    (hp : p ∈ ps) {g : Int} {c : String} (hg : p.group = some g)
    (hc : p.collection = some c) :
    lookup2 (expandedGroups ps srv gs) (formatInt g) c = some p.permission := by
  unfold expandedGroups
  rw [applyRecursive_preserve_inPlan _ _ _ _ (isCollectionInPlan_intro hp hg hc) _ _,
    applyAnchorChildren_preserve_explicit _ _ _ _ (isExplicit_of_mem hp hg hc) _]
  exact seedGroupsAux_lookup_of_mem hseed hp hg hc

theorem expanded_anchor_isSome {ps : List CollectionPermission} {srv : Server}
    {gs : GroupsMap} (hseed : seedGroups ps = .ok gs) {cid : Int} {info : CollectionInfo}
    (hmem : (cid, info) ∈ fetchChildCollections srv.collections)
    (hpar : info.ParentID = (5 : Int) ∨ info.ParentID = (4 : Int))
    {g : Int} (hg : g ∈ groupIdsList ps) :
    (lookup2 (expandedGroups ps srv gs) (formatInt g) (formatInt cid)).isSome = true := by
  unfold expandedGroups
  refine applyRecursive_isSome _ _ _ _ _ ?_
  rw [applyAnchorChildren_at (fetchChildCollections srv.collections)
    (nodupKeys_fetchChildCollections _) (groupIdsList ps) (groupIdsList_nodup _)
    _ _ _ hmem hpar hg]
  by_cases hex : isExplicitPermissionFor ps g (formatInt cid)
  · rw [if_pos hex]
    obtain ⟨p, hp, hpg, hpc⟩ := isExplicit_elim hex
    rw [seedGroupsAux_lookup_of_mem hseed hp hpg hpc]
    rfl
  · rw [if_neg hex]
    exact step3At_isSome _ _

theorem gids_readback_sub {ps : List CollectionPermission} {srv : Server} {gs : GroupsMap}
    (hseed : seedGroups ps = .ok gs) {g : Int}
    (hg : g ∈ groupIdsList (graphToPermissions (expandedGroups ps srv gs))) :
    g ∈ groupIdsList ps := by
  obtain ⟨p, hp, hpg⟩ := groupIdsList_mem hg
  obtain ⟨e, he, g'', cl, hcl, hgatoi, hpe⟩ := mem_graphToPermissions_shape hp
  rw [hpe] at hpg
  dsimp only at hpg
  have hgg : g'' = g := Option.some.inj hpg
  obtain ⟨g3, hg30⟩ := keysFormatted_expanded hseed e he
  have hg3 : e.1 = formatInt g3 := hg30
  have h4 := atoi?_formatInt g3
  rw [← hg3, hgatoi] at h4
  have hg''3 : g'' = g3 := Option.some.inj h4
  have hkey : e.1 = formatInt g := by
    rw [hg3, ← hg''3, hgg]
  have hk : e.1 ∈ (expandedGroups ps srv gs).map Prod.fst := List.mem_map_of_mem Prod.fst he
  unfold expandedGroups at hk
  rcases applyRecursive_keys _ _ _ _ _ _ hk with h1 | h1
  · rcases applyAnchorChildren_keys _ _ _ _ _ _ h1 with h2 | h2
    · rcases seedGroupsAux_keys hseed _ h2 with h3 | h3
      · simp at h3
      · obtain ⟨q, hq, g4, hqg, hfmt4⟩ := h3
        have hg4 : g4 = g := formatInt_injective (by rw [hfmt4, hkey])
        rw [hg4] at hqg
        exact groupIdsList_complete hq hqg
    · obtain ⟨g4, hg4m, hfmt4⟩ := h2
      have hg4 : g4 = g := formatInt_injective (by rw [← hfmt4, hkey])
      rw [hg4] at hg4m
      exact hg4m
  · obtain ⟨g4, hg4m, hfmt4⟩ := h1
    have hg4 : g4 = g := formatInt_injective (by rw [← hfmt4, hkey])
    rw [hg4] at hg4m
    exact hg4m

/-- C3: the expansion is idempotent. Feeding the flattened output of a
successful expansion back into the expander (same server, toggle on) succeeds
again and produces a permission map with exactly the same entries: every
anchor-child pair is already explicit after the first pass, so the
anchor-child step reduces to no-ops, and every recursively granted resource is
mentioned in the re-fed plan, so the recursive step skips every collection. -/
theorem C3_expansion_idempotent
    (data : CollectionGraphResourceModel) (srv : Server)
    (st st2 : Option CollectionGraphResourceModel)
    (g1 : CollectionPermissionsGraph) (calls1 : List ApiCall)
    (hflag : data.applyChildCollectionsPermissions = some true)
    (h1 : makeCollectionPermissionsGraphFromModel data st (some srv) = (.ok g1, calls1)) :
    ∃ g2 calls2,
      makeCollectionPermissionsGraphFromModel
        { data with permissions := graphToPermissions g1.groups } st2 (some srv) =
        (.ok g2, calls2) ∧
      ∀ gk c, lookup2 g2.groups gk c = lookup2 g1.groups gk c := by
  cases hseed : seedGroups data.permissions with
  | error err =>
    exfalso
    unfold makeCollectionPermissionsGraphFromModel at h1
    rw [hseed] at h1
    simp at h1
  | ok gs1 =>
    rw [makeGraph_ok_expanded data st srv gs1 hflag hseed] at h1
    rw [Prod.mk.injEq, Except.ok.injEq] at h1
    have hg1 : g1.groups = expandedGroups data.permissions srv gs1 := by
      rw [← h1.1]
    have hgood1 : GoodGraph g1.groups := by
      rw [hg1]
      unfold expandedGroups
      exact goodGraph_applyRecursive _ _ _ _
        (goodGraph_applyAnchorChildren _ _ _ _ (seedGroupsAux_good hseed goodGraph_nil))
    have hfmt1 : ∀ e ∈ g1.groups, ∃ g : Int, e.1 = formatInt g := by
      rw [hg1]
      exact keysFormatted_expanded hseed
    obtain ⟨gs2, hseed2⟩ := seedGroups_readback_ok hgood1 hfmt1
    have hflag2 : ({ data with permissions := graphToPermissions g1.groups } :
        CollectionGraphResourceModel).applyChildCollectionsPermissions = some true := hflag
    refine ⟨_, _,
      makeGraph_ok_expanded { data with permissions := graphToPermissions g1.groups }
        st2 srv gs2 hflag2 hseed2, ?_⟩
    intro gk c
    dsimp only
    have hlk : ∀ gk' c', lookup2 gs2 gk' c' = lookup2 g1.groups gk' c' :=
      seed_readback_lookup hgood1 hfmt1 hseed2
    have hanchor : applyAnchorChildren (fetchChildCollections srv.collections)
        (groupIdsList (graphToPermissions g1.groups))
        (fetchGroupNames srv (groupIdsList (graphToPermissions g1.groups))).1
        (graphToPermissions g1.groups) gs2 = gs2 := by
      refine applyAnchorChildren_eq_of_explicit _ _ _ _ _ ?_
      intro g hgids2
      constructor
      · obtain ⟨p, hp, hpg⟩ := groupIdsList_mem hgids2
        obtain ⟨e, he, g'', cl, hcl, hgatoi, hpe⟩ := mem_graphToPermissions_shape hp
        have hpc : p.collection = some cl.1 := by rw [hpe]
        have hlook := seedGroupsAux_lookup_of_mem hseed2 hp hpg hpc
        exact lookup2_isSome_group hlook
      · intro cid info hm hpar
        have hgids1 : g ∈ groupIdsList data.permissions :=
          gids_readback_sub hseed (hg1 ▸ hgids2)
        have hsome := expanded_anchor_isSome hseed hm hpar hgids1
        rw [← hg1] at hsome
        obtain ⟨l, hl⟩ := Option.isSome_iff_exists.mp hsome
        exact isExplicit_of_mem (graphToPermissions_mem_intro hl) rfl rfl
    by_cases hnil : groupIdsList (graphToPermissions g1.groups) = []
    · show lookup2 (expandedGroups (graphToPermissions g1.groups) srv gs2) gk c =
        lookup2 g1.groups gk c
      unfold expandedGroups
      rw [hnil]
      rw [applyRecursive_eq_of_gids_nil,
        applyAnchorChildren_eq_of_explicit _ _ _ _ _
          (fun g hgm => absurd hgm (List.not_mem_nil g))]
      exact hlk gk c
    · obtain ⟨g2', hg2'⟩ := List.exists_mem_of_ne_nil _ hnil
      have hg2'1 : g2' ∈ groupIdsList data.permissions :=
        gids_readback_sub hseed (hg1 ▸ hg2')
      have hskips : ∀ e ∈ fetchChildCollections srv.collections,
          e.2.Location = "" ∨ extractGroupCollectionId e.2.Location < 0 ∨
          alookup (extractGroupCollectionId e.2.Location)
            (collectionIdToGroupId (fetchChildCollections srv.collections)
              (groupIdsList (graphToPermissions g1.groups))
              (fetchGroupNames srv (groupIdsList (graphToPermissions g1.groups))).1) = none ∨
          isCollectionInPlan (graphToPermissions g1.groups) (formatInt e.1) = true := by
        intro e he
        by_cases hl1 : e.2.Location = ""
        · exact Or.inl hl1
        by_cases hx : extractGroupCollectionId e.2.Location < 0
        · exact Or.inr (Or.inl hx)
        cases ho2 : alookup (extractGroupCollectionId e.2.Location)
            (collectionIdToGroupId (fetchChildCollections srv.collections)
              (groupIdsList (graphToPermissions g1.groups))
              (fetchGroupNames srv (groupIdsList (graphToPermissions g1.groups))).1) with
        | none => exact Or.inr (Or.inr (Or.inl rfl))
        | some owner2 =>
          refine Or.inr (Or.inr (Or.inr ?_))
          obtain ⟨info', hm', hpar', hf2⟩ := c2g_lookup_elim ho2
          rw [List.find?_isSome] at hf2
          obtain ⟨gm, hgm2, hgmpred⟩ := hf2
          cases hnm : alookup gm (fetchGroupNames srv
              (groupIdsList (graphToPermissions g1.groups))).1 with
          | none =>
            rw [hnm] at hgmpred
            exact absurd hgmpred (by simp)
          | some nm =>
            rw [hnm] at hgmpred
            dsimp only at hgmpred
            have hsrvn := (fetchGroupNames_lookup_elim hnm).2
            have hgm1 : gm ∈ groupIdsList data.permissions :=
              gids_readback_sub hseed (hg1 ▸ hgm2)
            have hnm1 : alookup gm
                (fetchGroupNames srv (groupIdsList data.permissions)).1 = some nm :=
              fetchGroupNames_lookup_of_mem hgm1 hsrvn
            have hf1 : ((groupIdsList data.permissions).find? (fun g =>
                match alookup g (fetchGroupNames srv (groupIdsList data.permissions)).1 with
                | some groupName => normalizeName groupName == normalizeName info'.Name
                | none => false)).isSome = true := by
              rw [List.find?_isSome]
              refine ⟨gm, hgm1, ?_⟩
              rw [hnm1]
              exact hgmpred
            have ho1 := c2g_lookup_isSome hm' hpar' hf1
            obtain ⟨owner1, howner1⟩ := Option.isSome_iff_exists.mp ho1
            by_cases hip1 : isCollectionInPlan data.permissions (formatInt e.1) = true
            · obtain ⟨p, hp, gq, hpg, hpc⟩ := isCollectionInPlan_elim hip1
              have hl := declared_lookup_expanded srv hseed hp hpg hpc
              rw [← hg1] at hl
              exact isCollectionInPlan_intro (graphToPermissions_mem_intro hl) rfl rfl
            · have hips : isCollectionInPlan data.permissions (formatInt e.1) = false :=
                Bool.eq_false_iff.mpr hip1
              have hrun1 : lookup2 (expandedGroups data.permissions srv gs1)
                  (formatInt g2') (formatInt e.1) = some (if g2' = owner1 then
                    CollectionPermissionLevelWrite else CollectionPermissionLevelRead) := by
                unfold expandedGroups
                rw [applyRecursive_at (fetchChildCollections srv.collections)
                  (nodupKeys_fetchChildCollections _) (groupIdsList data.permissions)
                  (groupIdsList_nodup _) _ _ _ he owner1 hl1 hx howner1 hips hg2'1]
                rw [if_neg (by rw [isExplicit_false_of_not_inPlan hips]; simp)]
              rw [← hg1] at hrun1
              exact isCollectionInPlan_intro (graphToPermissions_mem_intro hrun1) rfl rfl
      show lookup2 (expandedGroups (graphToPermissions g1.groups) srv gs2) gk c =
        lookup2 g1.groups gk c
      unfold expandedGroups
      rw [hanchor, applyRecursive_eq_of_skips _ _ _ _ _ hskips]
      exact hlk gk c

/-- C3 witness: at the concrete single-edge input whose expansion grants group
7 `write` on root, 16 and 60, re-expanding the flattened output succeeds and
reproduces exactly the same permission map. -/
theorem C3_expansion_idempotent_witness :
    ∃ g2 calls2,
      makeCollectionPermissionsGraphFromModel
        { wDataC1 with permissions := graphToPermissions [("7", [("root", "write"), ("16", "write"), ("60", "write")])] } none (some wSrv) =
        (.ok g2, calls2) ∧
      ∀ gk c, lookup2 g2.groups gk c =
        lookup2 [("7", [("root", "write"), ("16", "write"), ("60", "write")])] gk c :=
  C3_expansion_idempotent wDataC1 wSrv none none
    { revision := 0,
      groups := [("7", [("root", "write"), ("16", "write"), ("60", "write")])] }
    [ApiCall.listCollections, ApiCall.getGroup 7] rfl rfl
